import Mathlib

/-!
Verification of the nettrace (.NET EventPipe trace) parser.

The development shallowly embeds the TypeScript parser
(`NetTraceParser` in the repository's parser module and the
flame-graph builder in the editor provider) into Lean:

* Byte buffers are `List Nat` (each element a byte value 0..255);
  UTF-16 strings are `List Nat` of 16-bit code units.
* JavaScript `Map` objects are association lists with JS `Map`
  semantics (`set` on an existing key replaces the value in place,
  otherwise appends; iteration is insertion order).
* The mutable `BufferReader` is modelled by the monad `RM`:
  a computation takes the buffer and current offset and returns the
  result (`Except String`) together with the offset afterwards.  A
  thrown exception keeps the offset exactly where the throw happened,
  mirroring that JS exceptions do not roll back mutations.
* JS `number` values that are only ever non-negative integers are
  `Nat`; values read with signed decoders (`readInt16LE`, `readInt32LE`,
  `readInt64LE`) are `Int` via two's-complement interpretation.
  `bigint` values produced by unsigned reads are `Nat`.
* `Date` construction is not modelled: `TraceInfo` keeps the raw
  SYSTEMTIME components that feed it.
-/

namespace NetTrace

/-- Association list with JS `Map.get` semantics (first binding wins;
keys are unique by construction). -/
def amGet {κ α : Type} [DecidableEq κ] : List (κ × α) → κ → Option α
  | [], _ => none
  | (k', v) :: rest, k => if k' = k then some v else amGet rest k

/-- Association list with JS `Map.set` semantics: replace in place if
the key exists, else append (insertion order preserved). -/
def amSet {κ α : Type} [DecidableEq κ] : List (κ × α) → κ → α → List (κ × α)
  | [], k, v => [(k, v)]
  | (k', v') :: rest, k, v =>
    if k' = k then (k, v) :: rest else (k', v') :: amSet rest k v

/-- JS `Set.add`: append if absent. -/
def setAdd {α : Type} [DecidableEq α] (s : List α) (a : α) : List α :=
  if a ∈ s then s else s ++ [a]

/-- Byte `i` of the buffer (reads are bounds-checked before use, so the
default is never observed on the paths the source executes). -/
def byteAt (buf : List Nat) (i : Nat) : Nat := buf.getD i 0

/-- Little-endian 16-bit value at `off`. -/
def u16At (buf : List Nat) (off : Nat) : Nat :=
  byteAt buf off + 256 * byteAt buf (off + 1)

/-- Little-endian 32-bit value at `off`. -/
def u32At (buf : List Nat) (off : Nat) : Nat :=
  u16At buf off + 65536 * u16At buf (off + 2)

/-- Little-endian 64-bit value at `off`. -/
def u64At (buf : List Nat) (off : Nat) : Nat :=
  u32At buf off + 4294967296 * u32At buf (off + 4)

/-- Two's-complement reinterpretation of an unsigned `w`-bit value. -/
def toSigned (w : Nat) (n : Nat) : Int :=
  if n < 2 ^ (w - 1) then (n : Int) else (n : Int) - 2 ^ w

/-- Reader computations: buffer and offset in, `Except` result and the
offset after the computation (also on failure) out.  This mirrors the
mutable `BufferReader`: a throw leaves `_offset` wherever it was. -/
def RM (α : Type) : Type := List Nat → Nat → Except String α × Nat

def rmPure {α : Type} (a : α) : RM α := fun _ off => (Except.ok a, off)

def rmBind {α β : Type} (x : RM α) (f : α → RM β) : RM β :=
  fun buf off =>
    match x buf off with
    | (Except.ok a, off') => f a buf off'
    | (Except.error e, off') => (Except.error e, off')

instance : Monad RM where
  pure := rmPure
  bind := rmBind

/-- `throw new Error(msg)`. -/
def rmThrow {α : Type} (msg : String) : RM α :=
  fun _ off => (Except.error msg, off)

/-- `hasBytes(count)`: `offset + count <= buffer.length`. -/
def rmHasBytes (count : Nat) : RM Bool :=
  fun buf off => (Except.ok (decide (off + count ≤ buf.length)), off)

/-- Current offset (the `offset` getter). -/
def rmOffset : RM Nat := fun _ off => (Except.ok off, off)

/-- `remaining`: `buffer.length - offset`. -/
def rmRemaining : RM Nat := fun buf off => (Except.ok (buf.length - off), off)

/-- `readByte()`. -/
def readByte : RM Nat :=
  fun buf off =>
    if off + 1 ≤ buf.length then (Except.ok (byteAt buf off), off + 1)
    else (Except.error ("End of buffer at offset " ++ toString off), off)

/-- `peekByte()`. -/
def peekByte : RM Nat :=
  fun buf off =>
    if off + 1 ≤ buf.length then (Except.ok (byteAt buf off), off)
    else (Except.error ("End of buffer at offset " ++ toString off), off)

/-- `readUInt16LE()`. -/
def readUInt16LE : RM Nat :=
  fun buf off =>
    if off + 2 ≤ buf.length then (Except.ok (u16At buf off), off + 2)
    else (Except.error ("End of buffer at offset " ++ toString off), off)

/-- `readInt16LE()` (signed). -/
def readInt16LE : RM Int :=
  fun buf off =>
    if off + 2 ≤ buf.length then (Except.ok (toSigned 16 (u16At buf off)), off + 2)
    else (Except.error ("End of buffer at offset " ++ toString off), off)

/-- `readUInt32LE()`. -/
def readUInt32LE : RM Nat :=
  fun buf off =>
    if off + 4 ≤ buf.length then (Except.ok (u32At buf off), off + 4)
    else (Except.error ("End of buffer at offset " ++ toString off), off)

/-- `readInt32LE()` (signed). -/
def readInt32LE : RM Int :=
  fun buf off =>
    if off + 4 ≤ buf.length then (Except.ok (toSigned 32 (u32At buf off)), off + 4)
    else (Except.error ("End of buffer at offset " ++ toString off), off)

/-- `readUInt64LE()` (bigint, unsigned). -/
def readUInt64LE : RM Nat :=
  fun buf off =>
    if off + 8 ≤ buf.length then (Except.ok (u64At buf off), off + 8)
    else (Except.error ("End of buffer at offset " ++ toString off), off)

/-- `readInt64LE()` (bigint, signed). -/
def readInt64LE : RM Int :=
  fun buf off =>
    if off + 8 ≤ buf.length then (Except.ok (toSigned 64 (u64At buf off)), off + 8)
    else (Except.error ("End of buffer at offset " ++ toString off), off)

/-- `readBytes(count)`: the slice `[offset, offset + count)`. -/
def readBytes (count : Nat) : RM (List Nat) :=
  fun buf off =>
    if off + count ≤ buf.length then
      (Except.ok ((buf.drop off).take count), off + count)
    else
      (Except.error ("End of buffer at offset " ++ toString off ++ ", need " ++
        toString count ++ " bytes"), off)

/-- Loop body of `readVarUInt()`.  The JS accumulator is a 32-bit value
(`result |= (b & 0x7f) << shift` uses 32-bit operands, `result >>> 0`
reinterprets as unsigned); the shifted chunk is truncated to 32 bits
before the bitwise or.  The loop runs while the continuation bit is set
and `shift < 35`, i.e. at most 5 bytes. -/
def readVarUIntAux : Nat → Nat → Nat → RM Nat
  | 0, result, _ => pure result
  | fuel + 1, result, shift => do
    let hb ← rmHasBytes 1
    if !hb then rmThrow "End of buffer reading varint" else
    let b ← readByte
    let result := result ||| ((b &&& 0x7f) <<< shift) % 2 ^ 32
    let shift := shift + 7
    if (b &&& 0x80) ≠ 0 && shift < 35 then
      readVarUIntAux fuel result shift
    else
      pure result

/-- `readVarUInt()`: unsigned LEB128, at most 5 bytes, 32-bit result. -/
def readVarUInt : RM Nat := readVarUIntAux 5 0 0

/-- Loop body of `readVarInt64()` / `readVarUInt64()`: bigint
accumulator, loop while the continuation bit is set and `shift < 70`,
i.e. at most 10 bytes.  (Despite its name, `readVarInt64` performs no
sign decoding; both functions compute the same value.) -/
def readVarNat64Aux : Nat → Nat → Nat → RM Nat
  | 0, result, _ => pure result
  | fuel + 1, result, shift => do
    let hb ← rmHasBytes 1
    if !hb then rmThrow "End of buffer reading varint64" else
    let b ← readByte
    let result := result ||| ((b &&& 0x7f) <<< shift)
    let shift := shift + 7
    if (b &&& 0x80) ≠ 0 && shift < 70 then
      readVarNat64Aux fuel result shift
    else
      pure result

/-- `readVarInt64()`. -/
def readVarInt64 : RM Nat := readVarNat64Aux 10 0 0

/-- `readVarUInt64()`. -/
def readVarUInt64 : RM Nat := readVarNat64Aux 10 0 0

/-- Loop of `readNullTerminatedUTF16()`: while two bytes remain, read a
16-bit unit; stop at a zero unit.  Each iteration consumes two bytes,
so `buf.length` rounds of fuel always suffice. -/
def ntUTF16Aux : Nat → List Nat → Nat → List Nat × Nat
  | 0, _, off => ([], off)
  | fuel + 1, buf, off =>
    if off + 2 ≤ buf.length then
      let code := u16At buf off
      if code = 0 then ([], off + 2)
      else
        let (rest, off') := ntUTF16Aux fuel buf (off + 2)
        (code :: rest, off')
    else ([], off)

/-- `readNullTerminatedUTF16()`: never throws; a terminator that
straddles the end of the buffer simply ends the loop. -/
def readNullTerminatedUTF16 : RM (List Nat) :=
  fun buf off =>
    let (units, off') := ntUTF16Aux buf.length buf off
    (Except.ok units, off')

/-- `readAsciiString(length)`: bounds check `offset + length <=
buffer.length` over mathematical integers (`length` comes from a signed
32-bit read and may be negative, in which case Node yields an empty
string); the decoded bytes keep only their low 7 bits, as Node's
`'ascii'` decoding does.  A negative resulting offset is clamped to 0. -/
def readAsciiString (len : Int) : RM (List Nat) :=
  fun buf off =>
    if (off : Int) + len ≤ (buf.length : Int) then
      (Except.ok (((buf.drop off).take len.toNat).map (fun b => b &&& 0x7f)),
       ((off : Int) + len).toNat)
    else
      (Except.error ("End of buffer reading string of length " ++ toString len), off)

/-- `skip(count)`: saturating forward skip, no-op unless `count > 0`. -/
def rmSkip (count : Int) : RM Unit :=
  fun buf off =>
    if count > 0 then (Except.ok (), min (off + count.toNat) buf.length)
    else (Except.ok (), off)

/-- `subReader(length)`: read `length` bytes and return them as a fresh
buffer (the sub-reader starts at offset 0 on that slice). -/
def subReader (len : Nat) : RM (List Nat) := readBytes len

end NetTrace

namespace NetTrace

/-- `TraceInfo`.  The `Date` object is represented by the raw
SYSTEMTIME components that are passed to `Date.UTC`. -/
structure TraceInfo where
  year : Int
  month : Int
  day : Int
  hour : Int
  minute : Int
  second : Int
  millisecond : Int
  syncTimeTicks : Int
  tickFrequency : Int
  pointerSize : Int
  processId : Int
  numberOfProcessors : Int
  cpuSamplingRate : Int
  deriving Repr, DecidableEq

/-- `FieldMetadata`: field name (UTF-16 units) and type code. -/
structure FieldMetadata where
  name : List Nat
  typeCode : Int
  deriving Repr, DecidableEq

/-- `EventMetadata`. -/
structure EventMetadata where
  metadataId : Int
  providerName : List Nat
  eventId : Int
  eventName : List Nat
  keywords : Int
  version : Int
  level : Int
  opcode : Int
  fields : List FieldMetadata
  deriving Repr, DecidableEq

/-- `StackInfo`. -/
structure StackInfo where
  stackId : Nat
  addresses : List Nat
  deriving Repr, DecidableEq

/-- `MethodInfo`. -/
structure MethodInfo where
  methodId : Nat
  moduleId : Nat
  methodStartAddress : Nat
  methodSize : Nat
  methodToken : Nat
  methodFlags : Nat
  methodNamespace : List Nat
  methodName : List Nat
  methodSignature : List Nat
  deriving Repr, DecidableEq

/-- `MethodProfile`. -/
structure MethodProfile where
  methodName : List Nat
  inclusiveCount : Nat
  exclusiveCount : Nat
  inclusiveTimeMs : Nat
  exclusiveTimeMs : Nat
  deriving Repr, DecidableEq

/-- `AllocationEvent`. -/
structure AllocationEvent where
  typeName : List Nat
  size : Nat
  timestamp : Nat
  stackTrace : Option (List (List Nat))
  deriving Repr, DecidableEq

/-- `AllocationInfo`. -/
structure AllocationInfo where
  typeName : List Nat
  count : Nat
  totalSize : Nat
  allocations : List AllocationEvent
  deriving Repr, DecidableEq

/-- A `{count, size}` pair used in the per-stack and per-type maps. -/
structure CountSize where
  count : Nat
  size : Nat
  deriving Repr, DecidableEq

/-- Entry of `allocationSamples`: per-stack count, size and per-type
breakdown. -/
structure AllocSample where
  count : Nat
  size : Nat
  types : List (List Nat × CountSize)
  deriving Repr, DecidableEq

/-- `TypeInfo` of the FastSerialization type registry. -/
structure TypeInfo where
  typeIndex : Nat
  version : Int
  minReaderVersion : Int
  typeName : List Nat
  deriving Repr, DecidableEq

/-- Parser instance state plus the `ParseResult` under construction.
The TypeScript class keeps some of these on `this` and some on the
`result` object; both are single-owner mutable state for the duration
of `parse()` and are merged into one record here. -/
structure PSt where
  metadata : List (Int × EventMetadata) := []
  -- `this.stacks` in the source (`stacks` is reserved in Lean+Mathlib)
  stackTable : List (Nat × StackInfo) := []
  pointerSize : Int := 8
  processId : Int := 0
  errors : List String := []
  typeRegistry : List (Nat × TypeInfo) := []
  nextTypeIndex : Nat := 0
  cpuSamples : List (Nat × Nat) := []
  totalEvents : Nat := 0
  allocationEvents : Nat := 0
  providers : List (List Nat) := []
  metadataBlocks : Nat := 0
  eventBlocks : Nat := 0
  eventCountsByMetadataId : List (Nat × Nat) := []
  traceInfo : Option TraceInfo := none
  allocations : List (List Nat × AllocationInfo) := []
  methods : List (Nat × MethodInfo) := []
  methodsByAddress : List (Nat × MethodInfo) := []
  methodProfiles : List (List Nat × MethodProfile) := []
  allocationSamples : List (Nat × AllocSample) := []
  typeStackDistribution : List (List Nat × List (Nat × CountSize)) := []
  -- `result.debugInfo.eventCounts`, keyed by the code units of the
  -- string `provider:eventId`
  eventCounts : List (List Nat × Nat) := []
  deriving Repr, DecidableEq

/-- The fresh state built at the top of `parse()` (initial field values
of the class and of the result literal). -/
def initSt : PSt := {}

/-- ASCII code units of `'Microsoft-Windows-DotNETRuntime'`. -/
def DOTNET_RUNTIME_PROVIDER : List Nat :=
  [77, 105, 99, 114, 111, 115, 111, 102, 116, 45, 87, 105, 110, 100, 111,
   119, 115, 45, 68, 111, 116, 78, 69, 84, 82, 117, 110, 116, 105, 109, 101]

/-- ASCII code units of `'Microsoft-Windows-DotNETRuntimeRundown'`. -/
def DOTNET_RUNTIME_RUNDOWN_PROVIDER : List Nat :=
  DOTNET_RUNTIME_PROVIDER ++ [82, 117, 110, 100, 111, 119, 110]

/-- ASCII code units of `'Microsoft-DotNETCore-SampleProfiler'`. -/
def SAMPLE_PROFILER_PROVIDER : List Nat :=
  [77, 105, 99, 114, 111, 115, 111, 102, 116, 45, 68, 111, 116, 78, 69, 84,
   67, 111, 114, 101, 45, 83, 97, 109, 112, 108, 101, 80, 114, 111, 102,
   105, 108, 101, 114]

def GC_ALLOCATION_TICK_EVENT_ID : Int := 10
def METHOD_LOAD_VERBOSE_EVENT_ID : Int := 143
def METHOD_JITTING_STARTED_EVENT_ID : Int := 145
def METHOD_DC_END_VERBOSE_EVENT_ID : Int := 144

end NetTrace

namespace NetTrace

/-- Parser-method computations: thread the parser/result state `PSt`
together with a reader (`RM`) over one fixed buffer.  On failure the
state and offset reached so far are retained (JS exceptions do not roll
back mutations). -/
def PM (α : Type) : Type := PSt → List Nat → Nat → Except String α × PSt × Nat

def pmPure {α : Type} (a : α) : PM α := fun st _ off => (Except.ok a, st, off)

def pmBind {α β : Type} (x : PM α) (f : α → PM β) : PM β :=
  fun st buf off =>
    match x st buf off with
    | (Except.ok a, st', off') => f a st' buf off'
    | (Except.error e, st', off') => (Except.error e, st', off')

instance : Monad PM where
  pure := pmPure
  bind := pmBind

/-- Lift a pure reader computation into `PM`. -/
def liftRM {α : Type} (r : RM α) : PM α :=
  fun st buf off =>
    match r buf off with
    | (e, off') => (e, st, off')

/-- Read the current parser state. -/
def getSt : PM PSt := fun st _ off => (Except.ok st, st, off)

/-- Update the parser state. -/
def modSt (f : PSt → PSt) : PM Unit :=
  fun st _ off => (Except.ok (), f st, off)

/-- `try { m } catch { ... }` keeping the value: `none` when `m` threw
(state and offset as reached at the throw). -/
def pmTry {α : Type} (m : PM α) : PM (Option α) :=
  fun st buf off =>
    match m st buf off with
    | (Except.ok a, st', off') => (Except.ok (some a), st', off')
    | (Except.error _, st', off') => (Except.ok none, st', off')

/-- Run a parser-method computation on its own fresh reader over `buf`
(the pattern `const reader = new BufferReader(data)`). -/
def runPM {α : Type} (m : PM α) (st : PSt) (buf : List Nat) :
    Except String α × PSt :=
  match m st buf 0 with
  | (e, st', _) => (e, st')

/-- `parseTraceBlob(data)`: SYSTEMTIME, tick info, pointer size,
process id, processor count, sampling rate.  Assigns
`this.pointerSize` and `this.processId` as it goes. -/
def parseTraceBlobM : PM TraceInfo := do
  let year ← liftRM readInt16LE
  let month ← liftRM readInt16LE
  let _ ← liftRM readInt16LE       -- dayOfWeek
  let day ← liftRM readInt16LE
  let hour ← liftRM readInt16LE
  let minute ← liftRM readInt16LE
  let second ← liftRM readInt16LE
  let millisecond ← liftRM readInt16LE
  let syncTimeTicks ← liftRM readInt64LE
  let tickFrequency ← liftRM readInt64LE
  let ps ← liftRM readInt32LE
  let pid ← liftRM readInt32LE
  modSt (fun st => { st with pointerSize := ps, processId := pid })
  let numberOfProcessors ← liftRM readInt32LE
  let cpuSamplingRate ← liftRM readInt32LE
  pure { year, month, day, hour, minute, second, millisecond,
         syncTimeTicks, tickFrequency, pointerSize := ps,
         processId := pid, numberOfProcessors, cpuSamplingRate }

/-- `parseTraceBlob` as called on a data slice. -/
def parseTraceBlob (st : PSt) (data : List Nat) : Except String TraceInfo × PSt :=
  runPM parseTraceBlobM st data

/-- Field loop of `parseMetadataPayload`: up to `fieldCount` fields,
stopping when at most 4 bytes remain; an array type code (19) carries a
subordinate element type code that is consumed and dropped. -/
def readMetadataFields : Nat → PM (List FieldMetadata)
  | 0 => pure []
  | n + 1 => do
    let rem ← liftRM rmRemaining
    if rem > 4 then
      let typeCode ← liftRM readInt32LE
      if typeCode = 19 ∧ rem - 4 ≥ 4 then
        let _ ← liftRM readInt32LE
        let fieldName ← liftRM readNullTerminatedUTF16
        let rest ← readMetadataFields n
        pure ({ name := fieldName, typeCode } :: rest)
      else
        let fieldName ← liftRM readNullTerminatedUTF16
        let rest ← readMetadataFields n
        pure ({ name := fieldName, typeCode } :: rest)
    else
      pure []

/-- Body of `parseMetadataPayload(reader)` (the part inside `try`):
int32 metadata id (authoritative), provider name, event id, event name,
keywords, version, level, field list; then store the schema under the
payload-carried id. -/
def parseMetadataPayloadM : PM Unit := do
  let payloadMetadataId ← liftRM readInt32LE
  let providerName ← liftRM readNullTerminatedUTF16
  let eventId ← liftRM readInt32LE
  let eventName ← liftRM readNullTerminatedUTF16
  let keywords ← liftRM readInt64LE
  let version ← liftRM readInt32LE
  let level ← liftRM readInt32LE
  modSt (fun st => { st with providers := setAdd st.providers providerName })
  let rem ← liftRM rmRemaining
  let fields ←
    if rem ≥ 4 then do
      let fieldCount ← liftRM readInt32LE
      readMetadataFields fieldCount.toNat
    else
      pure []
  let md : EventMetadata :=
    { metadataId := payloadMetadataId, providerName, eventId, eventName,
      keywords, version, level, opcode := 0, fields }
  modSt (fun st => { st with metadata := amSet st.metadata payloadMetadataId md })

/-- `parseMetadataPayload` with its internal `catch` (a failure is
swallowed; state mutations made before the failure are kept). -/
def parseMetadataPayload (st : PSt) (payload : List Nat) : PSt :=
  match runPM parseMetadataPayloadM st payload with
  | (_, st') => st'

/-- The per-block metadata pseudo-event header state (PerfView-style,
passed by reference between events of one block). -/
structure MetaHeaderState where
  metadataId : Nat := 0
  sequenceNumber : Int := 0
  captureThreadId : Int := 0
  threadId : Int := 0
  stackId : Int := 0
  timestamp : Int := 0
  payloadSize : Int := 0
  deriving Repr, DecidableEq

/-- `if (condition) { effect }` inside a parser method. -/
def pmWhen (c : Prop) [Decidable c] (m : PM Unit) : PM Unit :=
  if c then m else pure ()

/-- Bit 0 (0x01) of a compressed metadata header: MetadataId present. -/
def mdReadMetadataId (flags : Nat) (hst : MetaHeaderState) : PM MetaHeaderState :=
  if flags &&& 0x01 ≠ 0 then do
    let mid ← liftRM readVarUInt
    pure { hst with metadataId := mid }
  else pure hst

/-- Bit 1 (0x02): CaptureThreadAndSequence present (sequence delta,
capture thread id, processor number); otherwise a nonzero metadata id
increments the sequence number. -/
def mdReadSeqGroup (flags : Nat) (hst : MetaHeaderState) : PM MetaHeaderState :=
  if flags &&& 0x02 ≠ 0 then do
    let seqDelta ← liftRM readVarUInt
    let ctid ← liftRM readVarInt64
    let _ ← liftRM readVarUInt   -- processorNumber (ignored)
    pure { hst with sequenceNumber := hst.sequenceNumber + seqDelta + 1,
                    captureThreadId := (ctid : Int) }
  else
    if hst.metadataId ≠ 0 then
      pure { hst with sequenceNumber := hst.sequenceNumber + 1 }
    else pure hst

/-- Bit 2 (0x04): ThreadId present. -/
def mdReadThreadId (flags : Nat) (hst : MetaHeaderState) : PM MetaHeaderState :=
  if flags &&& 0x04 ≠ 0 then do
    let tid ← liftRM readVarInt64
    pure { hst with threadId := (tid : Int) }
  else pure hst

/-- Bit 3 (0x08): StackId present. -/
def mdReadStackId (flags : Nat) (hst : MetaHeaderState) : PM MetaHeaderState :=
  if flags &&& 0x08 ≠ 0 then do
    let sid ← liftRM readVarUInt
    pure { hst with stackId := (sid : Int) }
  else pure hst

/-- Bit 7 (0x80): DataLength (PayloadSize) present; if absent, the
previous payload size is reused. -/
def mdReadPayloadSize (flags : Nat) (hst : MetaHeaderState) : PM MetaHeaderState :=
  if flags &&& 0x80 ≠ 0 then do
    let psize ← liftRM readVarUInt
    pure { hst with payloadSize := (psize : Int) }
  else pure hst

/-- The payload hand-off shared by both metadata header formats:
`if (state.payloadSize > 0 && reader.hasBytes(state.payloadSize))`
slice a sub-reader and run `parseMetadataPayload` on it. -/
def mdHandlePayload (hst : MetaHeaderState) : PM Unit :=
  if hst.payloadSize > 0 then do
    let hb ← liftRM (rmHasBytes hst.payloadSize.toNat)
    if hb then do
      let payload ← liftRM (subReader hst.payloadSize.toNat)
      let st ← getSt
      modSt (fun _ => parseMetadataPayload st payload)
    else pure ()
  else pure ()

/-- `parseMetadataEvent(reader, compressed, state)`: decode one
metadata pseudo-event header (uncompressed fixed layout or compressed
flag-driven layout), then hand the payload slice to
`parseMetadataPayload`.  Returns the updated header state. -/
def parseMetadataEvent (compressed : Bool) (hst : MetaHeaderState) :
    PM MetaHeaderState :=
  if !compressed then do
    -- Uncompressed format (LayoutV4), 80-byte header
    let _ ← liftRM readInt32LE       -- eventSize
    let midRaw ← liftRM readUInt32LE -- readInt32LE() & 0x7FFFFFFF: low 31 bits
    let seq ← liftRM readInt32LE
    let tid ← liftRM readInt64LE
    let ctid ← liftRM readInt64LE
    let _ ← liftRM readInt32LE       -- procNumber
    let sid ← liftRM readInt32LE
    let ts ← liftRM readInt64LE
    let _ ← liftRM (rmSkip 16)       -- activityId
    let _ ← liftRM (rmSkip 16)       -- relatedActivityId
    let psize ← liftRM readInt32LE
    let hst : MetaHeaderState :=
      { metadataId := midRaw &&& 0x7FFFFFFF, sequenceNumber := seq,
        captureThreadId := ctid, threadId := tid, stackId := sid,
        timestamp := ts, payloadSize := psize }
    let _ ← mdHandlePayload hst
    pure hst
  else do
    let flags ← liftRM readByte
    let hst ← mdReadMetadataId flags hst
    let hst ← mdReadSeqGroup flags hst
    let hst ← mdReadThreadId flags hst
    let hst ← mdReadStackId flags hst
    -- Timestamp delta is ALWAYS read (not optional)
    let timestampDelta ← liftRM readVarUInt64
    let hst := { hst with timestamp := hst.timestamp + timestampDelta }
    let _ ← pmWhen (flags &&& 0x10 ≠ 0) (liftRM (rmSkip 16))  -- ActivityId
    let _ ← pmWhen (flags &&& 0x20 ≠ 0) (liftRM (rmSkip 16))  -- RelatedActivityId
    -- Bit 6 (0x40): sorted flag, no data
    let hst ← mdReadPayloadSize flags hst
    let _ ← mdHandlePayload hst
    pure hst

/-- The `while (reader.remaining > 0)` loop of `parseMetadataBlock`:
each failed pseudo-event decode breaks the loop (its catch only logs).
Each successful iteration consumes at least one byte, so
`data.length + 1` rounds of fuel are never exhausted first. -/
def mdEventLoop (compressed : Bool) : Nat → MetaHeaderState → PM Unit
  | 0, _ => pure ()
  | fuel + 1, hst => do
    let rem ← liftRM rmRemaining
    if rem > 0 then do
      let r ← pmTry (parseMetadataEvent compressed hst)
      match r with
      | some hst' => mdEventLoop compressed fuel hst'
      | none => pure ()
    else pure ()

/-- `parseMetadataBlock(data)`: block header (int16 size, int16 flags,
skip the rest of the header), then the pseudo-event loop.  Header-read
failures propagate to `processBlock`. -/
def parseMetadataBlockM (dataLen : Nat) : PM Unit := do
  let headerSize ← liftRM readInt16LE
  let flags ← liftRM readInt16LE
  let _ ← (if headerSize > 4 then liftRM (rmSkip (headerSize - 4)) else pure ())
  -- bit 0 of flags selects header compression
  let compressed := flags % 2 ≠ 0
  mdEventLoop compressed (dataLen + 1) {}

def parseMetadataBlock (st : PSt) (data : List Nat) : Except String Unit × PSt :=
  runPM (parseMetadataBlockM data.length) st data

end NetTrace

namespace NetTrace

/-- UTF-16 code units of `'<unknown>'`. -/
def UNKNOWN_TYPE : List Nat := [60, 117, 110, 107, 110, 111, 119, 110, 62]

/-- Code units of the JS `` `0x${addr.toString(16)}` `` template:
`0x` followed by lowercase hex digits. -/
def hexCodes (n : Nat) : List Nat :=
  [48, 120] ++ (Nat.toDigits 16 n).map Char.toNat

/-- `hasBytes` with a signed count (a negative count trivially fits). -/
def rmHasBytesI (count : Int) : RM Bool :=
  fun buf off => (Except.ok (decide ((off : Int) + count ≤ (buf.length : Int))), off)

/-- `addAllocation(result, typeName, size, timestamp, stackId)`:
per-type aggregate, per-stack samples with per-type breakdown, reverse
type→stack index, and the individual event list (with the stack trace
resolved to hex strings when the stack id is known). -/
def addAllocation (st : PSt) (typeName : List Nat) (size : Nat)
    (timestamp : Nat) (stackId : Nat) : PSt :=
  let allocInfo :=
    match amGet st.allocations typeName with
    | some a => a
    | none => { typeName, count := 0, totalSize := 0, allocations := [] }
  let allocInfo :=
    { allocInfo with count := allocInfo.count + 1, totalSize := allocInfo.totalSize + size }
  let st :=
    if stackId > 0 then
      let st :=
        match amGet st.allocationSamples stackId with
        | some existing =>
          let types :=
            match amGet existing.types typeName with
            | some ti => amSet existing.types typeName { count := ti.count + 1, size := ti.size + size }
            | none => amSet existing.types typeName { count := 1, size }
          let existing :=
            { existing with count := existing.count + 1, size := existing.size + size, types }
          { st with allocationSamples := amSet st.allocationSamples stackId existing }
        | none =>
          let types := amSet ([] : List (List Nat × CountSize)) typeName { count := 1, size }
          { st with allocationSamples := amSet st.allocationSamples stackId { count := 1, size, types } }
      let typeStacks :=
        match amGet st.typeStackDistribution typeName with
        | some ts => ts
        | none => []
      let typeStacks :=
        match amGet typeStacks stackId with
        | some sd => amSet typeStacks stackId { count := sd.count + 1, size := sd.size + size }
        | none => amSet typeStacks stackId { count := 1, size }
      { st with typeStackDistribution := amSet st.typeStackDistribution typeName typeStacks }
    else st
  let stackTrace :=
    match amGet st.stackTable stackId with
    | some stack => some (stack.addresses.map hexCodes)
    | none => none
  let ev : AllocationEvent := { typeName, size, timestamp, stackTrace }
  let allocInfo := { allocInfo with allocations := allocInfo.allocations ++ [ev] }
  { st with allocations := amSet st.allocations typeName allocInfo }

/-- Body of `parseAllocationEvent` inside its `try`: the
GCAllocationTick payload, parsed defensively by remaining-bytes
checks. -/
def parseAllocationEventM (timestamp : Nat) (stackId : Nat) : PM Unit := do
  let allocationAmount ← liftRM readUInt32LE
  let _allocationKind ← liftRM readUInt32LE
  let _ ← liftRM readUInt16LE        -- clrInstanceId
  let rem ← liftRM rmRemaining
  -- allocationAmount64 (more accurate) overrides the 32-bit amount
  let allocSize ← if rem ≥ 8 then liftRM readUInt64LE else pure allocationAmount
  let rem2 ← liftRM rmRemaining
  let st0 ← getSt
  -- Skip TypeID (pointer size)
  let _ ← (if (rem2 : Int) ≥ st0.pointerSize then liftRM (rmSkip st0.pointerSize) else pure ())
  let tn ← liftRM readNullTerminatedUTF16
  let typeName := if tn = [] then UNKNOWN_TYPE else tn
  let st ← getSt
  modSt (fun _ => addAllocation st typeName allocSize timestamp stackId)

/-- `parseAllocationEvent(payload, timestamp, stackId, result)`:
payloads shorter than 10 bytes are skipped; failures inside are
swallowed by the `catch`. -/
def parseAllocationEvent (st : PSt) (payload : List Nat)
    (timestamp : Nat) (stackId : Nat) : PSt :=
  if payload.length < 10 then st
  else
    match runPM (pmTry (parseAllocationEventM timestamp stackId)) st payload with
    | (_, st') => st'

/-- Body of `parseMethodLoadVerboseEvent` inside its `try`. -/
def parseMethodLoadVerboseEventM : PM Unit := do
  let methodId ← liftRM readUInt64LE
  let moduleId ← liftRM readUInt64LE
  let methodStartAddress ← liftRM readUInt64LE
  let methodSize ← liftRM readUInt32LE
  let methodToken ← liftRM readUInt32LE
  let methodFlags ← liftRM readUInt32LE
  let methodNamespace ← liftRM readNullTerminatedUTF16
  let methodName ← liftRM readNullTerminatedUTF16
  let methodSignature ← liftRM readNullTerminatedUTF16
  let mi : MethodInfo :=
    { methodId, moduleId, methodStartAddress, methodSize, methodToken,
      methodFlags, methodNamespace, methodName, methodSignature }
  modSt (fun st =>
    { st with methods := amSet st.methods methodId mi,
              methodsByAddress := amSet st.methodsByAddress methodStartAddress mi })

/-- `parseMethodLoadVerboseEvent(payload, result)` with its `catch`. -/
def parseMethodLoadVerboseEvent (st : PSt) (payload : List Nat) : PSt :=
  match runPM (pmTry parseMethodLoadVerboseEventM) st payload with
  | (_, st') => st'

/-- Body of `parseMethodJittingStartedEvent` inside its `try`: only
adds the method if it is not already known (load-verbose carries
more information). -/
def parseMethodJittingStartedEventM : PM Unit := do
  let methodId ← liftRM readUInt64LE
  let moduleId ← liftRM readUInt64LE
  let methodToken ← liftRM readUInt32LE
  let _ ← liftRM readUInt32LE        -- methodILSize
  let methodNamespace ← liftRM readNullTerminatedUTF16
  let methodName ← liftRM readNullTerminatedUTF16
  let methodSignature ← liftRM readNullTerminatedUTF16
  modSt (fun st =>
    match amGet st.methods methodId with
    | some _ => st
    | none =>
      let mi : MethodInfo :=
        { methodId, moduleId, methodStartAddress := 0, methodSize := 0,
          methodToken, methodFlags := 0, methodNamespace, methodName,
          methodSignature }
      { st with methods := amSet st.methods methodId mi })

/-- `parseMethodJittingStartedEvent(payload, result)` with its `catch`. -/
def parseMethodJittingStartedEvent (st : PSt) (payload : List Nat) : PSt :=
  match runPM (pmTry parseMethodJittingStartedEventM) st payload with
  | (_, st') => st'

/-- `processCpuSample`: one CPU sample for this stack id (0 ignored). -/
def processCpuSample (st : PSt) (stackId : Nat) : PSt :=
  if stackId > 0 then
    let prev := (amGet st.cpuSamples stackId).getD 0
    { st with cpuSamples := amSet st.cpuSamples stackId (prev + 1) }
  else st

/-- `processEvent`: counters, schema lookup, and the well-known-event
dispatch table. -/
def processEvent (st : PSt) (metadataId : Nat) (_threadId : Nat)
    (timestamp : Nat) (stackId : Nat) (payload : List Nat) : PSt :=
  let st := { st with totalEvents := st.totalEvents + 1 }
  let prevCount := (amGet st.eventCountsByMetadataId metadataId).getD 0
  let st := { st with eventCountsByMetadataId := amSet st.eventCountsByMetadataId metadataId (prevCount + 1) }
  match amGet st.metadata (metadataId : Int) with
  | none => st
  | some meta =>
    let st :=
      if meta.providerName = DOTNET_RUNTIME_PROVIDER then
        if meta.eventId = GC_ALLOCATION_TICK_EVENT_ID then
          parseAllocationEvent { st with allocationEvents := st.allocationEvents + 1 }
            payload timestamp stackId
        else if meta.eventId = METHOD_LOAD_VERBOSE_EVENT_ID then
          parseMethodLoadVerboseEvent st payload
        else if meta.eventId = METHOD_JITTING_STARTED_EVENT_ID then
          parseMethodJittingStartedEvent st payload
        else st
      else st
    let st :=
      if meta.providerName = DOTNET_RUNTIME_RUNDOWN_PROVIDER ∧
         meta.eventId = METHOD_DC_END_VERBOSE_EVENT_ID then
        parseMethodLoadVerboseEvent st payload
      else st
    if meta.providerName = SAMPLE_PROFILER_PROVIDER then
      processCpuSample st stackId
    else st

end NetTrace

namespace NetTrace

/-- The per-block carry state of `parseEvents` (header compression). -/
structure EventState where
  prevMetadataId : Nat := 0
  prevThreadId : Nat := 0
  prevStackId : Nat := 0
  prevTimestamp : Nat := 0
  prevPayloadSize : Nat := 0
  deriving Repr, DecidableEq

/-- One decoded compressed event: fully-resolved header fields and the
payload (`none` when `payloadSize` is zero or the payload bytes are not
all present, in which case the source dispatches nothing). -/
structure CEvent where
  metadataId : Nat
  threadId : Nat
  stackId : Nat
  timestamp : Nat
  payloadSize : Nat
  payload : Option (List Nat)
  deriving Repr, DecidableEq

/-- A flag-conditional header field: read it when the flag bit is set,
else reuse the carried value (`eventFlags & bit ? reader.readX() :
prev`). -/
def readIfFlag (present : Prop) [Decidable present] (rd : RM Nat) (prev : Nat) : RM Nat :=
  if present then rd else pure prev

/-- A flag-conditional side effect (`if (eventFlags & bit) { ... }`). -/
def rmWhen (c : Prop) [Decidable c] (m : RM Unit) : RM Unit :=
  if c then m else pure ()

/-- The payload step of the compressed event loop body:
`if (payloadSize > 0 && reader.hasBytes(payloadSize))` read the payload
bytes, else dispatch nothing. -/
def readEventPayload (payloadSize : Nat) : RM (Option (List Nat)) := do
  if payloadSize > 0 then do
    let hb ← rmHasBytes payloadSize
    if hb then do
      let p ← readBytes payloadSize
      pure (some p)
    else pure none
  else pure none

/-- The bit-1 group of the compressed header: unsigned varint sequence
delta, signed varint capture thread id, unsigned varint processor
number — all read and dropped by `parseEvents`. -/
def readSeqGroup : RM Unit := do
  let _ ← readVarUInt     -- sequenceDelta
  let _ ← readVarInt64    -- captureThreadId
  let _ ← readVarUInt     -- processorNumber
  pure ()

/-- The compressed branch of the `parseEvents` loop body after the
flags byte: flag-driven optional varint fields (absent fields reuse the
carry), the always-present unsigned varint timestamp delta, optional
activity-id skips, optional payload size, and the payload bytes.
Returns the event and the carry state for the next event. -/
def parseCompressedEventBody (eventFlags : Nat) (es : EventState) :
    RM (CEvent × EventState) := do
  -- Bit 0: MetadataId present
  let metadataId ← readIfFlag (eventFlags &&& 0x01 ≠ 0) readVarUInt es.prevMetadataId
  -- Bit 1: Sequence/CaptureThread/Processor present (read and dropped)
  let _ ← rmWhen (eventFlags &&& 0x02 ≠ 0) readSeqGroup
  -- Bit 2: ThreadId present
  let threadId ← readIfFlag (eventFlags &&& 0x04 ≠ 0) readVarInt64 es.prevThreadId
  -- Bit 3: StackId present
  let stackId ← readIfFlag (eventFlags &&& 0x08 ≠ 0) readVarUInt es.prevStackId
  -- Timestamp delta always present (unsigned)
  let timestampDelta ← readVarUInt64
  let timestamp := es.prevTimestamp + timestampDelta
  -- Bit 4: ActivityId present
  let _ ← rmWhen (eventFlags &&& 0x10 ≠ 0) (rmSkip 16)
  -- Bit 5: RelatedActivityId present
  let _ ← rmWhen (eventFlags &&& 0x20 ≠ 0) (rmSkip 16)
  -- Bit 7: PayloadSize present
  let payloadSize ← readIfFlag (eventFlags &&& 0x80 ≠ 0) readVarUInt es.prevPayloadSize
  let payload ← readEventPayload payloadSize
  pure ({ metadataId, threadId, stackId, timestamp, payloadSize, payload },
        { prevMetadataId := metadataId, prevThreadId := threadId,
          prevStackId := stackId, prevTimestamp := timestamp,
          prevPayloadSize := payloadSize })

/-- The compressed event decode: read the flags byte, then the
flag-driven body. -/
def parseCompressedEvent (es : EventState) : RM (CEvent × EventState) := do
  let eventFlags ← readByte
  parseCompressedEventBody eventFlags es

/-- The uncompressed branch of the `parseEvents` loop body: fixed
80-byte header inside a length-prefixed event record, padded to a
4-byte boundary.  Returns `none` to signal the `break`s. -/
def parseUncompressedEvent : PM (Option Unit) := do
  let hb4 ← liftRM (rmHasBytes 4)
  if !hb4 then pure none else
  let eventSize ← liftRM readUInt32LE
  let hbe ← liftRM (rmHasBytes eventSize)
  if eventSize = 0 ∨ !hbe then pure none else do
  let startOffset ← liftRM rmOffset
  let metadataIdWithFlags ← liftRM readUInt32LE
  let metadataId := metadataIdWithFlags &&& 0x7FFFFFFF
  let _ ← liftRM readUInt32LE        -- sequenceNumber
  let threadId ← liftRM readUInt64LE
  let _ ← liftRM readUInt64LE        -- captureThreadId
  let _ ← liftRM readUInt32LE        -- processorNumber
  let stackId ← liftRM readUInt32LE
  let timestamp ← liftRM readUInt64LE
  liftRM (rmSkip 32)                 -- activityId + relatedActivityId
  let payloadSize ← liftRM readUInt32LE
  let hbp ← liftRM (rmHasBytes payloadSize)
  let _ ← (if payloadSize > 0 ∧ hbp then do
    let payload ← liftRM (readBytes payloadSize)
    let st ← getSt
    modSt (fun _ => processEvent st metadataId threadId timestamp stackId payload)
  else pure ())
  let endOffset ← liftRM rmOffset
  let consumed := endOffset - startOffset
  let padding := (4 - consumed % 4) % 4
  let _ ← (if padding > 0 then liftRM (rmSkip padding) else pure ())
  pure (some ())

/-- The `while (reader.remaining > 0)` loop of `parseEvents`: any
failure inside an event stops the loop (the catch breaks).  Each
successful iteration consumes at least one byte. -/
def eventLoop (compressed : Bool) : Nat → EventState → PM Unit
  | 0, _ => pure ()
  | fuel + 1, es => do
    let rem ← liftRM rmRemaining
    if rem > 0 then
      if compressed then do
        let r ← pmTry (liftRM (parseCompressedEvent es))
        match r with
        | some (ev, es') => do
          (match ev.payload with
           | some p => do
             let st ← getSt
             modSt (fun _ =>
               processEvent st ev.metadataId ev.threadId ev.timestamp ev.stackId p)
           | none => pure ())
          eventLoop compressed fuel es'
        | none => pure ()
      else do
        let r ← pmTry parseUncompressedEvent
        match r with
        | some (some ()) => eventLoop compressed fuel es
        | some none => pure ()
        | none => pure ()
    else pure ()

/-- `parseEvents(reader, result, compressed)`: zero-initialized carry
state, then the event loop. -/
def parseEvents (compressed : Bool) (dataLen : Nat) : PM Unit :=
  eventLoop compressed (dataLen + 1) {}

/-- `parseEventBlock(data, result)`: block header (int16 size, int16
flags, int64 min/max timestamps, skip the rest), then the events. -/
def parseEventBlockM (dataLen : Nat) : PM Unit := do
  let headerSize ← liftRM readInt16LE
  let flags ← liftRM readInt16LE
  let _minTimestamp ← liftRM readInt64LE
  let _maxTimestamp ← liftRM readInt64LE
  let _ ← (if headerSize > 20 then liftRM (rmSkip (headerSize - 20)) else pure ())
  let compressed := flags % 2 ≠ 0
  parseEvents compressed dataLen

def parseEventBlock (st : PSt) (data : List Nat) : Except String Unit × PSt :=
  runPM (parseEventBlockM data.length) st data

/-- Address loop of one stack entry: `j < stackSize / pointerSize`
(with a zero pointer size the JS quotient is `Infinity`, so only the
buffer end stops the loop) while `pointerSize` more bytes fit; 64-bit
reads when the pointer size is 8, else 32-bit reads. -/
def stackAddrLoop (ps : Int) (stackSize : Nat) : Nat → Int → PM (List Nat)
  | 0, _ => pure []
  | fuel + 1, j => do
    let cond := if ps = 0 then true else decide (j < Int.fdiv stackSize ps)
    if cond then do
      let hb ← liftRM (rmHasBytesI ps)
      if hb then do
        let addr ← if ps = 8 then liftRM readUInt64LE else liftRM readUInt32LE
        let rest ← stackAddrLoop ps stackSize fuel (j + 1)
        pure (addr :: rest)
      else pure []
    else pure []

/-- Entry loop of `parseStackBlock`: up to `count` entries while at
least 4 bytes remain; a zero declared size or a size past the buffer
end breaks; ids increment from `firstId`. -/
def stackEntryLoop (dataLen : Nat) : Nat → Nat → PM Unit
  | 0, _ => pure ()
  | count + 1, currentId => do
    let rem ← liftRM rmRemaining
    if rem ≥ 4 then do
      let stackSize ← liftRM readUInt32LE
      let hb ← liftRM (rmHasBytes stackSize)
      if stackSize = 0 ∨ !hb then pure () else do
        let st0 ← getSt
        let addresses ← stackAddrLoop st0.pointerSize stackSize (dataLen + 1) 0
        let rec0 : StackInfo := { stackId := currentId, addresses }
        modSt (fun st =>
          { st with stackTable := amSet st.stackTable currentId rec0 })
        stackEntryLoop dataLen count (currentId + 1)
    else pure ()

/-- Body of `parseStackBlock(data)` inside its `try`. -/
def parseStackBlockM (dataLen : Nat) : PM Unit := do
  let firstId ← liftRM readUInt32LE
  let count ← liftRM readUInt32LE
  stackEntryLoop dataLen count firstId

/-- `parseStackBlock(data)` with its silent `catch`. -/
def parseStackBlock (st : PSt) (data : List Nat) : PSt :=
  match runPM (pmTry (parseStackBlockM data.length)) st data with
  | (_, st') => st'

end NetTrace

namespace NetTrace

/-- Stable insert for `sortStable`. -/
def insertLE {α : Type} (le : α → α → Bool) (a : α) : List α → List α
  | [] => [a]
  | b :: rest => if le a b then a :: b :: rest else b :: insertLE le a rest

/-- Stable sort (insertion sort).  The source sorts with the JS engine
sort, which is stable; for the three-way comparator
`a < b ? -1 : a > b ? 1 : 0` every stable sort produces the same list,
so this models `methodAddresses.sort(...)` exactly. -/
def sortStable {α : Type} (le : α → α → Bool) : List α → List α
  | [] => []
  | a :: rest => insertLE le a (sortStable le rest)

/-- One entry of the `methodAddresses` interval list:
`(start, end = start + size, method)`. -/
structure MethodAddrEntry where
  address : Nat
  endAddress : Nat
  method : MethodInfo
  deriving Repr, DecidableEq

/-- Out-of-range list access placeholder (`arr[mid]` is always in range
in the source because `0 <= left <= mid <= right < length`). -/
def defaultMAEntry : MethodAddrEntry :=
  { address := 0, endAddress := 0,
    method := { methodId := 0, moduleId := 0, methodStartAddress := 0,
                methodSize := 0, methodToken := 0, methodFlags := 0,
                methodNamespace := [], methodName := [], methodSignature := [] } }

/-- Build the interval list from the method table (methods with a zero
start address are skipped), sorted by start address. -/
def methodAddressList (methods : List (Nat × MethodInfo)) : List MethodAddrEntry :=
  let entries := ((methods.map Prod.snd).filter
    (fun m => m.methodStartAddress > 0)).map
      (fun m => { address := m.methodStartAddress,
                  endAddress := m.methodStartAddress + m.methodSize,
                  method := m : MethodAddrEntry })
  sortStable (fun a b => a.address ≤ b.address) entries

/-- Binary-search loop of `findMethodByAddress`: find an interval with
`address <= addr < endAddress`.  `left`/`right` are the JS numbers
(`right` starts at `length - 1`, possibly `-1`); the range shrinks
every step, so fuel `length + 2` is never exhausted first. -/
def findMethodByAddressAux (arr : List MethodAddrEntry) (addr : Nat) :
    Nat → Int → Int → Option MethodInfo
  | 0, _, _ => none
  | fuel + 1, left, right =>
    if left ≤ right then
      let mid := Int.fdiv (left + right) 2
      let entry := arr.getD mid.toNat defaultMAEntry
      if addr ≥ entry.address ∧ addr < entry.endAddress then some entry.method
      else if addr < entry.address then
        findMethodByAddressAux arr addr fuel left (mid - 1)
      else
        findMethodByAddressAux arr addr fuel (mid + 1) right
    else none

/-- `findMethodByAddress(addr)`. -/
def findMethodByAddress (arr : List MethodAddrEntry) (addr : Nat) : Option MethodInfo :=
  findMethodByAddressAux arr addr (arr.length + 2) 0 ((arr.length : Int) - 1)

/-- Lowercase hex digits of `n` (JS `n.toString(16)`). -/
def hexDigits (n : Nat) : List Nat := (Nat.toDigits 16 n).map Char.toNat

/-- Code units of `'Method_0x'`. -/
def METHOD_FALLBACK : List Nat := [77, 101, 116, 104, 111, 100, 95, 48, 120]

/-- `getMethodFullName`: `namespace.name`, or `name`, or
`Method_0x<hex start address>` when both are empty. -/
def getMethodFullName (m : MethodInfo) : List Nat :=
  if m.methodNamespace ≠ [] then m.methodNamespace ++ [46] ++ m.methodName
  else if m.methodName ≠ [] then m.methodName
  else METHOD_FALLBACK ++ hexDigits m.methodStartAddress

/-- Code units of `'<unknown> 0x'`. -/
def UNKNOWN_METHOD : List Nat :=
  [60, 117, 110, 107, 110, 111, 119, 110, 62, 32, 48, 120]

/-- Frame name used by `computeMethodProfiles` for an address outside
every method interval: `<unknown> 0x<hex>`. -/
def unknownFrameName (addr : Nat) : List Nat := UNKNOWN_METHOD ++ hexDigits addr

/-- Inner loop of `computeMethodProfiles` over one stack's addresses:
exclusive credit only at index 0; inclusive credit once per distinct
name per stack (`seenMethods`). -/
def creditStack (arr : List MethodAddrEntry) (sampleCount : Nat) :
    List Nat → Nat → List (List Nat) →
    List (List Nat × Nat) → List (List Nat × Nat) →
    List (List Nat × Nat) × List (List Nat × Nat)
  | [], _, _, excl, incl => (excl, incl)
  | addr :: rest, i, seen, excl, incl =>
    let name :=
      match findMethodByAddress arr addr with
      | some m => getMethodFullName m
      | none => unknownFrameName addr
    let excl :=
      if i = 0 then amSet excl name ((amGet excl name).getD 0 + sampleCount)
      else excl
    let (seen, incl) :=
      if name ∈ seen then (seen, incl)
      else (setAdd seen name, amSet incl name ((amGet incl name).getD 0 + sampleCount))
    creditStack arr sampleCount rest (i + 1) seen excl incl

/-- Outer loop of `computeMethodProfiles` over the CPU sample table:
skip stacks that are unknown or empty, then credit the stack. -/
def accumSamples (arr : List MethodAddrEntry) (stackTable : List (Nat × StackInfo)) :
    List (Nat × Nat) →
    List (List Nat × Nat) × List (List Nat × Nat) →
    List (List Nat × Nat) × List (List Nat × Nat)
  | [], acc => acc
  | (stackId, sampleCount) :: rest, (excl, incl) =>
    match amGet stackTable stackId with
    | none => accumSamples arr stackTable rest (excl, incl)
    | some stack =>
      if stack.addresses = [] then accumSamples arr stackTable rest (excl, incl)
      else
        accumSamples arr stackTable rest
          (creditStack arr sampleCount stack.addresses 0 [] excl incl)

/-- Default interval is 1ms for SampleProfiler. -/
def samplingIntervalMs : Nat := 1

/-- `computeMethodProfiles(result)`: build the sorted interval list,
aggregate inclusive/exclusive counts over all sampled stacks, then
emit one `MethodProfile` per name in the union of the two key sets. -/
def computeMethodProfiles (st : PSt) : PSt :=
  let arr := methodAddressList st.methods
  let (excl, incl) := accumSamples arr st.stackTable st.cpuSamples ([], [])
  let allMethods := (incl.map Prod.fst ++ excl.map Prod.fst).foldl setAdd []
  let profiles := allMethods.foldl
    (fun ps name =>
      let inclusiveCount := (amGet incl name).getD 0
      let exclusiveCount := (amGet excl name).getD 0
      let p : MethodProfile :=
        { methodName := name, inclusiveCount, exclusiveCount,
          inclusiveTimeMs := inclusiveCount * samplingIntervalMs,
          exclusiveTimeMs := exclusiveCount * samplingIntervalMs }
      amSet ps name p)
    st.methodProfiles
  { st with methodProfiles := profiles }

end NetTrace

namespace NetTrace

/-- Set the reader offset (`this.reader.offset = value`). -/
def rmSetOffset (n : Nat) : RM Unit := fun _ _ => (Except.ok (), n)

/-- `throw` inside a parser method. -/
def pmThrow {α : Type} (msg : String) : PM α :=
  fun st _ off => (Except.error msg, st, off)

/-- `try { m }` exposing the error message to the `catch` handler. -/
def pmAttempt {α : Type} (m : PM α) : PM (Except String α) :=
  fun st buf off =>
    match m st buf off with
    | (Except.ok a, st', off') => (Except.ok (Except.ok a), st', off')
    | (Except.error e, st', off') => (Except.ok (Except.error e), st', off')

/-- Re-raise an error that was produced while running a sub-parser on
its own buffer, keeping the state it reached. -/
def pmRaiseWith {α : Type} (st' : PSt) (e : String) : PM α :=
  fun _ _ off => (Except.error e, st', off)

/-- Render ASCII/UTF-16 code units as a Lean string (used only to build
error-message text). -/
def codesToString (l : List Nat) : String :=
  String.mk (l.map (fun c => Char.ofNat c))

/-- Decimal code units of an integer (JS template `${i}`). -/
def intDecCodes (i : Int) : List Nat := (toString i).toList.map Char.toNat

/-- ASCII code units of `'Trace'`. -/
def TRACE_TYPE : List Nat := [84, 114, 97, 99, 101]

/-- ASCII code units of `'MetadataBlock'`. -/
def METADATA_BLOCK_TYPE : List Nat :=
  [77, 101, 116, 97, 100, 97, 116, 97, 66, 108, 111, 99, 107]

/-- ASCII code units of `'EventBlock'`. -/
def EVENT_BLOCK_TYPE : List Nat := [69, 118, 101, 110, 116, 66, 108, 111, 99, 107]

/-- ASCII code units of `'StackBlock'`. -/
def STACK_BLOCK_TYPE : List Nat := [83, 116, 97, 99, 107, 66, 108, 111, 99, 107]

/-- ASCII code units of `'SPBlock'`. -/
def SP_BLOCK_TYPE : List Nat := [83, 80, 66, 108, 111, 99, 107]

/-- `processBlock(typeInfo, data, result)`: dispatch on the type name
with a `catch` that appends one descriptive error string. -/
def processBlock (st : PSt) (typeName : List Nat) (data : List Nat) : PSt :=
  let orError := fun (r : Except String Unit × PSt) =>
    match r with
    | (Except.ok _, st') => st'
    | (Except.error e, st') =>
      { st' with errors := st'.errors ++
          ["Error processing " ++ codesToString typeName ++ ": " ++ e] }
  if typeName = TRACE_TYPE then
    match parseTraceBlob st data with
    | (Except.ok info, st') => { st' with traceInfo := some info }
    | (Except.error e, st') =>
      { st' with errors := st'.errors ++
          ["Error processing " ++ codesToString typeName ++ ": " ++ e] }
  else if typeName = METADATA_BLOCK_TYPE then
    orError (parseMetadataBlock { st with metadataBlocks := st.metadataBlocks + 1 } data)
  else if typeName = EVENT_BLOCK_TYPE then
    orError (parseEventBlock { st with eventBlocks := st.eventBlocks + 1 } data)
  else if typeName = STACK_BLOCK_TYPE then
    parseStackBlock st data
  else
    -- SPBlock (ignored) and unknown block types
    st

/-- Loop of `skipToEndObject()`: scan forward balancing
BeginObject/BeginPrivateObject against EndObject, skipping blob
contents; each iteration consumes at least one byte. -/
def skipToEndObjectAux : Nat → Int → RM Unit
  | 0, _ => pure ()
  | fuel + 1, depth => do
    let rem ← rmRemaining
    if rem > 0 ∧ depth > 0 then do
      let tag ← readByte
      if tag = 6 then skipToEndObjectAux fuel (depth - 1)
      else if tag = 5 ∨ tag = 4 then skipToEndObjectAux fuel (depth + 1)
      else if tag = 14 then do
        let rem2 ← rmRemaining
        if rem2 ≥ 4 then do
          let size ← readInt32LE
          let rem3 ← rmRemaining
          if size > 0 ∧ size < (rem3 : Int) then rmSkip size else pure ()
          skipToEndObjectAux fuel depth
        else skipToEndObjectAux fuel depth
      else skipToEndObjectAux fuel depth
    else pure ()

/-- `skipToEndObject()`. -/
def skipToEndObject : RM Unit :=
  fun buf off => skipToEndObjectAux (buf.length + 1) 1 buf off

/-- Loop of `skipToNextObject()`: consume bytes until an EndObject tag
(consumed) or a BeginPrivateObject tag (left in place). -/
def skipToNextObjectAux : Nat → RM Unit
  | 0 => pure ()
  | fuel + 1 => do
    let rem ← rmRemaining
    if rem > 0 then do
      let b ← peekByte
      if b = 6 then do
        let _ ← readByte
        pure ()
      else if b = 5 then pure ()
      else do
        let _ ← readByte
        skipToNextObjectAux fuel
    else pure ()

/-- `skipToNextObject()`. -/
def skipToNextObject : RM Unit :=
  fun buf off => skipToNextObjectAux (buf.length + 1) buf off

/-- Body of `parseObjectPayload` inside its `try`: the `Trace` payload
is a fixed 48-byte record; block payloads are a length-prefixed,
4-byte-aligned slice handed to `processBlock`; anything else is
skipped. -/
def parseObjectPayloadBody (ti : TypeInfo) (startOffset : Nat) : PM Unit := do
  if ti.typeName = TRACE_TYPE then do
    let hb ← liftRM (rmHasBytes 48)
    if hb then do
      let data ← liftRM (readBytes 48)
      let st ← getSt
      match parseTraceBlob st data with
      | (Except.ok info, st') => modSt (fun _ => { st' with traceInfo := some info })
      | (Except.error e, st') => pmRaiseWith st' e
    else pure ()
    liftRM skipToNextObject
  else if ti.typeName = METADATA_BLOCK_TYPE ∨ ti.typeName = EVENT_BLOCK_TYPE ∨
          ti.typeName = STACK_BLOCK_TYPE ∨ ti.typeName = SP_BLOCK_TYPE then do
    let hb4 ← liftRM (rmHasBytes 4)
    if !hb4 then pure () else do
    let blockSize ← liftRM readInt32LE
    if blockSize ≤ 0 ∨ blockSize > 100000000 then do
      liftRM (rmSetOffset startOffset)   -- back up
      liftRM skipToNextObject
    else do
      let currentPos ← liftRM rmOffset
      -- alignment padding to reach 4-byte file alignment
      let alignPad := (4 - (currentPos &&& 3)) &&& 3
      liftRM (rmSkip (alignPad : Int))
      let hbB ← liftRM (rmHasBytes blockSize.toNat)
      if !hbB then liftRM skipToNextObject
      else do
        let blockData ← liftRM (readBytes blockSize.toNat)
        let st ← getSt
        modSt (fun _ => processBlock st ti.typeName blockData)
        liftRM skipToNextObject
  else
    -- Unknown object type
    liftRM skipToNextObject

/-- `parseObjectPayload(typeInfo, result)` with its `catch` (append a
descriptive error, then scan to the next object). -/
def parseObjectPayload (ti : TypeInfo) : PM Unit := do
  let startOffset ← liftRM rmOffset
  let r ← pmAttempt (parseObjectPayloadBody ti startOffset)
  match r with
  | Except.ok _ => pure ()
  | Except.error e => do
    modSt (fun st =>
      { st with errors := st.errors ++
          ["Error parsing " ++ codesToString ti.typeName ++ ": " ++ e] })
    liftRM skipToNextObject

/-- Read a new in-band type definition (version, min reader version,
length-prefixed ASCII name) and register it under the next index. -/
def readTypeDefinition : PM TypeInfo := do
  let version ← liftRM readInt32LE
  let minReaderVersion ← liftRM readInt32LE
  let typeNameLength ← liftRM readInt32LE
  let typeName ← liftRM (readAsciiString typeNameLength)
  let st ← getSt
  let ti : TypeInfo :=
    { typeIndex := st.nextTypeIndex, version, minReaderVersion, typeName }
  modSt (fun st =>
    { st with nextTypeIndex := st.nextTypeIndex + 1,
              typeRegistry := amSet st.typeRegistry ti.typeIndex ti })
  pure ti

/-- `parseBeginPrivateObject(result)`: resolve the type reference
(object-wrapped definition or back-reference, legacy direct definition,
or direct back-reference), then parse the payload. -/
def parseBeginPrivateObject : PM Unit := do
  let _startOffset ← liftRM rmOffset
  let nextByte ← liftRM peekByte
  let tiOpt ←
    if nextByte = 5 then do
      -- Type reference is serialized as an object
      let _ ← liftRM readByte
      let typeRefByte ← liftRM peekByte
      let tiOpt ←
        if typeRefByte = 1 then do
          -- New type definition
          let _ ← liftRM readByte
          let ti ← readTypeDefinition
          pure (some ti)
        else do
          -- Reference to existing type (varint index)
          let typeIndex ← liftRM readVarUInt
          let st ← getSt
          match amGet st.typeRegistry typeIndex with
          | some ti => pure (some ti)
          | none => do
            modSt (fun st =>
              { st with errors := st.errors ++
                  ["Unknown type index: " ++ toString typeIndex] })
            liftRM skipToEndObject
            pure none
      match tiOpt with
      | none => pure none
      | some ti => do
        -- consume the EndObject that closes the type reference
        let hb ← liftRM (rmHasBytes 1)
        if hb then do
          let b ← liftRM peekByte
          if b = 6 then do
            let _ ← liftRM readByte
            pure (some ti)
          else pure (some ti)
        else pure (some ti)
    else if nextByte = 1 then do
      -- Old format: NullReference directly means new type
      let _ ← liftRM readByte
      let ti ← readTypeDefinition
      pure (some ti)
    else do
      -- Direct varint type index
      let typeIndex ← liftRM readVarUInt
      let st ← getSt
      match amGet st.typeRegistry typeIndex with
      | some ti => pure (some ti)
      | none => do
        modSt (fun st =>
          { st with errors := st.errors ++
              ["Unknown type index: " ++ toString typeIndex] })
        pure none
  match tiOpt with
  | some ti => parseObjectPayload ti
  | none => pure ()

/-- The object budget of `parseObjectStream`. -/
def maxObjects : Nat := 10000000

/-- The `parseObjectStream` loop: consume tags, dispatch
BeginPrivateObject, skip top-level blobs; a caught error ends the walk
only when fewer than 10 bytes remain. -/
def parseObjectStreamLoop : Nat → PM Unit
  | 0 => pure ()
  | fuel + 1 => do
    let rem ← liftRM rmRemaining
    if rem > 0 then do
      let r ← pmTry (do
        let tag ← liftRM readByte
        if tag = 1 then pure ()          -- NullReference: separator
        else if tag = 6 then pure ()     -- EndObject
        else if tag = 5 then parseBeginPrivateObject
        else if tag = 14 then do         -- Blob at top level: skip it
          let hb ← liftRM (rmHasBytes 4)
          if hb then do
            let size ← liftRM readInt32LE
            let rem2 ← liftRM rmRemaining
            if size > 0 ∧ size ≤ (rem2 : Int) then liftRM (rmSkip size)
            else pure ()
          else pure ()
        else pure ())                    -- unknown tag: try to continue
      match r with
      | some _ => parseObjectStreamLoop fuel
      | none => do
        let rem3 ← liftRM rmRemaining
        if rem3 < 10 then pure () else parseObjectStreamLoop fuel
    else pure ()

/-- `parseObjectStream(result)`. -/
def parseObjectStream : PM Unit := parseObjectStreamLoop maxObjects

/-- ASCII bytes of the magic `'Nettrace'`. -/
def NETTRACE_MAGIC : List Nat := [78, 101, 116, 116, 114, 97, 99, 101]

/-- ASCII code units of `'!FastSerialization.1'`. -/
def FASTSER_HEADER : List Nat :=
  [33, 70, 97, 115, 116, 83, 101, 114, 105, 97, 108, 105, 122, 97, 116,
   105, 111, 110, 46, 49]

/-- `result.debugInfo.eventCounts`: roll up the per-metadata-id
counters by `provider:eventId` (entries whose metadata id resolves to
no schema are dropped). -/
def buildEventCounts (md : List (Int × EventMetadata))
    (counts : List (Nat × Nat)) : List (List Nat × Nat) :=
  counts.foldl
    (fun acc p =>
      match amGet md (p.1 : Int) with
      | some meta =>
        let key := meta.providerName ++ [58] ++ intDecCodes meta.eventId
        amSet acc key ((amGet acc key).getD 0 + p.2)
      | none => acc)
    []

/-- Body of `parse()` inside its `try`: magic and serialization-header
validation, the object stream walk, then the post-pass (method
profiles, event-count rollup). -/
def parseM : PM Unit := do
  let len ← liftRM (fun buf off => (Except.ok buf.length, off))
  -- Validate magic header "Nettrace"
  if len < 32 then pmThrow "File too small to be a valid .nettrace file" else do
  let magic ← liftRM (fun buf off => (Except.ok (buf.take 8), off))
  -- buffer.toString('utf8', 0, 8) === 'Nettrace' exactly when the first
  -- 8 bytes are that ASCII sequence
  if magic ≠ NETTRACE_MAGIC then
    pmThrow "Invalid file: missing Nettrace magic header"
  else do
  liftRM (rmSetOffset 8)
  let headerLength ← liftRM readInt32LE
  let headerString ← liftRM (readAsciiString headerLength)
  if !(FASTSER_HEADER.isPrefixOf headerString) then
    pmThrow ("Invalid serialization header: " ++ codesToString headerString)
  else do
  parseObjectStream
  -- result.metadata / result.stacks / result.errors are the same
  -- tables in this model; compute method profiles, then the rollup
  modSt computeMethodProfiles
  modSt (fun st =>
    { st with eventCounts := buildEventCounts st.metadata st.eventCountsByMetadataId })

/-- `parse(bytes)`: run the body; a thrown validation error is caught
and appended to the error list of the result built so far. -/
def parse (buf : List Nat) : PSt :=
  match parseM initSt buf 0 with
  | (Except.ok _, st, _) => st
  | (Except.error e, st, _) =>
    { st with errors := st.errors ++ ["Parse error: " ++ e] }

end NetTrace

namespace NetTrace

/-- A node of the flame-graph tree built by `buildFlameGraphData`.
(The final flatten step only lays these weights out in `[0,1]`; the
claims under verification concern the tree itself.) -/
inductive FlameNode where
  | mk (name : List Nat) (samples : Nat) (size : Nat)
       (types : List (List Nat × CountSize)) (children : List FlameNode)

def FlameNode.name : FlameNode → List Nat
  | .mk n _ _ _ _ => n

def FlameNode.samples : FlameNode → Nat
  | .mk _ s _ _ _ => s

def FlameNode.size : FlameNode → Nat
  | .mk _ _ sz _ _ => sz

def FlameNode.types : FlameNode → List (List Nat × CountSize)
  | .mk _ _ _ t _ => t

def FlameNode.children : FlameNode → List FlameNode
  | .mk _ _ _ _ cs => cs

/-- The two flame-graph variants. -/
inductive FlameMode where
  | cpu
  | allocation
  deriving Repr, DecidableEq

/-- Frame-name resolver of the flame builder: method full name via the
interval binary search, else the literal hex-formatted address
(`` `0x${addr.toString(16)}` ``). -/
def getMethodNameFlame (arr : List MethodAddrEntry) (addr : Nat) : List Nat :=
  match findMethodByAddress arr addr with
  | some m => getMethodFullName m
  | none => hexCodes addr

/-- Merge a per-type `{count,size}` map into a node's map (the
`for (const [typeName, typeData] of data.types)` loops). -/
def mergeTypes (dst src : List (List Nat × CountSize)) : List (List Nat × CountSize) :=
  src.foldl
    (fun acc p =>
      match amGet acc p.1 with
      | some e => amSet acc p.1 { count := e.count + p.2.count, size := e.size + p.2.size }
      | none => amSet acc p.1 { count := p.2.count, size := p.2.size })
    dst

/-- Add one stack's weight to a node (`samples += count`,
`size += size`, merge the type map). -/
def bumpNode (n : FlameNode) (c sz : Nat) (tys : List (List Nat × CountSize)) : FlameNode :=
  .mk n.name (n.samples + c) (n.size + sz) (mergeTypes n.types tys) n.children

/-- `children.get(name)` (keys are unique by construction). -/
def findNamedChild : List FlameNode → List Nat → Option FlameNode
  | [], _ => none
  | c :: cs, nm => if c.name = nm then some c else findNamedChild cs nm

/-- `children.set(name, node)` for an existing key. -/
def replaceNamedChild : List FlameNode → List Nat → FlameNode → List FlameNode
  | [], _, _ => []
  | c :: cs, nm, nc => if c.name = nm then nc :: cs else c :: replaceNamedChild cs nm nc

/-- Insert one stack's resolved frame-name path (deepest caller first)
into the tree: every node along the path, the root included, receives
the weight. -/
def insertPath (c sz : Nat) (tys : List (List Nat × CountSize)) :
    List (List Nat) → FlameNode → FlameNode
  | [], n => bumpNode n c sz tys
  | nm :: rest, n =>
    let n' := bumpNode n c sz tys
    match findNamedChild n'.children nm with
    | some ch =>
      .mk n'.name n'.samples n'.size n'.types
        (replaceNamedChild n'.children nm (insertPath c sz tys rest ch))
    | none =>
      .mk n'.name n'.samples n'.size n'.types
        (n'.children ++ [insertPath c sz tys rest (.mk nm 0 0 [] [])])

/-- The per-mode `sampleData` map: CPU uses one sample per distinct
non-empty stack; allocation uses the per-stack allocation samples. -/
def flameSampleData (mode : FlameMode) (stackTable : List (Nat × StackInfo))
    (allocationSamples : List (Nat × AllocSample)) : List (Nat × AllocSample) :=
  match mode with
  | .cpu =>
    stackTable.foldl
      (fun acc p =>
        if p.2.addresses ≠ [] then
          amSet acc p.2.stackId { count := 1, size := 0, types := [] }
        else acc)
      []
  | .allocation =>
    allocationSamples.foldl (fun acc p => amSet acc p.1 p.2) []

/-- The tree-building loop: skip sample entries whose stack id has no
(non-empty) stack record, reverse the addresses so the deepest caller
is at the root, resolve each address to a name, and insert. -/
def flameInsertAll (arr : List MethodAddrEntry) (stackTable : List (Nat × StackInfo)) :
    List (Nat × AllocSample) → FlameNode → FlameNode
  | [], root => root
  | (stackId, data) :: rest, root =>
    match amGet stackTable stackId with
    | none => flameInsertAll arr stackTable rest root
    | some stack =>
      if stack.addresses = [] then flameInsertAll arr stackTable rest root
      else
        let names := stack.addresses.reverse.map (getMethodNameFlame arr)
        flameInsertAll arr stackTable rest
          (insertPath data.count data.size data.types names root)

/-- Code units of `'root'`. -/
def ROOT_NAME : List Nat := [114, 111, 111, 116]

/-- `buildFlameGraphData(result, mode)` up to the tree (the flatten
step lays the very same weights out and is not modelled): `none` for
the early `return []` guards. -/
def buildFlameTree (mode : FlameMode) (stackTable : List (Nat × StackInfo))
    (methods : List (Nat × MethodInfo))
    (methodProfiles : List (List Nat × MethodProfile))
    (allocationSamples : List (Nat × AllocSample)) : Option FlameNode :=
  if stackTable = [] then none
  else if mode = FlameMode.cpu ∧ methodProfiles = [] then none
  else if mode = FlameMode.allocation ∧ allocationSamples = [] then none
  else
    let arr := methodAddressList methods
    let sampleData := flameSampleData mode stackTable allocationSamples
    some (flameInsertAll arr stackTable sampleData (.mk ROOT_NAME 0 0 [] []))

/-- Sum of the children's weights. -/
def childSumF (cs : List FlameNode) : Nat := (cs.map FlameNode.samples).sum

mutual

/-- All nodes of a tree (the node itself and its descendants). -/
def allNodes : FlameNode → List FlameNode
  | .mk n s sz t cs => .mk n s sz t cs :: allNodesL cs

/-- All nodes of a forest. -/
def allNodesL : List FlameNode → List FlameNode
  | [] => []
  | c :: cs => allNodes c ++ allNodesL cs

end

/-- Total weight of the sample entries actually inserted into the tree
(those whose stack id resolves to a non-empty stack record): the
weights input to the tree construction. -/
def processedWeight (stackTable : List (Nat × StackInfo)) :
    List (Nat × AllocSample) → Nat
  | [] => 0
  | (stackId, data) :: rest =>
    (match amGet stackTable stackId with
     | some stack => if stack.addresses = [] then 0 else data.count
     | none => 0) + processedWeight stackTable rest

end NetTrace

namespace NetTrace

theorem rm_bind_eq {α β : Type} (x : RM α) (f : α → RM β) (buf : List Nat) (off : Nat) :
    (x >>= f) buf off =
      match x buf off with
      | (Except.ok a, off') => f a buf off'
      | (Except.error e, off') => (Except.error e, off') := rfl

theorem rm_pure_eq {α : Type} (a : α) (buf : List Nat) (off : Nat) :
    (pure a : RM α) buf off = (Except.ok a, off) := rfl

theorem pm_bind_eq {α β : Type} (x : PM α) (f : α → PM β) (st : PSt) (buf : List Nat) (off : Nat) :
    (x >>= f) st buf off =
      match x st buf off with
      | (Except.ok a, st', off') => f a st' buf off'
      | (Except.error e, st', off') => (Except.error e, st', off') := rfl

theorem pm_pure_eq {α : Type} (a : α) (st : PSt) (buf : List Nat) (off : Nat) :
    (pure a : PM α) st buf off = (Except.ok a, st, off) := rfl

/-- The UTF-16 loop never throws, never moves backwards, stays inside
the buffer whenever it moves at all, and consumes whole 2-byte units. -/
theorem ntUTF16Aux_spec (buf : List Nat) : ∀ (fuel off : Nat),
    off ≤ (ntUTF16Aux fuel buf off).2 ∧
    ((ntUTF16Aux fuel buf off).2 ≤ buf.length ∨ (ntUTF16Aux fuel buf off).2 = off) ∧
    2 ∣ ((ntUTF16Aux fuel buf off).2 - off) := by
  intro fuel
  induction fuel with
  | zero =>
    intro off
    simp [ntUTF16Aux]
  | succ n ih =>
    intro off
    simp only [ntUTF16Aux]
    by_cases hle : off + 2 ≤ buf.length
    · simp only [if_pos hle]
      by_cases hz : u16At buf off = 0
      · simp only [if_pos hz]
        refine ⟨by omega, Or.inl (by omega), ?_⟩
        simp
      · simp only [if_neg hz]
        obtain ⟨h1, h2, h3⟩ := ih (off + 2)
        rcases he : ntUTF16Aux n buf (off + 2) with ⟨rest, off'⟩
        rw [he] at h1 h2 h3
        simp only
        refine ⟨by omega, ?_, ?_⟩
        · rcases h2 with h2 | h2 <;> omega
        · obtain ⟨k, hk⟩ := h3
          exact ⟨k + 1, by omega⟩
    · simp [if_neg hle]

end NetTrace

namespace NetTrace

/-- C8 counterexample: decoding a null-terminated UTF-16 string whose
terminator straddles the end of the buffer (here `[65, 0, 0]`: one
unit `'A'`, then a single zero byte, half a terminator) does NOT
surface an `UnexpectedEnd` error — the cursor returns the decoded
units without any error, contradicting the claim. -/
theorem claim8_counterexample :
    readNullTerminatedUTF16 [65, 0, 0] 0 = (Except.ok [65], 2) ∧
    ∀ e : String, (readNullTerminatedUTF16 [65, 0, 0] 0).1 ≠ Except.error e := by
  constructor
  · rfl
  · intro e h
    simp [readNullTerminatedUTF16, ntUTF16Aux, u16At, byteAt] at h

/-- C8 (amended): every fixed-width or byte-range read that would pass
the end of the buffer fails with an end-of-buffer error and leaves the
offset unchanged; a varint read on an exhausted buffer fails the same
way, though a varint that runs out mid-value keeps the offset after the
bytes already consumed (witnessed by `[0x80]`); and the
null-terminated UTF-16 decoder never fails: it stops before a
terminator that straddles the end and returns the units decoded so
far, consuming only whole 2-byte units inside the buffer. -/
theorem claim8_theorem :
    (∀ (buf : List Nat) (off : Nat), buf.length < off + 1 →
      ∃ e, readByte buf off = (Except.error e, off)) ∧
    (∀ (buf : List Nat) (off : Nat), buf.length < off + 2 →
      ∃ e, readUInt16LE buf off = (Except.error e, off)) ∧
    (∀ (buf : List Nat) (off : Nat), buf.length < off + 4 →
      ∃ e, readUInt32LE buf off = (Except.error e, off)) ∧
    (∀ (buf : List Nat) (off : Nat), buf.length < off + 8 →
      ∃ e, readUInt64LE buf off = (Except.error e, off)) ∧
    (∀ (buf : List Nat) (off n : Nat), buf.length < off + n →
      ∃ e, readBytes n buf off = (Except.error e, off)) ∧
    (∀ (buf : List Nat) (off : Nat), buf.length ≤ off →
      ∃ e, readVarUInt buf off = (Except.error e, off)) ∧
    readVarUInt [0x80] 0 = (Except.error "End of buffer reading varint", 1) ∧
    (∀ (buf : List Nat) (off : Nat), ∃ us off',
      readNullTerminatedUTF16 buf off = (Except.ok us, off') ∧
      off ≤ off' ∧ (off' ≤ buf.length ∨ off' = off) ∧ 2 ∣ (off' - off)) := by
  refine ⟨?_, ?_, ?_, ?_, ?_, ?_, ?_, ?_⟩
  · intro buf off h
    refine ⟨"End of buffer at offset " ++ toString off, ?_⟩
    simp [readByte, Nat.not_le.mpr h]
  · intro buf off h
    refine ⟨"End of buffer at offset " ++ toString off, ?_⟩
    simp [readUInt16LE, Nat.not_le.mpr h]
  · intro buf off h
    refine ⟨"End of buffer at offset " ++ toString off, ?_⟩
    simp [readUInt32LE, Nat.not_le.mpr h]
  · intro buf off h
    refine ⟨"End of buffer at offset " ++ toString off, ?_⟩
    simp [readUInt64LE, Nat.not_le.mpr h]
  · intro buf off n h
    refine ⟨"End of buffer at offset " ++ toString off ++ ", need " ++
      toString n ++ " bytes", ?_⟩
    simp [readBytes, Nat.not_le.mpr h]
  · intro buf off h
    refine ⟨"End of buffer reading varint", ?_⟩
    have hb : (decide (off + 1 ≤ buf.length)) = false := by
      simp; omega
    simp [readVarUInt, readVarUIntAux, rm_bind_eq, rmHasBytes, rmThrow, hb]
  · rfl
  · intro buf off
    obtain ⟨h1, h2, h3⟩ := ntUTF16Aux_spec buf buf.length off
    refine ⟨(ntUTF16Aux buf.length buf off).1, (ntUTF16Aux buf.length buf off).2, ?_, h1, h2, h3⟩
    simp [readNullTerminatedUTF16]

/-- C8 witness: the amended theorem applied at concrete inputs. -/
theorem claim8_witness :
    ([1, 2] : List Nat).length < 0 + 4 ∧
    (∃ e, readUInt32LE [1, 2] 0 = (Except.error e, 0)) ∧
    ([] : List Nat).length ≤ 0 ∧
    (∃ e, readVarUInt [] 0 = (Except.error e, 0)) ∧
    (∃ us off', readNullTerminatedUTF16 [65, 0, 0] 0 = (Except.ok us, off') ∧
      0 ≤ off' ∧ (off' ≤ ([65, 0, 0] : List Nat).length ∨ off' = 0) ∧ 2 ∣ (off' - 0)) :=
  ⟨by decide, claim8_theorem.2.2.1 [1, 2] 0 (by decide),
   by decide, claim8_theorem.2.2.2.2.2.1 [] 0 (by decide),
   claim8_theorem.2.2.2.2.2.2.2 [65, 0, 0] 0⟩

end NetTrace

namespace NetTrace

theorem readIfFlag_neg {c : Prop} [inst : Decidable c] (h : ¬ c)
    (rd : RM Nat) (prev : Nat) (buf : List Nat) (off : Nat) :
    readIfFlag c rd prev buf off = (Except.ok prev, off) := by
  simp [readIfFlag, h, rm_pure_eq]

theorem parseCompressedEventBody_spec (eventFlags : Nat) (es : EventState)
    (buf : List Nat) (off off' : Nat) (ev : CEvent) (es' : EventState)
    (h : parseCompressedEventBody eventFlags es buf off = (Except.ok (ev, es'), off')) :
    (eventFlags &&& 0x01 = 0 → ev.metadataId = es.prevMetadataId) ∧
    (eventFlags &&& 0x04 = 0 → ev.threadId = es.prevThreadId) ∧
    (eventFlags &&& 0x08 = 0 → ev.stackId = es.prevStackId) ∧
    (eventFlags &&& 0x80 = 0 → ev.payloadSize = es.prevPayloadSize) ∧
    (∃ d o₁ o₂, readVarUInt64 buf o₁ = (Except.ok d, o₂) ∧
       ev.timestamp = es.prevTimestamp + d) ∧
    es' = { prevMetadataId := ev.metadataId, prevThreadId := ev.threadId,
            prevStackId := ev.stackId, prevTimestamp := ev.timestamp,
            prevPayloadSize := ev.payloadSize } := by
  unfold parseCompressedEventBody at h
  rw [rm_bind_eq] at h
  rcases h1 : readIfFlag (eventFlags &&& 1 ≠ 0) readVarUInt es.prevMetadataId buf off with ⟨r1, o1⟩
  rw [h1] at h
  cases r1 with
  | error e => exact absurd h (by simp)
  | ok v1 =>
  dsimp only at h
  rw [rm_bind_eq] at h
  rcases h2 : rmWhen (eventFlags &&& 2 ≠ 0) readSeqGroup buf o1 with ⟨r2, o2⟩
  rw [h2] at h
  cases r2 with
  | error e => exact absurd h (by simp)
  | ok u2 =>
  dsimp only at h
  rw [rm_bind_eq] at h
  rcases h3 : readIfFlag (eventFlags &&& 4 ≠ 0) readVarInt64 es.prevThreadId buf o2 with ⟨r3, o3⟩
  rw [h3] at h
  cases r3 with
  | error e => exact absurd h (by simp)
  | ok v3 =>
  dsimp only at h
  rw [rm_bind_eq] at h
  rcases h4 : readIfFlag (eventFlags &&& 8 ≠ 0) readVarUInt es.prevStackId buf o3 with ⟨r4, o4⟩
  rw [h4] at h
  cases r4 with
  | error e => exact absurd h (by simp)
  | ok v4 =>
  dsimp only at h
  rw [rm_bind_eq] at h
  rcases h5 : readVarUInt64 buf o4 with ⟨r5, o5⟩
  rw [h5] at h
  cases r5 with
  | error e => exact absurd h (by simp)
  | ok d =>
  dsimp only at h
  rw [rm_bind_eq] at h
  rcases h6 : rmWhen (eventFlags &&& 16 ≠ 0) (rmSkip 16) buf o5 with ⟨r6, o6⟩
  rw [h6] at h
  cases r6 with
  | error e => exact absurd h (by simp)
  | ok u6 =>
  dsimp only at h
  rw [rm_bind_eq] at h
  rcases h7 : rmWhen (eventFlags &&& 32 ≠ 0) (rmSkip 16) buf o6 with ⟨r7, o7⟩
  rw [h7] at h
  cases r7 with
  | error e => exact absurd h (by simp)
  | ok u7 =>
  dsimp only at h
  rw [rm_bind_eq] at h
  rcases h8 : readIfFlag (eventFlags &&& 128 ≠ 0) readVarUInt es.prevPayloadSize buf o7 with ⟨r8, o8⟩
  rw [h8] at h
  cases r8 with
  | error e => exact absurd h (by simp)
  | ok v8 =>
  dsimp only at h
  rw [rm_bind_eq] at h
  rcases h9 : readEventPayload v8 buf o8 with ⟨r9, o9⟩
  rw [h9] at h
  cases r9 with
  | error e => exact absurd h (by simp)
  | ok pl =>
  dsimp only at h
  rw [rm_pure_eq] at h
  injection h with ha hb
  injection ha with hc
  injection hc with hd he
  subst hd
  subst he
  refine ⟨?_, ?_, ?_, ?_, ⟨d, o4, o5, h5, rfl⟩, rfl⟩
  · intro hbit
    rw [readIfFlag_neg (by simp [hbit]) _ _ _ _] at h1
    injection h1 with hx hy
    injection hx with hz
    exact hz.symm
  · intro hbit
    rw [readIfFlag_neg (by simp [hbit]) _ _ _ _] at h3
    injection h3 with hx hy
    injection hx with hz
    exact hz.symm
  · intro hbit
    rw [readIfFlag_neg (by simp [hbit]) _ _ _ _] at h4
    injection h4 with hx hy
    injection hx with hz
    exact hz.symm
  · intro hbit
    rw [readIfFlag_neg (by simp [hbit]) _ _ _ _] at h8
    injection h8 with hx hy
    injection hx with hz
    exact hz.symm

end NetTrace

namespace NetTrace

/-- Lift of the body lemma through the flags-byte read: a successful
compressed-event decode reads the flags byte at `off` and runs the body
on it from `off + 1`. -/
theorem parseCompressedEvent_ok (es : EventState) (buf : List Nat)
    (off off' : Nat) (ev : CEvent) (es' : EventState)
    (h : parseCompressedEvent es buf off = (Except.ok (ev, es'), off')) :
    parseCompressedEventBody (byteAt buf off) es buf (off + 1) =
      (Except.ok (ev, es'), off') := by
  unfold parseCompressedEvent at h
  rw [rm_bind_eq] at h
  by_cases hl : off + 1 ≤ buf.length
  · simp only [readByte, if_pos hl] at h
    exact h
  · simp only [readByte, if_neg hl] at h
    exact absurd h (by simp)

/-- The concrete two-event block of spec scenario 4: event 1 sets
metadataId=7, threadId=5, stackId=3, payloadSize=2 via flag bits
(flags `0x8D`) with timestamp delta 100; event 2 has flags 0 and
timestamp delta 50. -/
def c1buf : List Nat := [0x8D, 7, 5, 3, 100, 2, 170, 187, 0x00, 50, 204, 221]

/-- The carry state after event 1 of the scenario. -/
def c1es1 : EventState :=
  { prevMetadataId := 7, prevThreadId := 5, prevStackId := 3,
    prevTimestamp := 100, prevPayloadSize := 2 }

/-- C1: in the compressed event encoding, every flag bit that is clear
makes the decoded event reuse the previous event's value for that field
(metadataId / threadId / stackId / payloadSize); an unsigned varint
timestamp delta is always read and added to the carry, and the carry
for the next event is exactly the decoded event's header; the per-block
carry starts as all zeros.  In the concrete two-event block `c1buf`,
both events share metadataId/threadId/stackId/payloadSize and their
timestamps are 100 and 100 + 50, the running sums of the two deltas
from the initial zero carry. -/
theorem claim1_theorem :
    (∀ (buf : List Nat) (off : Nat) (es : EventState) (ev : CEvent)
       (es' : EventState) (off' : Nat),
      parseCompressedEvent es buf off = (Except.ok (ev, es'), off') →
        (byteAt buf off &&& 0x01 = 0 → ev.metadataId = es.prevMetadataId) ∧
        (byteAt buf off &&& 0x04 = 0 → ev.threadId = es.prevThreadId) ∧
        (byteAt buf off &&& 0x08 = 0 → ev.stackId = es.prevStackId) ∧
        (byteAt buf off &&& 0x80 = 0 → ev.payloadSize = es.prevPayloadSize) ∧
        (∃ d o₁ o₂, readVarUInt64 buf o₁ = (Except.ok d, o₂) ∧
           ev.timestamp = es.prevTimestamp + d) ∧
        es' = { prevMetadataId := ev.metadataId, prevThreadId := ev.threadId,
                prevStackId := ev.stackId, prevTimestamp := ev.timestamp,
                prevPayloadSize := ev.payloadSize }) ∧
    (∀ (compressed : Bool) (dataLen : Nat),
      parseEvents compressed dataLen =
        eventLoop compressed (dataLen + 1)
          { prevMetadataId := 0, prevThreadId := 0, prevStackId := 0,
            prevTimestamp := 0, prevPayloadSize := 0 }) ∧
    parseCompressedEvent {} c1buf 0 =
      (Except.ok
        ({ metadataId := 7, threadId := 5, stackId := 3, timestamp := 100,
           payloadSize := 2, payload := some [170, 187] }, c1es1), 8) ∧
    parseCompressedEvent c1es1 c1buf 8 =
      (Except.ok
        ({ metadataId := 7, threadId := 5, stackId := 3, timestamp := 100 + 50,
           payloadSize := 2, payload := some [204, 221] },
         { prevMetadataId := 7, prevThreadId := 5, prevStackId := 3,
           prevTimestamp := 150, prevPayloadSize := 2 }), 12) := by
  refine ⟨?_, ?_, ?_, ?_⟩
  · intro buf off es ev es' off' h
    exact parseCompressedEventBody_spec (byteAt buf off) es buf (off + 1) off' ev es'
      (parseCompressedEvent_ok es buf off off' ev es' h)
  · intro compressed dataLen
    rfl
  · rfl
  · rfl

/-- C1 witness: the general statement applied to the second event of
the concrete block (its flags byte is 0, so every field is reused). -/
theorem claim1_witness :
    parseCompressedEvent c1es1 c1buf 8 =
      (Except.ok
        ({ metadataId := 7, threadId := 5, stackId := 3, timestamp := 150,
           payloadSize := 2, payload := some [204, 221] },
         { prevMetadataId := 7, prevThreadId := 5, prevStackId := 3,
           prevTimestamp := 150, prevPayloadSize := 2 }), 12) ∧
    ({ metadataId := 7, threadId := 5, stackId := 3, timestamp := 150,
       payloadSize := 2, payload := some [204, 221] } : CEvent).metadataId =
      c1es1.prevMetadataId := by
  have h : parseCompressedEvent c1es1 c1buf 8 =
      (Except.ok
        ({ metadataId := 7, threadId := 5, stackId := 3, timestamp := 150,
           payloadSize := 2, payload := some [204, 221] },
         { prevMetadataId := 7, prevThreadId := 5, prevStackId := 3,
           prevTimestamp := 150, prevPayloadSize := 2 }), 12) := by rfl
  refine ⟨h, ?_⟩
  exact (claim1_theorem.1 c1buf 8 c1es1 _ _ 12 h).1 (by decide)

end NetTrace

namespace NetTrace

/-- `amGet` after `amSet` at the same key. -/
theorem amGet_amSet_eq {κ α : Type} [DecidableEq κ] (l : List (κ × α)) (k : κ) (v : α) :
    amGet (amSet l k v) k = some v := by
  induction l with
  | nil => simp [amGet, amSet]
  | cons p rest ih =>
    rcases p with ⟨k', v'⟩
    by_cases h : k' = k
    · simp [amGet, amSet, h]
    · simp [amGet, amSet, h, ih]

/-- `amGet` after `amSet` at a different key. -/
theorem amGet_amSet_ne {κ α : Type} [DecidableEq κ] (l : List (κ × α)) (k k' : κ) (v : α)
    (h : k' ≠ k) : amGet (amSet l k v) k' = amGet l k' := by
  induction l with
  | nil => simp [amGet, amSet, Ne.symm h]
  | cons p rest ih =>
    rcases p with ⟨k₀, v₀⟩
    by_cases h0 : k₀ = k
    · subst h0
      simp [amGet, amSet, Ne.symm h]
    · by_cases h1 : k₀ = k'
      · simp [amGet, amSet, h0, h1, h]
      · simp [amGet, amSet, h0, h1, ih]

/-- A parser-method computation whose final state agrees with the
initial state on a projection, on both the success and failure path. -/
def PreservesProj {β : Type} (proj : PSt → β) {α : Type} (m : PM α) : Prop :=
  ∀ st buf off, proj ((m st buf off).2.1) = proj st

theorem preservesProj_liftRM {β α : Type} (proj : PSt → β) (r : RM α) :
    PreservesProj proj (liftRM r) := by
  intro st buf off
  simp [liftRM]

theorem preservesProj_pure {β α : Type} (proj : PSt → β) (a : α) :
    PreservesProj proj (pure a : PM α) := by
  intro st buf off
  rfl

theorem preservesProj_getSt {β : Type} (proj : PSt → β) :
    PreservesProj proj getSt := by
  intro st buf off
  rfl

theorem preservesProj_modSt {β : Type} (proj : PSt → β) (f : PSt → PSt)
    (hf : ∀ st, proj (f st) = proj st) : PreservesProj proj (modSt f) := by
  intro st buf off
  exact hf st

theorem preservesProj_bind {β α γ : Type} (proj : PSt → β) (x : PM α) (f : α → PM γ)
    (hx : PreservesProj proj x) (hf : ∀ a, PreservesProj proj (f a)) :
    PreservesProj proj (x >>= f) := by
  intro st buf off
  rw [pm_bind_eq]
  rcases hx0 : x st buf off with ⟨r, st', o'⟩
  have h1 : proj st' = proj st := by
    have := hx st buf off
    rw [hx0] at this
    exact this
  cases r with
  | ok a =>
    have := hf a st' buf o'
    simp only at this ⊢
    rw [this, h1]
  | error e =>
    simp only
    exact h1

theorem preservesProj_ite {β α : Type} (proj : PSt → β) (c : Prop) [Decidable c]
    (A B : PM α) (hA : PreservesProj proj A) (hB : PreservesProj proj B) :
    PreservesProj proj (if c then A else B) := by
  by_cases h : c
  · simpa [h] using hA
  · simpa [h] using hB

theorem preservesProj_pmTry {β α : Type} (proj : PSt → β) (m : PM α)
    (hm : PreservesProj proj m) : PreservesProj proj (pmTry m) := by
  intro st buf off
  have hh := hm st buf off
  simp only [pmTry]
  rcases hm0 : m st buf off with ⟨r, st', o'⟩
  rw [hm0] at hh
  cases r <;> simpa using hh

/-- A parser-method computation that preserves a state predicate, on
both the success and failure path. -/
def KeepsPred (P : PSt → Prop) {α : Type} (m : PM α) : Prop :=
  ∀ st buf off, P st → P ((m st buf off).2.1)

theorem keepsPred_of_preserves {α : Type} (P : PSt → Prop) (m : PM α)
    (h : PreservesProj id m) : KeepsPred P m := by
  intro st buf off hp
  have := h st buf off
  simp only [id] at this
  rw [this]
  exact hp

theorem keepsPred_liftRM {α : Type} (P : PSt → Prop) (r : RM α) :
    KeepsPred P (liftRM r) :=
  keepsPred_of_preserves P _ (preservesProj_liftRM id r)

theorem keepsPred_pure {α : Type} (P : PSt → Prop) (a : α) :
    KeepsPred P (pure a : PM α) :=
  keepsPred_of_preserves P _ (preservesProj_pure id a)

theorem keepsPred_getSt (P : PSt → Prop) : KeepsPred P getSt :=
  keepsPred_of_preserves P _ (preservesProj_getSt id)

theorem keepsPred_modSt (P : PSt → Prop) (f : PSt → PSt)
    (hf : ∀ st, P st → P (f st)) : KeepsPred P (modSt f) := by
  intro st buf off hp
  exact hf st hp

theorem keepsPred_bind {α γ : Type} (P : PSt → Prop) (x : PM α) (f : α → PM γ)
    (hx : KeepsPred P x) (hf : ∀ a, KeepsPred P (f a)) :
    KeepsPred P (x >>= f) := by
  intro st buf off hp
  rw [pm_bind_eq]
  rcases hx0 : x st buf off with ⟨r, st', o'⟩
  have h1 : P st' := by
    have := hx st buf off hp
    rw [hx0] at this
    exact this
  cases r with
  | ok a => exact hf a st' buf o' h1
  | error e => exact h1

theorem keepsPred_ite {α : Type} (P : PSt → Prop) (c : Prop) [Decidable c]
    (A B : PM α) (hA : KeepsPred P A) (hB : KeepsPred P B) :
    KeepsPred P (if c then A else B) := by
  by_cases h : c
  · simpa [h] using hA
  · simpa [h] using hB

theorem keepsPred_pmTry {α : Type} (P : PSt → Prop) (m : PM α)
    (hm : KeepsPred P m) : KeepsPred P (pmTry m) := by
  intro st buf off hp
  have hh := hm st buf off hp
  simp only [pmTry]
  rcases hm0 : m st buf off with ⟨r, st', o'⟩
  rw [hm0] at hh
  cases r <;> simpa using hh

end NetTrace

namespace NetTrace

theorem readMetadataFields_st (n : Nat) : PreservesProj id (readMetadataFields n) := by
  induction n with
  | zero => exact preservesProj_pure id []
  | succ k ih =>
    unfold readMetadataFields
    apply preservesProj_bind
    · exact preservesProj_liftRM _ _
    intro rem
    apply preservesProj_ite
    · apply preservesProj_bind
      · exact preservesProj_liftRM _ _
      intro tc
      apply preservesProj_ite
      · apply preservesProj_bind
        · exact preservesProj_liftRM _ _
        intro x
        apply preservesProj_bind
        · exact preservesProj_liftRM _ _
        intro fn
        apply preservesProj_bind
        · exact ih
        intro rest
        exact preservesProj_pure _ _
      · apply preservesProj_bind
        · exact preservesProj_liftRM _ _
        intro fn
        apply preservesProj_bind
        · exact ih
        intro rest
        exact preservesProj_pure _ _
    · exact preservesProj_pure _ _


theorem pm_bind_def {α β : Type} (x : PM α) (f : α → PM β) :
    (x >>= f) = pmBind x f := rfl

theorem pmBind_eq {α β : Type} (x : PM α) (f : α → PM β) (st : PSt)
    (buf : List Nat) (off : Nat) :
    pmBind x f st buf off =
      match x st buf off with
      | (Except.ok a, st', off') => f a st' buf off'
      | (Except.error e, st', off') => (Except.error e, st', off') := rfl

theorem liftRM_mk {α : Type} (r : RM α) (st : PSt) (buf : List Nat) (off : Nat)
    (e : Except String α) (o : Nat) (h : r buf off = (e, o)) :
    liftRM r st buf off = (e, st, o) := by
  simp [liftRM, h]

theorem parseMetadataPayload_spec (st : PSt) (payload : List Nat) (k : Int)
    (m : EventMetadata)
    (h : amGet (parseMetadataPayload st payload).metadata k = some m) :
    amGet st.metadata k = some m ∨
    (m.metadataId = k ∧ (readInt32LE payload 0).1 = Except.ok k) := by
  unfold parseMetadataPayload runPM at h
  revert h
  unfold parseMetadataPayloadM
  simp only [pm_bind_def]
  rw [pmBind_eq]
  rcases h1 : readInt32LE payload 0 with ⟨r1, o1⟩
  rw [liftRM_mk _ _ _ _ _ _ h1]
  cases r1 with
  | error e =>
    intro h
    exact Or.inl h
  | ok pid =>
  dsimp only
  rw [pmBind_eq]
  rcases h2 : readNullTerminatedUTF16 payload o1 with ⟨r2, o2⟩
  rw [liftRM_mk _ _ _ _ _ _ h2]
  cases r2 with
  | error e => intro h; exact Or.inl h
  | ok provider =>
  dsimp only
  rw [pmBind_eq]
  rcases h3 : readInt32LE payload o2 with ⟨r3, o3⟩
  rw [liftRM_mk _ _ _ _ _ _ h3]
  cases r3 with
  | error e => intro h; exact Or.inl h
  | ok eid =>
  dsimp only
  rw [pmBind_eq]
  rcases h4 : readNullTerminatedUTF16 payload o3 with ⟨r4, o4⟩
  rw [liftRM_mk _ _ _ _ _ _ h4]
  cases r4 with
  | error e => intro h; exact Or.inl h
  | ok ename =>
  dsimp only
  rw [pmBind_eq]
  rcases h5 : readInt64LE payload o4 with ⟨r5, o5⟩
  rw [liftRM_mk _ _ _ _ _ _ h5]
  cases r5 with
  | error e => intro h; exact Or.inl h
  | ok kw =>
  dsimp only
  rw [pmBind_eq]
  rcases h6 : readInt32LE payload o5 with ⟨r6, o6⟩
  rw [liftRM_mk _ _ _ _ _ _ h6]
  cases r6 with
  | error e => intro h; exact Or.inl h
  | ok ver =>
  dsimp only
  rw [pmBind_eq]
  rcases h7 : readInt32LE payload o6 with ⟨r7, o7⟩
  rw [liftRM_mk _ _ _ _ _ _ h7]
  cases r7 with
  | error e => intro h; exact Or.inl h
  | ok lvl =>
  dsimp only
  rw [pmBind_eq]
  dsimp only [modSt]
  rw [pmBind_eq]
  rcases h8 : rmRemaining payload o7 with ⟨r8, o8⟩
  rw [liftRM_mk _ _ _ _ _ _ h8]
  cases r8 with
  | error e => intro h; exact Or.inl h
  | ok rem =>
  dsimp only
  by_cases hrem : rem ≥ 4
  · rw [if_pos hrem, pmBind_eq]
    rcases h9 : readInt32LE payload o8 with ⟨r9, o9⟩
    rw [liftRM_mk _ _ _ _ _ _ h9]
    cases r9 with
    | error e => intro h; exact Or.inl h
    | ok fc =>
    dsimp only
    rw [pmBind_eq]
    rcases h10 : readMetadataFields fc.toNat
        { st with providers := setAdd st.providers provider } payload o9
      with ⟨r10, st10, o10⟩
    have hst10 : st10 = { st with providers := setAdd st.providers provider } := by
      have := readMetadataFields_st fc.toNat
        { st with providers := setAdd st.providers provider } payload o9
      rw [h10] at this
      exact this
    subst hst10
    cases r10 with
    | error e => intro h; exact Or.inl h
    | ok fields =>
    dsimp only [modSt]
    intro h
    by_cases hk : k = pid
    · rw [hk, amGet_amSet_eq] at h
      have hm := Option.some.inj h
      right
      constructor
      · rw [← hm]
        exact hk.symm
      · simp [h1, hk]
    · rw [amGet_amSet_ne _ _ _ _ hk] at h
      exact Or.inl h
  · rw [if_neg hrem]
    rw [pmBind_eq]
    dsimp only [pmPure, modSt, pure]
    intro h
    by_cases hk : k = pid
    · rw [hk, amGet_amSet_eq] at h
      have hm := Option.some.inj h
      right
      constructor
      · rw [← hm]
        exact hk.symm
      · simp [h1, hk]
    · rw [amGet_amSet_ne _ _ _ _ hk] at h
      exact Or.inl h

end NetTrace

namespace NetTrace

/-- The schema-table invariant: every stored schema's payload-carried
metadata id equals its key. -/
def MdInv (st : PSt) : Prop :=
  ∀ (k : Int) (m : EventMetadata), amGet st.metadata k = some m → m.metadataId = k

/-- `parseMetadataPayload` preserves the schema-table invariant. -/
theorem mdInv_parseMetadataPayload (st : PSt) (payload : List Nat)
    (h : MdInv st) : MdInv (parseMetadataPayload st payload) := by
  intro k m hm
  rcases parseMetadataPayload_spec st payload k m hm with hold | ⟨hid, _⟩
  · exact h k m hold
  · exact hid

/-- Binding the current state: the continuation may rely on the
predicate holding for the state it receives. -/
theorem keepsPred_getSt_bind {α : Type} (P : PSt → Prop) (f : PSt → PM α)
    (hf : ∀ a, P a → KeepsPred P (f a)) : KeepsPred P (getSt >>= f) := by
  intro st buf off hp
  rw [pm_bind_eq]
  exact hf st hp st buf off hp

theorem keepsPred_pmWhen (P : PSt → Prop) (c : Prop) [Decidable c] (m : PM Unit)
    (hm : KeepsPred P m) : KeepsPred P (pmWhen c m) :=
  keepsPred_ite P c m (pure ()) hm (keepsPred_pure P ())

/-- State-invariant helpers keep every predicate. -/
theorem keepsPred_mdReadMetadataId (P : PSt → Prop) (flags : Nat) (hst : MetaHeaderState) :
    KeepsPred P (mdReadMetadataId flags hst) := by
  unfold mdReadMetadataId
  apply keepsPred_ite
  · apply keepsPred_bind
    · exact keepsPred_liftRM P _
    intro a
    exact keepsPred_pure P _
  · exact keepsPred_pure P _

theorem keepsPred_mdReadSeqGroup (P : PSt → Prop) (flags : Nat) (hst : MetaHeaderState) :
    KeepsPred P (mdReadSeqGroup flags hst) := by
  unfold mdReadSeqGroup
  apply keepsPred_ite
  · apply keepsPred_bind
    · exact keepsPred_liftRM P _
    intro a
    apply keepsPred_bind
    · exact keepsPred_liftRM P _
    intro b
    apply keepsPred_bind
    · exact keepsPred_liftRM P _
    intro c
    exact keepsPred_pure P _
  · apply keepsPred_ite
    · exact keepsPred_pure P _
    · exact keepsPred_pure P _

theorem keepsPred_mdReadThreadId (P : PSt → Prop) (flags : Nat) (hst : MetaHeaderState) :
    KeepsPred P (mdReadThreadId flags hst) := by
  unfold mdReadThreadId
  apply keepsPred_ite
  · apply keepsPred_bind
    · exact keepsPred_liftRM P _
    intro a
    exact keepsPred_pure P _
  · exact keepsPred_pure P _

theorem keepsPred_mdReadStackId (P : PSt → Prop) (flags : Nat) (hst : MetaHeaderState) :
    KeepsPred P (mdReadStackId flags hst) := by
  unfold mdReadStackId
  apply keepsPred_ite
  · apply keepsPred_bind
    · exact keepsPred_liftRM P _
    intro a
    exact keepsPred_pure P _
  · exact keepsPred_pure P _

theorem keepsPred_mdReadPayloadSize (P : PSt → Prop) (flags : Nat) (hst : MetaHeaderState) :
    KeepsPred P (mdReadPayloadSize flags hst) := by
  unfold mdReadPayloadSize
  apply keepsPred_ite
  · apply keepsPred_bind
    · exact keepsPred_liftRM P _
    intro a
    exact keepsPred_pure P _
  · exact keepsPred_pure P _

/-- The payload hand-off keeps the schema-table invariant. -/
theorem mdInv_mdHandlePayload (hst : MetaHeaderState) :
    KeepsPred MdInv (mdHandlePayload hst) := by
  unfold mdHandlePayload
  apply keepsPred_ite
  · apply keepsPred_bind
    · exact keepsPred_liftRM MdInv _
    intro hb
    apply keepsPred_ite
    · apply keepsPred_bind
      · exact keepsPred_liftRM MdInv _
      intro payload
      apply keepsPred_getSt_bind
      intro a ha
      apply keepsPred_modSt
      intro st0 _
      exact mdInv_parseMetadataPayload a payload ha
    · exact keepsPred_pure MdInv _
  · exact keepsPred_pure MdInv _

/-- One metadata pseudo-event keeps the schema-table invariant,
whatever the header state carries. -/
theorem mdInv_parseMetadataEvent (compressed : Bool) (hst : MetaHeaderState) :
    KeepsPred MdInv (parseMetadataEvent compressed hst) := by
  unfold parseMetadataEvent
  apply keepsPred_ite
  · -- uncompressed
    apply keepsPred_bind
    · exact keepsPred_liftRM MdInv _
    intro a1
    apply keepsPred_bind
    · exact keepsPred_liftRM MdInv _
    intro a2
    apply keepsPred_bind
    · exact keepsPred_liftRM MdInv _
    intro a3
    apply keepsPred_bind
    · exact keepsPred_liftRM MdInv _
    intro a4
    apply keepsPred_bind
    · exact keepsPred_liftRM MdInv _
    intro a5
    apply keepsPred_bind
    · exact keepsPred_liftRM MdInv _
    intro a6
    apply keepsPred_bind
    · exact keepsPred_liftRM MdInv _
    intro a7
    apply keepsPred_bind
    · exact keepsPred_liftRM MdInv _
    intro a8
    apply keepsPred_bind
    · exact keepsPred_liftRM MdInv _
    intro a9
    apply keepsPred_bind
    · exact keepsPred_liftRM MdInv _
    intro a10
    apply keepsPred_bind
    · exact keepsPred_liftRM MdInv _
    intro a11
    apply keepsPred_bind
    · exact mdInv_mdHandlePayload _
    intro a12
    exact keepsPred_pure MdInv _
  · -- compressed
    apply keepsPred_bind
    · exact keepsPred_liftRM MdInv _
    intro flags
    apply keepsPred_bind
    · exact keepsPred_mdReadMetadataId MdInv _ _
    intro h1
    apply keepsPred_bind
    · exact keepsPred_mdReadSeqGroup MdInv _ _
    intro h2
    apply keepsPred_bind
    · exact keepsPred_mdReadThreadId MdInv _ _
    intro h3
    apply keepsPred_bind
    · exact keepsPred_mdReadStackId MdInv _ _
    intro h4
    apply keepsPred_bind
    · exact keepsPred_liftRM MdInv _
    intro d
    apply keepsPred_bind
    · exact keepsPred_pmWhen MdInv _ _ (keepsPred_liftRM MdInv _)
    intro u1
    apply keepsPred_bind
    · exact keepsPred_pmWhen MdInv _ _ (keepsPred_liftRM MdInv _)
    intro u2
    apply keepsPred_bind
    · exact keepsPred_mdReadPayloadSize MdInv _ _
    intro h5
    apply keepsPred_bind
    · exact mdInv_mdHandlePayload _
    intro u3
    exact keepsPred_pure MdInv _

/-- The metadata pseudo-event loop keeps the invariant. -/
theorem mdInv_mdEventLoop (compressed : Bool) :
    ∀ (fuel : Nat) (hst : MetaHeaderState),
      KeepsPred MdInv (mdEventLoop compressed fuel hst) := by
  intro fuel
  induction fuel with
  | zero => intro hst; exact keepsPred_pure MdInv ()
  | succ n ih =>
    intro hst
    unfold mdEventLoop
    apply keepsPred_bind
    · exact keepsPred_liftRM MdInv _
    intro rem
    apply keepsPred_ite
    · apply keepsPred_bind
      · exact keepsPred_pmTry MdInv _ (mdInv_parseMetadataEvent compressed hst)
      intro r
      cases r with
      | some hst' => exact ih hst'
      | none => exact keepsPred_pure MdInv ()
    · exact keepsPred_pure MdInv ()

/-- The whole metadata block keeps the invariant. -/
theorem mdInv_parseMetadataBlock (st : PSt) (data : List Nat) (h : MdInv st) :
    MdInv (parseMetadataBlock st data).2 := by
  unfold parseMetadataBlock runPM
  have hk : KeepsPred MdInv (parseMetadataBlockM data.length) := by
    unfold parseMetadataBlockM
    apply keepsPred_bind
    · exact keepsPred_liftRM MdInv _
    intro hsz
    apply keepsPred_bind
    · exact keepsPred_liftRM MdInv _
    intro flags
    apply keepsPred_bind
    · apply keepsPred_ite
      · exact keepsPred_liftRM MdInv _
      · exact keepsPred_pure MdInv _
    intro u
    exact mdInv_mdEventLoop _ _ _
  have := hk st data 0 h
  rcases hr : parseMetadataBlockM data.length st data 0 with ⟨r, st', o'⟩
  rw [hr] at this
  simpa using this

end NetTrace

namespace NetTrace

/-- C3: a schema freshly stored by `parseMetadataPayload` is stored
under the int32 metadata id read at the start of its payload
descriptor, which also becomes the schema's `metadataId` field — the
header-carried id never supplies the key; and the invariant
`key = payload-carried id` is kept by whole metadata blocks, whatever
header state their pseudo-events carry. -/
theorem claim3_theorem :
    (∀ (st : PSt) (payload : List Nat) (k : Int) (m : EventMetadata),
      amGet (parseMetadataPayload st payload).metadata k = some m →
        amGet st.metadata k = some m ∨
        (m.metadataId = k ∧ (readInt32LE payload 0).1 = Except.ok k)) ∧
    (∀ (st : PSt) (data : List Nat), MdInv st → MdInv (parseMetadataBlock st data).2) :=
  ⟨parseMetadataPayload_spec, mdInv_parseMetadataBlock⟩

/-- A concrete compressed metadata block: header (size 4, flags 1),
one pseudo-event whose header carries metadata id 1 but whose payload
descriptor carries id 9 (provider "P", event id 10, version 1, level
5, no fields). -/
def c3mdData : List Nat :=
  [4, 0, 1, 0, 0x81, 1, 0, 34,
   9, 0, 0, 0, 80, 0, 0, 0, 10, 0, 0, 0, 0, 0,
   0, 0, 0, 0, 0, 0, 0, 0, 1, 0, 0, 0, 5, 0, 0, 0, 0, 0, 0, 0]

/-- C3 witness: the invariant theorem applied to the concrete block;
the stored schema sits under key 9 (the payload id), not under the
header-carried id 1. -/
theorem claim3_witness :
    MdInv (parseMetadataBlock initSt c3mdData).2 ∧
    amGet (parseMetadataBlock initSt c3mdData).2.metadata 9 =
      some { metadataId := 9, providerName := [80], eventId := 10,
             eventName := [], keywords := 0, version := 1, level := 5,
             opcode := 0, fields := [] } ∧
    amGet (parseMetadataBlock initSt c3mdData).2.metadata 1 = none := by
  refine ⟨claim3_theorem.2 initSt c3mdData ?_, ?_, ?_⟩
  · intro k m hm
    simp [initSt, amGet] at hm
  · rfl
  · rfl

end NetTrace

namespace NetTrace

/-- The per-type aggregate invariant: each table entry's `totalSize` is
the sum of its recorded events' sizes, its `count` is their number, and
every recorded event carries the entry's type name. -/
def AllocInv (st : PSt) : Prop :=
  ∀ (tn : List Nat) (info : AllocationInfo),
    amGet st.allocations tn = some info →
      info.totalSize = (info.allocations.map AllocationEvent.size).sum ∧
      info.count = info.allocations.length ∧
      ∀ e ∈ info.allocations, e.typeName = tn

/-- A sequence of allocations recorded by the aggregator. -/
def recordAllocations (st : PSt) : List (List Nat × Nat × Nat × Nat) → PSt
  | [] => st
  | (tn, sz, ts, sid) :: rest => recordAllocations (addAllocation st tn sz ts sid) rest

/-- The allocations table produced by `addAllocation`, in closed form:
only the `typeName` entry changes. -/
theorem addAllocation_allocations (st : PSt) (tn : List Nat) (sz ts sid : Nat) :
    (addAllocation st tn sz ts sid).allocations =
      amSet st.allocations tn
        (let base : AllocationInfo :=
          match amGet st.allocations tn with
          | some a => a
          | none => { typeName := tn, count := 0, totalSize := 0, allocations := [] }
        let ev : AllocationEvent :=
          { typeName := tn, size := sz, timestamp := ts,
            stackTrace :=
              match amGet st.stackTable sid with
              | some stack => some (stack.addresses.map hexCodes)
              | none => none }
        { base with count := base.count + 1, totalSize := base.totalSize + sz,
                    allocations := base.allocations ++ [ev] }) := by
  unfold addAllocation
  repeat' split
  all_goals (first | rfl | (dsimp only; rfl) | simp_all)

theorem allocInv_addAllocation (st : PSt) (tn : List Nat) (sz ts sid : Nat)
    (h : AllocInv st) : AllocInv (addAllocation st tn sz ts sid) := by
  intro tn' info hget
  rw [addAllocation_allocations] at hget
  by_cases htn : tn' = tn
  · subst htn
    rw [amGet_amSet_eq] at hget
    have hinfo := Option.some.inj hget
    rcases hb : amGet st.allocations tn' with _ | base
    · rw [hb] at hinfo
      subst hinfo
      refine ⟨by simp, by simp, ?_⟩
      intro e he
      simp at he
      subst he
      rfl
    · rw [hb] at hinfo
      obtain ⟨h1, h2, h3⟩ := h tn' base hb
      subst hinfo
      refine ⟨?_, ?_, ?_⟩
      · simp [h1]
      · simp [h2]
      · intro e he
        simp at he
        rcases he with he | he
        · exact h3 e he
        · subst he
          rfl
  · rw [amGet_amSet_ne _ _ _ _ htn] at hget
    exact h tn' info hget


theorem allocInv_recordAllocations :
    ∀ (recs : List (List Nat × Nat × Nat × Nat)) (st : PSt),
      AllocInv st → AllocInv (recordAllocations st recs) := by
  intro recs
  induction recs with
  | nil => intro st h; exact h
  | cons r rest ih =>
    intro st h
    rcases r with ⟨tn, sz, ts, sid⟩
    exact ih _ (allocInv_addAllocation st tn sz ts sid h)

/-- C5: recording an allocation preserves the per-type aggregate
relation `totalSize = Σ event sizes ∧ count = #events` (with every
recorded event filed under its own type name), and hence any sequence
of allocations recorded by the aggregator from a table satisfying the
relation — in particular from the empty table the parse starts with —
yields a table satisfying it. -/
theorem claim5_theorem :
    (∀ (st : PSt) (tn : List Nat) (sz ts sid : Nat),
      AllocInv st → AllocInv (addAllocation st tn sz ts sid)) ∧
    (∀ (recs : List (List Nat × Nat × Nat × Nat)) (st : PSt),
      AllocInv st → AllocInv (recordAllocations st recs)) ∧
    AllocInv initSt :=
  ⟨allocInv_addAllocation, allocInv_recordAllocations,
   fun tn info hget => absurd hget (by simp [initSt, amGet])⟩

/-- C5 witness: two allocations of type "A" (sizes 8 and 24) and one
of type "B" (size 16); the "A" entry has count 2 and totalSize 32. -/
theorem claim5_witness :
    AllocInv (recordAllocations initSt
      [([65], 8, 100, 0), ([66], 16, 101, 0), ([65], 24, 102, 0)]) ∧
    amGet (recordAllocations initSt
      [([65], 8, 100, 0), ([66], 16, 101, 0), ([65], 24, 102, 0)]).allocations [65] =
      some { typeName := [65], count := 2, totalSize := 32,
             allocations :=
               [{ typeName := [65], size := 8, timestamp := 100, stackTrace := none },
                { typeName := [65], size := 24, timestamp := 102, stackTrace := none }] } := by
  constructor
  · exact claim5_theorem.2.1 _ initSt claim5_theorem.2.2
  · rfl

end NetTrace

namespace NetTrace

/-- The sequence of pointer-size words stored behind a stack entry's
size word: `count` words of width `w` (64-bit when `w = 8`, else
32-bit) read back-to-back from `off`.  This names the exact bytes the
address loop of `parseStackBlock` decodes. -/
def addrWords (w : Nat) (data : List Nat) : Nat → Nat → List Nat
  | _, 0 => []
  | off, k + 1 =>
    (if w = 8 then u64At data off else u32At data off) ::
      addrWords w data (off + w) k

theorem addrWords_length (w : Nat) (data : List Nat) :
    ∀ (k off : Nat), (addrWords w data off k).length = k := by
  intro k
  induction k with
  | zero => intro off; rfl
  | succ n ih => intro off; simp [addrWords, ih]

/-- The address loop of `parseStackBlock`: with a 4- or 8-byte pointer
size it decodes exactly the `stackSize / pointerSize` words (floor
division) that immediately follow the current offset, leaves the
cursor right after them (any remainder bytes stay in the stream), and
cannot fail when that many words fit in the buffer. -/
theorem stackAddrLoop_spec (w : Nat) (hw : w = 4 ∨ w = 8) (stackSize : Nat)
    (data : List Nat) :
    ∀ (fuel jn off : Nat) (st : PSt),
      jn ≤ stackSize / w →
      off + (stackSize / w - jn) * w ≤ data.length →
      stackSize / w - jn < fuel →
      ∃ (addrs : List Nat) (off' : Nat),
        stackAddrLoop (w : Int) stackSize fuel (jn : Int) st data off =
          (Except.ok addrs, st, off') ∧
        addrs = addrWords w data off (stackSize / w - jn) ∧
        off' = off + (stackSize / w - jn) * w := by
  intro fuel
  induction fuel with
  | zero =>
    intro jn off st hj hoff hfuel
    omega
  | succ n ih =>
    intro jn off st hj hoff hfuel
    have hw0 : (w : Int) ≠ 0 := by rcases hw with h | h <;> simp [h]
    have hfd : Int.fdiv (stackSize : Int) (w : Int) = ((stackSize / w : Nat) : Int) :=
      (Int.ofNat_fdiv stackSize w).symm
    unfold stackAddrLoop
    simp only [hw0, if_false, hfd]
    by_cases hjq : jn < stackSize / w
    · have hcond : (decide ((jn : Int) < ((stackSize / w : Nat) : Int))) = true := by
        rw [decide_eq_true_eq]
        exact_mod_cast hjq
      rw [hcond]
      simp only [if_true]
      rw [pm_bind_eq]
      have hwle : off + w ≤ data.length := by
        have : 1 * w ≤ (stackSize / w - jn) * w :=
          Nat.mul_le_mul_right w (by omega)
        omega
      have hble : ((off : Int) + (w : Int) ≤ (data.length : Int)) := by exact_mod_cast hwle
      have hhb : rmHasBytesI (w : Int) data off = (Except.ok true, off) := by
        simp [rmHasBytesI, hble]
      rw [liftRM_mk _ _ _ _ _ _ hhb]
      dsimp only
      rw [if_pos rfl]
      have hstep : (stackSize / w - (jn + 1)) * w + w = (stackSize / w - jn) * w := by
        have h1 : stackSize / w - (jn + 1) + 1 = stackSize / w - jn := by omega
        calc (stackSize / w - (jn + 1)) * w + w
            = (stackSize / w - (jn + 1) + 1) * w := by ring
          _ = (stackSize / w - jn) * w := by rw [h1]
      obtain ⟨rest, off2, hrest, hval, hoff2⟩ := ih (jn + 1) (off + w) st (by omega)
        (by omega) (by omega)
      have hcast : ((jn : Int) + 1) = (((jn + 1 : Nat)) : Int) := by push_cast; ring
      have hq : stackSize / w - jn = (stackSize / w - (jn + 1)) + 1 := by omega
      rcases hw with h | h
      · subst h
        rw [if_neg (show ((4 : Nat) : Int) = 8 → False by decide)]
        rw [pm_bind_eq]
        have hrd : readUInt32LE data off = (Except.ok (u32At data off), off + 4) := by
          simp [readUInt32LE, hwle]
        rw [liftRM_mk _ _ _ _ _ _ hrd]
        dsimp only
        rw [pm_bind_eq, hcast, hrest]
        dsimp only
        refine ⟨_, off2, rfl, ?_, ?_⟩
        · rw [hq, hval]
          simp [addrWords]
        · omega
      · subst h
        rw [if_pos (show ((8 : Nat) : Int) = 8 by decide)]
        rw [pm_bind_eq]
        have hrd : readUInt64LE data off = (Except.ok (u64At data off), off + 8) := by
          simp [readUInt64LE, hwle]
        rw [liftRM_mk _ _ _ _ _ _ hrd]
        dsimp only
        rw [pm_bind_eq, hcast, hrest]
        dsimp only
        refine ⟨_, off2, rfl, ?_, ?_⟩
        · rw [hq, hval]
          simp [addrWords]
        · omega
    · have hcond : (decide ((jn : Int) < ((stackSize / w : Nat) : Int))) = false := by
        rw [decide_eq_false_iff_not]
        intro hc
        exact hjq (by exact_mod_cast hc)
      rw [hcond]
      rw [if_neg (show (false = true) → False by decide)]
      have h0 : stackSize / w - jn = 0 := by omega
      refine ⟨[], off, rfl, ?_, ?_⟩
      · rw [h0]
        rfl
      · rw [h0]
        omega

end NetTrace

namespace NetTrace

/-- A lookup in a map after `amSet` sees either the new value or an old
binding. -/
theorem amGet_amSet_cases {κ α : Type} [DecidableEq κ] (l : List (κ × α))
    (k k' : κ) (v r : α) (h : amGet (amSet l k v) k' = some r) :
    r = v ∨ amGet l k' = some r := by
  by_cases hk : k' = k
  · subst hk
    rw [amGet_amSet_eq] at h
    exact Or.inl (by injection h with h; exact h.symm)
  · rw [amGet_amSet_ne _ _ _ _ hk] at h
    exact Or.inr h

/-- As `amGet_amSet_cases`, but recording that the new value is only
seen under the new key. -/
theorem amGet_amSet_cases' {κ α : Type} [DecidableEq κ] (l : List (κ × α))
    (k k' : κ) (v r : α) (h : amGet (amSet l k v) k' = some r) :
    (k' = k ∧ r = v) ∨ amGet l k' = some r := by
  by_cases hk : k' = k
  · subst hk
    rw [amGet_amSet_eq] at h
    exact Or.inl ⟨rfl, by injection h with h; exact h.symm⟩
  · rw [amGet_amSet_ne _ _ _ _ hk] at h
    exact Or.inr h

/-- Entry loop of `parseStackBlock`: any record in the resulting stack
table was already present, or is a record of its own entry: its stack
id is its key, its 32-bit size word sits at some `pos` whose declared
byte count fits the buffer, and its addresses are exactly the
`size / pointerSize` words decoded immediately after that size word. -/
theorem stackEntryLoop_table (w : Nat) (hw : w = 4 ∨ w = 8) (data : List Nat)
    (dataLen : Nat) (hdl : data.length ≤ dataLen) :
    ∀ (count currentId off : Nat) (st : PSt),
      st.pointerSize = (w : Int) →
      ∀ (id : Nat) (rec : StackInfo),
        amGet ((stackEntryLoop dataLen count currentId st data off).2.1).stackTable id = some rec →
        amGet st.stackTable id = some rec ∨
          ∃ pos, pos + 4 ≤ data.length ∧
            pos + 4 + u32At data pos ≤ data.length ∧
            rec.stackId = id ∧
            rec.addresses = addrWords w data (pos + 4) (u32At data pos / w) := by
  intro count
  induction count with
  | zero =>
    intro currentId off st hps id rec h
    exact Or.inl h
  | succ n ih =>
    intro currentId off st hps id rec h
    unfold stackEntryLoop at h
    rw [pm_bind_eq] at h
    rw [liftRM_mk _ _ _ _ _ _
      (show rmRemaining data off = (Except.ok (data.length - off), off) from rfl)] at h
    dsimp only at h
    by_cases hrem : data.length - off ≥ 4
    · rw [if_pos hrem] at h
      have h4 : off + 4 ≤ data.length := by omega
      rw [pm_bind_eq] at h
      have hrd : readUInt32LE data off = (Except.ok (u32At data off), off + 4) := by
        simp [readUInt32LE, h4]
      rw [liftRM_mk _ _ _ _ _ _ hrd] at h
      dsimp only at h
      rw [pm_bind_eq] at h
      rw [liftRM_mk _ _ _ _ _ _
        (show rmHasBytes (u32At data off) data (off + 4) =
          (Except.ok (decide (off + 4 + u32At data off ≤ data.length)), off + 4) from rfl)] at h
      dsimp only at h
      by_cases hz : u32At data off = 0 ∨
          (!decide (off + 4 + u32At data off ≤ data.length)) = true
      · rw [if_pos hz] at h
        exact Or.inl h
      · rw [if_neg hz] at h
        push_neg at hz
        have hsb : off + 4 + u32At data off ≤ data.length := by
          rcases hz with ⟨_, hb⟩
          by_contra hcon
          exact hb (by simp [hcon])
        rw [pm_bind_eq] at h
        dsimp only [getSt] at h
        rw [hps] at h
        obtain ⟨addrs, off2, hloop, hval, hoff2⟩ :=
          stackAddrLoop_spec w hw (u32At data off) data (dataLen + 1) 0 (off + 4) st
            (Nat.zero_le _)
            (by
              have hdm := Nat.div_mul_le_self (u32At data off) w
              simp only [Nat.sub_zero]
              omega)
            (by
              have hds := Nat.div_le_self (u32At data off) w
              omega)
        rw [Nat.cast_zero] at hloop
        rw [pm_bind_eq, hloop] at h
        dsimp only at h
        rw [pm_bind_eq] at h
        dsimp only [modSt] at h
        rcases ih (currentId + 1) off2 ({ st with stackTable := amSet st.stackTable currentId { stackId := currentId, addresses := addrs } }) hps id rec h with h1 | h2
        · rcases amGet_amSet_cases' _ _ _ _ _ h1 with ⟨hid, he⟩ | hold
          · refine Or.inr ⟨off, h4, hsb, ?_, ?_⟩
            · rw [he]
              exact hid.symm
            · rw [he]
              simpa using hval
          · exact Or.inl hold
        · exact Or.inr h2
    · rw [if_neg hrem] at h
      exact Or.inl h

end NetTrace

namespace NetTrace

/-- C6 (corrected): a record that `parseStackBlock` adds to the stack
table is tied to its own entry: its stack id is its key, its entry's
32-bit size word sits at a `pos` whose declared byte count the entry
guard checked against the buffer, and its addresses are exactly the
`floor(size / pointerSize)` pointer-size words decoded immediately
after that size word.  Hence `len(addresses) × pointerSize` equals the
record's own declared size exactly when the pointer size divides it;
the remainder bytes of a non-multiple size are left in the stream
(where the loop next reads them as a size word). -/
theorem claim6_theorem (w : Nat) (hw : w = 4 ∨ w = 8) (st : PSt)
    (data : List Nat) (hps : st.pointerSize = (w : Int)) (id : Nat)
    (rec : StackInfo)
    (h : amGet (parseStackBlock st data).stackTable id = some rec) :
    amGet st.stackTable id = some rec ∨
      ∃ pos, pos + 4 ≤ data.length ∧
        pos + 4 + u32At data pos ≤ data.length ∧
        rec.stackId = id ∧
        rec.addresses = addrWords w data (pos + 4) (u32At data pos / w) ∧
        rec.addresses.length = u32At data pos / w ∧
        (rec.addresses.length * w = u32At data pos ↔ w ∣ u32At data pos) := by
  have hw0 : 0 < w := by rcases hw with h' | h' <;> simp [h']
  have hmain : amGet st.stackTable id = some rec ∨
      ∃ pos, pos + 4 ≤ data.length ∧
        pos + 4 + u32At data pos ≤ data.length ∧
        rec.stackId = id ∧
        rec.addresses = addrWords w data (pos + 4) (u32At data pos / w) := by
    unfold parseStackBlock runPM pmTry at h
    rcases hm : parseStackBlockM data.length st data 0 with ⟨r, st2, o⟩
    rw [hm] at h
    have h2 : amGet st2.stackTable id = some rec := by
      cases r <;> exact h
    have hgen : amGet ((parseStackBlockM data.length st data 0).2.1).stackTable id = some rec := by
      rw [hm]; exact h2
    revert hgen
    unfold parseStackBlockM
    rw [pm_bind_eq]
    rcases hr0 : readUInt32LE data 0 with ⟨e0, o0⟩
    rw [liftRM_mk _ _ _ _ _ _ hr0]
    cases e0 with
    | error msg =>
      dsimp only
      intro hg
      exact Or.inl hg
    | ok v0 =>
      dsimp only
      rw [pm_bind_eq]
      rcases hr1 : readUInt32LE data o0 with ⟨e1, o1⟩
      rw [liftRM_mk _ _ _ _ _ _ hr1]
      cases e1 with
      | error msg =>
        dsimp only
        intro hg
        exact Or.inl hg
      | ok v1 =>
        dsimp only
        exact stackEntryLoop_table w hw data data.length (le_refl _) v1 v0 o1 st hps id rec
  rcases hmain with h1 | ⟨pos, hp1, hp2, hsid, hads⟩
  · exact Or.inl h1
  · have hlen : rec.addresses.length = u32At data pos / w := by
      rw [hads, addrWords_length]
    refine Or.inr ⟨pos, hp1, hp2, hsid, hads, hlen, ?_⟩
    constructor
    · intro he
      exact ⟨rec.addresses.length, by rw [← he]; ring⟩
    · intro hdvd
      rw [hlen]
      exact Nat.div_mul_cancel hdvd

end NetTrace

namespace NetTrace

/-- Stack block with `firstId = 1`, `count = 1` and one entry declaring
12 bytes of addresses under an 8-byte pointer size. -/
def c6data : List Nat :=
  [1, 0, 0, 0, 1, 0, 0, 0, 12, 0, 0, 0] ++ List.replicate 12 0

/-- Stack block with `firstId = 1`, `count = 2`: entry 1 declares 12
bytes (one 8-byte address, 4 remainder bytes `99 0 0 0`), then a
well-formed entry declaring 8 bytes with address 7 follows. -/
def c6data2 : List Nat :=
  [1, 0, 0, 0, 2, 0, 0, 0, 12, 0, 0, 0] ++
    [0, 0, 0, 0, 0, 0, 0, 0] ++ [99, 0, 0, 0] ++
    [8, 0, 0, 0] ++ [7, 0, 0, 0, 0, 0, 0, 0]

/-- C6 counterexample: entry 1 declares 12 bytes under pointer size 8
but is stored with a single 8-byte address (`1 × 8 ≠ 12`), and the 4
remainder bytes are NOT skipped: the cursor stays at them, the loop
reads them as the next entry's size word (99, which fails the bounds
check), and the well-formed entry with id 2 that follows is lost. -/
theorem claim6_counterexample :
    initSt.pointerSize = 8 ∧
    u32At c6data2 8 = 12 ∧
    (parseStackBlock initSt c6data2).stackTable =
      [(1, { stackId := 1, addresses := [0] })] ∧
    ¬ ((1 : Nat) * 8 = u32At c6data2 8) ∧
    u32At c6data2 20 = 99 ∧
    u32At c6data2 24 = 8 ∧
    24 + 4 + u32At c6data2 24 ≤ c6data2.length ∧
    amGet (parseStackBlock initSt c6data2).stackTable 2 = none := by
  refine ⟨rfl, by decide, ?_, by decide, by decide, by decide, by decide, ?_⟩
  · rfl
  · rfl

/-- C6 witness: the corrected statement applied to a concrete
single-entry block. -/
theorem claim6_witness :
    amGet initSt.stackTable 1 = some ({ stackId := 1, addresses := [0] } : StackInfo) ∨
      ∃ pos, pos + 4 ≤ c6data.length ∧
        pos + 4 + u32At c6data pos ≤ c6data.length ∧
        ({ stackId := 1, addresses := [0] } : StackInfo).stackId = 1 ∧
        ({ stackId := 1, addresses := [0] } : StackInfo).addresses =
          addrWords 8 c6data (pos + 4) (u32At c6data pos / 8) ∧
        ({ stackId := 1, addresses := [0] } : StackInfo).addresses.length =
          u32At c6data pos / 8 ∧
        (({ stackId := 1, addresses := [0] } : StackInfo).addresses.length * 8 =
            u32At c6data pos ↔ 8 ∣ u32At c6data pos) := by
  exact claim6_theorem 8 (Or.inr rfl) initSt c6data (by decide) 1
    { stackId := 1, addresses := [0] } (by rfl)

end NetTrace

namespace NetTrace

/-- `addAllocation` never touches the error list. -/
theorem addAllocation_errors (st : PSt) (typeName : List Nat) (size timestamp stackId : Nat) :
    (addAllocation st typeName size timestamp stackId).errors = st.errors := by
  unfold addAllocation
  repeat' split
  all_goals rfl

/-- The stack-address loop never touches the error list. -/
theorem errors_stackAddrLoop (E : List String) (ps : Int) (sz : Nat) :
    ∀ (fuel : Nat) (j : Int),
      KeepsPred (fun s => s.errors = E) (stackAddrLoop ps sz fuel j) := by
  intro fuel
  induction fuel with
  | zero => intro j; exact keepsPred_pure _ _
  | succ n ih =>
    intro j
    unfold stackAddrLoop
    dsimp only
    apply keepsPred_ite
    · apply keepsPred_bind
      · exact keepsPred_liftRM _ _
      intro hb
      apply keepsPred_ite
      · apply keepsPred_ite
        all_goals
          apply keepsPred_bind
          · exact keepsPred_liftRM _ _
        all_goals
          intro addr
          apply keepsPred_bind
          · exact ih (j + 1)
        all_goals
          intro rest
          exact keepsPred_pure _ _
      · exact keepsPred_pure _ _
    · exact keepsPred_pure _ _

/-- The stack-entry loop never touches the error list. -/
theorem errors_stackEntryLoop (E : List String) (dataLen : Nat) :
    ∀ (count currentId : Nat),
      KeepsPred (fun s => s.errors = E) (stackEntryLoop dataLen count currentId) := by
  intro count
  induction count with
  | zero => intro currentId; exact keepsPred_pure _ _
  | succ n ih =>
    intro currentId
    unfold stackEntryLoop
    apply keepsPred_bind
    · exact keepsPred_liftRM _ _
    intro rem
    apply keepsPred_ite
    · apply keepsPred_bind
      · exact keepsPred_liftRM _ _
      intro stackSize
      apply keepsPred_bind
      · exact keepsPred_liftRM _ _
      intro hb
      apply keepsPred_ite
      · exact keepsPred_pure _ _
      · apply keepsPred_getSt_bind
        intro st0 _
        apply keepsPred_bind
        · exact errors_stackAddrLoop E _ _ _ _
        intro addresses
        apply keepsPred_bind
        · exact keepsPred_modSt _ _ (fun s hs => hs)
        intro u
        exact ih (currentId + 1)
    · exact keepsPred_pure _ _

/-- The allocation-event body never touches the error list. -/
theorem errors_parseAllocationEventM (E : List String) (timestamp stackId : Nat) :
    KeepsPred (fun s => s.errors = E) (parseAllocationEventM timestamp stackId) := by
  unfold parseAllocationEventM
  dsimp only
  apply keepsPred_bind
  · exact keepsPred_liftRM _ _
  intro allocationAmount
  apply keepsPred_bind
  · exact keepsPred_liftRM _ _
  intro k
  apply keepsPred_bind
  · exact keepsPred_liftRM _ _
  intro u
  apply keepsPred_bind
  · exact keepsPred_liftRM _ _
  intro rem
  apply keepsPred_ite
  all_goals
    apply keepsPred_bind
    · first
      | exact keepsPred_liftRM _ _
      | exact keepsPred_pure _ _
  all_goals
    intro allocSize
    apply keepsPred_bind
    · exact keepsPred_liftRM _ _
    intro rem2
    apply keepsPred_getSt_bind
    intro st0 h0
    apply keepsPred_bind
    · apply keepsPred_ite
      · exact keepsPred_liftRM _ _
      · exact keepsPred_pure _ _
    intro u2
    apply keepsPred_bind
    · exact keepsPred_liftRM _ _
    intro tn
    apply keepsPred_getSt_bind
    intro st1 h1
    apply keepsPred_modSt
    intro s hs
    rw [addAllocation_errors]
    exact h1

/-- The method-load-verbose body never touches the error list. -/
theorem errors_parseMethodLoadVerboseEventM (E : List String) :
    KeepsPred (fun s => s.errors = E) parseMethodLoadVerboseEventM := by
  unfold parseMethodLoadVerboseEventM
  dsimp only
  apply keepsPred_bind
  · exact keepsPred_liftRM _ _
  intro a1
  apply keepsPred_bind
  · exact keepsPred_liftRM _ _
  intro a2
  apply keepsPred_bind
  · exact keepsPred_liftRM _ _
  intro a3
  apply keepsPred_bind
  · exact keepsPred_liftRM _ _
  intro a4
  apply keepsPred_bind
  · exact keepsPred_liftRM _ _
  intro a5
  apply keepsPred_bind
  · exact keepsPred_liftRM _ _
  intro a6
  apply keepsPred_bind
  · exact keepsPred_liftRM _ _
  intro a7
  apply keepsPred_bind
  · exact keepsPred_liftRM _ _
  intro a8
  apply keepsPred_bind
  · exact keepsPred_liftRM _ _
  intro a9
  apply keepsPred_modSt
  intro s hs
  exact hs

/-- The method-jitting body never touches the error list. -/
theorem errors_parseMethodJittingStartedEventM (E : List String) :
    KeepsPred (fun s => s.errors = E) parseMethodJittingStartedEventM := by
  unfold parseMethodJittingStartedEventM
  dsimp only
  apply keepsPred_bind
  · exact keepsPred_liftRM _ _
  intro a1
  apply keepsPred_bind
  · exact keepsPred_liftRM _ _
  intro a2
  apply keepsPred_bind
  · exact keepsPred_liftRM _ _
  intro a3
  apply keepsPred_bind
  · exact keepsPred_liftRM _ _
  intro a4
  apply keepsPred_bind
  · exact keepsPred_liftRM _ _
  intro a5
  apply keepsPred_bind
  · exact keepsPred_liftRM _ _
  intro a6
  apply keepsPred_bind
  · exact keepsPred_liftRM _ _
  intro a7
  apply keepsPred_modSt
  intro s hs
  cases hg : amGet s.methods a1 with
  | none => simp only [hg]; exact hs
  | some m => simp only [hg]; exact hs

end NetTrace

namespace NetTrace

/-- The whole stack-block body never touches the error list. -/
theorem errors_parseStackBlockM (E : List String) (dataLen : Nat) :
    KeepsPred (fun s => s.errors = E) (parseStackBlockM dataLen) := by
  unfold parseStackBlockM
  apply keepsPred_bind
  · exact keepsPred_liftRM _ _
  intro firstId
  apply keepsPred_bind
  · exact keepsPred_liftRM _ _
  intro count
  exact errors_stackEntryLoop E dataLen count firstId

/-- `getSt` followed by a state-replacing `modSt` (the
`const st = this...; this.x = f(st)` dispatch pattern) keeps any
predicate that `f` keeps. -/
theorem keepsPred_dispatch (P : PSt → Prop) (g : PSt → PSt)
    (hg : ∀ s, P s → P (g s)) :
    KeepsPred P (getSt >>= fun st0 => modSt (fun _ => g st0)) := by
  apply keepsPred_getSt_bind
  intro a ha
  apply keepsPred_modSt
  intro s hs
  exact hg a ha

/-- `parseStackBlock` never touches the error list (its `catch` is
silent). -/
theorem errors_parseStackBlock_st (st : PSt) (data : List Nat) :
    (parseStackBlock st data).errors = st.errors := by
  have hk := keepsPred_pmTry _ _ (errors_parseStackBlockM st.errors data.length) st data 0 rfl
  unfold parseStackBlock runPM
  rcases hr : pmTry (parseStackBlockM data.length) st data 0 with ⟨r, st2, o⟩
  rw [hr] at hk
  exact hk

/-- `parseAllocationEvent` never touches the error list. -/
theorem errors_parseAllocationEvent_st (st : PSt) (payload : List Nat)
    (ts sid : Nat) :
    (parseAllocationEvent st payload ts sid).errors = st.errors := by
  unfold parseAllocationEvent
  by_cases hlen : payload.length < 10
  · rw [if_pos hlen]
  · rw [if_neg hlen]
    have hk := keepsPred_pmTry _ _ (errors_parseAllocationEventM st.errors ts sid) st payload 0 rfl
    rcases hr : pmTry (parseAllocationEventM ts sid) st payload 0 with ⟨r, st2, o⟩
    rw [hr] at hk
    unfold runPM
    rw [hr]
    exact hk

/-- `parseMethodLoadVerboseEvent` never touches the error list. -/
theorem errors_parseMethodLoadVerboseEvent_st (st : PSt) (payload : List Nat) :
    (parseMethodLoadVerboseEvent st payload).errors = st.errors := by
  have hk := keepsPred_pmTry _ _ (errors_parseMethodLoadVerboseEventM st.errors) st payload 0 rfl
  unfold parseMethodLoadVerboseEvent runPM
  rcases hr : pmTry parseMethodLoadVerboseEventM st payload 0 with ⟨r, st2, o⟩
  rw [hr] at hk
  exact hk

/-- `parseMethodJittingStartedEvent` never touches the error list. -/
theorem errors_parseMethodJittingStartedEvent_st (st : PSt) (payload : List Nat) :
    (parseMethodJittingStartedEvent st payload).errors = st.errors := by
  have hk := keepsPred_pmTry _ _ (errors_parseMethodJittingStartedEventM st.errors) st payload 0 rfl
  unfold parseMethodJittingStartedEvent runPM
  rcases hr : pmTry parseMethodJittingStartedEventM st payload 0 with ⟨r, st2, o⟩
  rw [hr] at hk
  exact hk

/-- The metadata field loop never touches the error list. -/
theorem errors_readMetadataFields (E : List String) :
    ∀ (n : Nat), KeepsPred (fun s => s.errors = E) (readMetadataFields n) := by
  intro n
  induction n with
  | zero => exact keepsPred_pure _ _
  | succ m ih =>
    unfold readMetadataFields
    apply keepsPred_bind
    · exact keepsPred_liftRM _ _
    intro rem
    apply keepsPred_ite
    · apply keepsPred_bind
      · exact keepsPred_liftRM _ _
      intro typeCode
      apply keepsPred_ite
      · apply keepsPred_bind
        · exact keepsPred_liftRM _ _
        intro u
        apply keepsPred_bind
        · exact keepsPred_liftRM _ _
        intro fieldName
        apply keepsPred_bind
        · exact ih
        intro rest
        exact keepsPred_pure _ _
      · apply keepsPred_bind
        · exact keepsPred_liftRM _ _
        intro fieldName
        apply keepsPred_bind
        · exact ih
        intro rest
        exact keepsPred_pure _ _
    · exact keepsPred_pure _ _

/-- The metadata payload body never touches the error list. -/
theorem errors_parseMetadataPayloadM (E : List String) :
    KeepsPred (fun s => s.errors = E) parseMetadataPayloadM := by
  unfold parseMetadataPayloadM
  dsimp only
  apply keepsPred_bind
  · exact keepsPred_liftRM _ _
  intro a1
  apply keepsPred_bind
  · exact keepsPred_liftRM _ _
  intro a2
  apply keepsPred_bind
  · exact keepsPred_liftRM _ _
  intro a3
  apply keepsPred_bind
  · exact keepsPred_liftRM _ _
  intro a4
  apply keepsPred_bind
  · exact keepsPred_liftRM _ _
  intro a5
  apply keepsPred_bind
  · exact keepsPred_liftRM _ _
  intro a6
  apply keepsPred_bind
  · exact keepsPred_liftRM _ _
  intro a7
  apply keepsPred_bind
  · exact keepsPred_modSt _ _ (fun s hs => hs)
  intro u1
  apply keepsPred_bind
  · exact keepsPred_liftRM _ _
  intro rem
  apply keepsPred_ite
  · apply keepsPred_bind
    · exact keepsPred_liftRM _ _
    intro fieldCount
    apply keepsPred_bind
    · exact errors_readMetadataFields E _
    intro y
    apply keepsPred_modSt
    intro s hs
    exact hs
  · apply keepsPred_bind
    · exact keepsPred_pure _ _
    intro y
    apply keepsPred_modSt
    intro s hs
    exact hs

/-- `parseMetadataPayload` never touches the error list (its `catch`
is silent). -/
theorem errors_parseMetadataPayload_st (st : PSt) (payload : List Nat) :
    (parseMetadataPayload st payload).errors = st.errors := by
  unfold parseMetadataPayload runPM
  rcases hr : parseMetadataPayloadM st payload 0 with ⟨r, st2, o⟩
  have hk := errors_parseMetadataPayloadM st.errors st payload 0 rfl
  rw [hr] at hk
  exact hk

/-- The payload hand-off keeps any predicate kept by
`parseMetadataPayload`. -/
theorem keepsPred_mdHandlePayload (P : PSt → Prop)
    (hp : ∀ (a : PSt) (payload : List Nat), P a → P (parseMetadataPayload a payload))
    (hst : MetaHeaderState) :
    KeepsPred P (mdHandlePayload hst) := by
  unfold mdHandlePayload
  apply keepsPred_ite
  · apply keepsPred_bind
    · exact keepsPred_liftRM P _
    intro hb
    apply keepsPred_ite
    · apply keepsPred_bind
      · exact keepsPred_liftRM P _
      intro payload
      apply keepsPred_getSt_bind
      intro a ha
      apply keepsPred_modSt
      intro st0 _
      exact hp a payload ha
    · exact keepsPred_pure P _
  · exact keepsPred_pure P _

/-- One metadata pseudo-event keeps any predicate kept by
`parseMetadataPayload`. -/
theorem keepsPred_parseMetadataEvent (P : PSt → Prop)
    (hp : ∀ (a : PSt) (payload : List Nat), P a → P (parseMetadataPayload a payload))
    (compressed : Bool) (hst : MetaHeaderState) :
    KeepsPred P (parseMetadataEvent compressed hst) := by
  unfold parseMetadataEvent
  apply keepsPred_ite
  · apply keepsPred_bind
    · exact keepsPred_liftRM P _
    intro a1
    apply keepsPred_bind
    · exact keepsPred_liftRM P _
    intro a2
    apply keepsPred_bind
    · exact keepsPred_liftRM P _
    intro a3
    apply keepsPred_bind
    · exact keepsPred_liftRM P _
    intro a4
    apply keepsPred_bind
    · exact keepsPred_liftRM P _
    intro a5
    apply keepsPred_bind
    · exact keepsPred_liftRM P _
    intro a6
    apply keepsPred_bind
    · exact keepsPred_liftRM P _
    intro a7
    apply keepsPred_bind
    · exact keepsPred_liftRM P _
    intro a8
    apply keepsPred_bind
    · exact keepsPred_liftRM P _
    intro a9
    apply keepsPred_bind
    · exact keepsPred_liftRM P _
    intro a10
    apply keepsPred_bind
    · exact keepsPred_liftRM P _
    intro a11
    apply keepsPred_bind
    · exact keepsPred_mdHandlePayload P hp _
    intro a12
    exact keepsPred_pure P _
  · apply keepsPred_bind
    · exact keepsPred_liftRM P _
    intro flags
    apply keepsPred_bind
    · exact keepsPred_mdReadMetadataId P _ _
    intro h1
    apply keepsPred_bind
    · exact keepsPred_mdReadSeqGroup P _ _
    intro h2
    apply keepsPred_bind
    · exact keepsPred_mdReadThreadId P _ _
    intro h3
    apply keepsPred_bind
    · exact keepsPred_mdReadStackId P _ _
    intro h4
    apply keepsPred_bind
    · exact keepsPred_liftRM P _
    intro d
    apply keepsPred_bind
    · exact keepsPred_pmWhen P _ _ (keepsPred_liftRM P _)
    intro u1
    apply keepsPred_bind
    · exact keepsPred_pmWhen P _ _ (keepsPred_liftRM P _)
    intro u2
    apply keepsPred_bind
    · exact keepsPred_mdReadPayloadSize P _ _
    intro h5
    apply keepsPred_bind
    · exact keepsPred_mdHandlePayload P hp _
    intro u3
    exact keepsPred_pure P _

/-- The metadata pseudo-event loop keeps any predicate kept by
`parseMetadataPayload`. -/
theorem keepsPred_mdEventLoop (P : PSt → Prop)
    (hp : ∀ (a : PSt) (payload : List Nat), P a → P (parseMetadataPayload a payload))
    (compressed : Bool) :
    ∀ (fuel : Nat) (hst : MetaHeaderState),
      KeepsPred P (mdEventLoop compressed fuel hst) := by
  intro fuel
  induction fuel with
  | zero => intro hst; exact keepsPred_pure P ()
  | succ n ih =>
    intro hst
    unfold mdEventLoop
    apply keepsPred_bind
    · exact keepsPred_liftRM P _
    intro rem
    apply keepsPred_ite
    · apply keepsPred_bind
      · exact keepsPred_pmTry P _ (keepsPred_parseMetadataEvent P hp compressed hst)
      intro r
      cases r with
      | some hst2 => exact ih hst2
      | none => exact keepsPred_pure P ()
    · exact keepsPred_pure P ()

/-- The whole metadata block body keeps any predicate kept by
`parseMetadataPayload`. -/
theorem keepsPred_parseMetadataBlockM (P : PSt → Prop)
    (hp : ∀ (a : PSt) (payload : List Nat), P a → P (parseMetadataPayload a payload))
    (dataLen : Nat) :
    KeepsPred P (parseMetadataBlockM dataLen) := by
  unfold parseMetadataBlockM
  dsimp only
  apply keepsPred_bind
  · exact keepsPred_liftRM P _
  intro headerSize
  apply keepsPred_bind
  · exact keepsPred_liftRM P _
  intro flags
  apply keepsPred_bind
  · apply keepsPred_ite
    · exact keepsPred_liftRM P _
    · exact keepsPred_pure P _
  intro u
  exact keepsPred_mdEventLoop P hp _ _ _

/-- The metadata block parser never touches the error list, whether it
returns normally or with an error: all pseudo-event and payload
failures inside are swallowed silently. -/
theorem errors_parseMetadataBlock_st (st : PSt) (data : List Nat) :
    (parseMetadataBlock st data).2.errors = st.errors := by
  unfold parseMetadataBlock runPM
  rcases hr : parseMetadataBlockM data.length st data 0 with ⟨r, st2, o⟩
  have hk := keepsPred_parseMetadataBlockM (fun s => s.errors = st.errors)
    (fun a payload ha => by
      show (parseMetadataPayload a payload).errors = st.errors
      rw [errors_parseMetadataPayload_st]
      exact ha)
    data.length st data 0 rfl
  rw [hr] at hk
  exact hk

/-- `processCpuSample` never touches the error list. -/
theorem errors_processCpuSample (st : PSt) (sid : Nat) :
    (processCpuSample st sid).errors = st.errors := by
  unfold processCpuSample
  split
  · rfl
  · rfl

/-- The event dispatcher never touches the error list: every
well-known-event parser it calls swallows its own failures. -/
theorem errors_processEvent (st : PSt) (mid tid ts sid : Nat)
    (payload : List Nat) :
    (processEvent st mid tid ts sid payload).errors = st.errors := by
  unfold processEvent
  dsimp only
  repeat' split
  all_goals
    simp only [errors_processCpuSample, errors_parseAllocationEvent_st,
      errors_parseMethodLoadVerboseEvent_st,
      errors_parseMethodJittingStartedEvent_st]

/-- The uncompressed event decode never touches the error list. -/
theorem errors_parseUncompressedEvent (E : List String) :
    KeepsPred (fun s => s.errors = E) parseUncompressedEvent := by
  unfold parseUncompressedEvent
  dsimp only
  apply keepsPred_bind
  · exact keepsPred_liftRM _ _
  intro hb4
  apply keepsPred_ite
  · exact keepsPred_pure _ _
  · apply keepsPred_bind
    · exact keepsPred_liftRM _ _
    intro eventSize
    apply keepsPred_bind
    · exact keepsPred_liftRM _ _
    intro hbe
    apply keepsPred_ite
    · exact keepsPred_pure _ _
    · apply keepsPred_bind
      · exact keepsPred_liftRM _ _
      intro startOffset
      apply keepsPred_bind
      · exact keepsPred_liftRM _ _
      intro a1
      apply keepsPred_bind
      · exact keepsPred_liftRM _ _
      intro a2
      apply keepsPred_bind
      · exact keepsPred_liftRM _ _
      intro a3
      apply keepsPred_bind
      · exact keepsPred_liftRM _ _
      intro a4
      apply keepsPred_bind
      · exact keepsPred_liftRM _ _
      intro a5
      apply keepsPred_bind
      · exact keepsPred_liftRM _ _
      intro a6
      apply keepsPred_bind
      · exact keepsPred_liftRM _ _
      intro a7
      apply keepsPred_bind
      · exact keepsPred_liftRM _ _
      intro u0
      apply keepsPred_bind
      · exact keepsPred_liftRM _ _
      intro payloadSize
      apply keepsPred_bind
      · exact keepsPred_liftRM _ _
      intro hbp
      apply keepsPred_bind
      · apply keepsPred_ite
        · apply keepsPred_bind
          · exact keepsPred_liftRM _ _
          intro payload
          apply keepsPred_getSt_bind
          intro a ha
          apply keepsPred_modSt
          intro s hs
          rw [errors_processEvent]
          exact ha
        · exact keepsPred_pure _ _
      intro u1
      apply keepsPred_bind
      · exact keepsPred_liftRM _ _
      intro endOffset
      apply keepsPred_bind
      · apply keepsPred_ite
        · exact keepsPred_liftRM _ _
        · exact keepsPred_pure _ _
      intro u2
      exact keepsPred_pure _ _

/-- The event loop never touches the error list: a failing event
decode breaks the loop silently. -/
theorem errors_eventLoop (E : List String) (compressed : Bool) :
    ∀ (fuel : Nat) (es : EventState),
      KeepsPred (fun s => s.errors = E) (eventLoop compressed fuel es) := by
  intro fuel
  induction fuel with
  | zero => intro es; exact keepsPred_pure _ _
  | succ n ih =>
    intro es
    unfold eventLoop
    apply keepsPred_bind
    · exact keepsPred_liftRM _ _
    intro rem
    apply keepsPred_ite
    · apply keepsPred_ite
      · apply keepsPred_bind
        · exact keepsPred_pmTry _ _ (keepsPred_liftRM _ _)
        intro r
        cases r with
        | none => exact keepsPred_pure _ _
        | some p =>
          rcases p with ⟨ev, es2⟩
          dsimp only
          apply keepsPred_bind
          · cases hp : ev.payload with
            | some pl =>
              apply keepsPred_getSt_bind
              intro a ha
              apply keepsPred_modSt
              intro s hs
              rw [errors_processEvent]
              exact ha
            | none => exact keepsPred_pure _ _
          intro u
          exact ih es2
      · apply keepsPred_bind
        · exact keepsPred_pmTry _ _ (errors_parseUncompressedEvent E)
        intro r
        cases r with
        | none => exact keepsPred_pure _ _
        | some o =>
          cases o with
          | some u =>
            cases u
            exact ih es
          | none => exact keepsPred_pure _ _
    · exact keepsPred_pure _ _

/-- The whole event block body never touches the error list. -/
theorem errors_parseEventBlockM (E : List String) (dataLen : Nat) :
    KeepsPred (fun s => s.errors = E) (parseEventBlockM dataLen) := by
  unfold parseEventBlockM parseEvents
  dsimp only
  apply keepsPred_bind
  · exact keepsPred_liftRM _ _
  intro headerSize
  apply keepsPred_bind
  · exact keepsPred_liftRM _ _
  intro flags
  apply keepsPred_bind
  · exact keepsPred_liftRM _ _
  intro a1
  apply keepsPred_bind
  · exact keepsPred_liftRM _ _
  intro a2
  apply keepsPred_bind
  · apply keepsPred_ite
    · exact keepsPred_liftRM _ _
    · exact keepsPred_pure _ _
  intro u
  exact errors_eventLoop E _ _ _

/-- The event block parser never touches the error list, whether it
returns normally or with an error: every event-decode failure inside
is swallowed silently. -/
theorem errors_parseEventBlock_st (st : PSt) (data : List Nat) :
    (parseEventBlock st data).2.errors = st.errors := by
  unfold parseEventBlock runPM
  rcases hr : parseEventBlockM data.length st data 0 with ⟨r, st2, o⟩
  have hk := errors_parseEventBlockM st.errors data.length st data 0 rfl
  rw [hr] at hk
  exact hk

/-- The trace-blob body never touches the error list. -/
theorem errors_parseTraceBlobM (E : List String) :
    KeepsPred (fun s => s.errors = E) parseTraceBlobM := by
  unfold parseTraceBlobM
  dsimp only
  apply keepsPred_bind
  · exact keepsPred_liftRM _ _
  intro a1
  apply keepsPred_bind
  · exact keepsPred_liftRM _ _
  intro a2
  apply keepsPred_bind
  · exact keepsPred_liftRM _ _
  intro a3
  apply keepsPred_bind
  · exact keepsPred_liftRM _ _
  intro a4
  apply keepsPred_bind
  · exact keepsPred_liftRM _ _
  intro a5
  apply keepsPred_bind
  · exact keepsPred_liftRM _ _
  intro a6
  apply keepsPred_bind
  · exact keepsPred_liftRM _ _
  intro a7
  apply keepsPred_bind
  · exact keepsPred_liftRM _ _
  intro a8
  apply keepsPred_bind
  · exact keepsPred_liftRM _ _
  intro a9
  apply keepsPred_bind
  · exact keepsPred_liftRM _ _
  intro a10
  apply keepsPred_bind
  · exact keepsPred_liftRM _ _
  intro a11
  apply keepsPred_bind
  · exact keepsPred_liftRM _ _
  intro a12
  apply keepsPred_bind
  · exact keepsPred_modSt _ _ (fun s hs => hs)
  intro u1
  apply keepsPred_bind
  · exact keepsPred_liftRM _ _
  intro a13
  apply keepsPred_bind
  · exact keepsPred_liftRM _ _
  intro a14
  exact keepsPred_pure _ _

/-- `parseTraceBlob` never touches the error list. -/
theorem errors_parseTraceBlob_st (st : PSt) (data : List Nat) :
    (parseTraceBlob st data).2.errors = st.errors := by
  unfold parseTraceBlob runPM
  rcases hr : parseTraceBlobM st data 0 with ⟨r, st2, o⟩
  have hk := errors_parseTraceBlobM st.errors st data 0 rfl
  rw [hr] at hk
  exact hk

end NetTrace

namespace NetTrace

/-- A metadata (or event) block carrying a valid header and one
truncated compressed pseudo-event: a header byte with the MetadataId
flag set, then nothing, so the varint read fails. -/
def c9blk : List Nat :=
  [20, 0, 1, 0] ++ List.replicate 16 0 ++ [1]

/-- C9 counterexample: four silently swallowed errors.  A truncated
pseudo-event inside a metadata block and a truncated compressed event
inside an event block both fail internally, yet the block parsers
return ok, the error list stays empty, and `processBlock` records
nothing; an empty stack block and an empty metadata payload fail
internally with the same silence. -/
theorem claim9_counterexample :
    ((∃ e, (parseMetadataEvent true {} initSt c9blk 20).1 = Except.error e) ∧
     (parseMetadataBlock initSt c9blk).1 = Except.ok () ∧
     (parseMetadataBlock initSt c9blk).2.errors = [] ∧
     (processBlock initSt METADATA_BLOCK_TYPE c9blk).errors = []) ∧
    ((∃ e, (parseCompressedEvent {} c9blk 20).1 = Except.error e) ∧
     (parseEventBlock initSt c9blk).1 = Except.ok () ∧
     (parseEventBlock initSt c9blk).2.errors = [] ∧
     (processBlock initSt EVENT_BLOCK_TYPE c9blk).errors = []) ∧
    ((∃ e, (parseStackBlockM (List.length ([] : List Nat)) initSt [] 0).1 =
        Except.error e) ∧
     (parseStackBlock initSt []).errors = []) ∧
    ((∃ e, (runPM parseMetadataPayloadM initSt ([] : List Nat)).1 =
        Except.error e) ∧
     (parseMetadataPayload initSt []).errors = []) := by
  refine ⟨⟨⟨_, rfl⟩, rfl, rfl, rfl⟩, ⟨⟨_, rfl⟩, rfl, rfl, rfl⟩,
    ⟨⟨_, rfl⟩, rfl⟩, ⟨⟨_, rfl⟩, rfl⟩⟩

/-- C9 (corrected): the only errors ever recorded during block
processing are block-level failures surfaced to `processBlock`, which
appends exactly one descriptive string per failing block; `processBlock`
never appends more than one entry.  Everything inside the per-event
machinery is silent: the metadata and event block parsers never touch
the error list (their pseudo-event / event loops and
`parseMetadataPayload` swallow failures), and neither do the
stack-block parser or the well-known-event payload parsers
(GCAllocationTick, MethodLoadVerbose/MethodDCEndVerbose,
MethodJittingStarted). -/
theorem claim9_theorem :
    (∀ (st : PSt) (data : List Nat),
      (parseMetadataBlock st data).2.errors = st.errors) ∧
    (∀ (st : PSt) (data : List Nat),
      (parseEventBlock st data).2.errors = st.errors) ∧
    (∀ (st : PSt) (payload : List Nat),
      (parseMetadataPayload st payload).errors = st.errors) ∧
    (∀ (st : PSt) (data : List Nat),
      (parseStackBlock st data).errors = st.errors) ∧
    (∀ (st : PSt) (payload : List Nat) (ts sid : Nat),
      (parseAllocationEvent st payload ts sid).errors = st.errors) ∧
    (∀ (st : PSt) (payload : List Nat),
      (parseMethodLoadVerboseEvent st payload).errors = st.errors) ∧
    (∀ (st : PSt) (payload : List Nat),
      (parseMethodJittingStartedEvent st payload).errors = st.errors) ∧
    (∀ (st : PSt) (typeName data : List Nat),
      (processBlock st typeName data).errors = st.errors ∨
        ∃ e, (processBlock st typeName data).errors =
          st.errors ++ ["Error processing " ++ codesToString typeName ++ ": " ++ e]) ∧
    (∀ (st : PSt) (data : List Nat) (e : String) (st2 : PSt),
      parseMetadataBlock { st with metadataBlocks := st.metadataBlocks + 1 } data =
          (Except.error e, st2) →
      (processBlock st METADATA_BLOCK_TYPE data).errors =
        st.errors ++
          ["Error processing " ++ codesToString METADATA_BLOCK_TYPE ++ ": " ++ e]) ∧
    (∀ (st : PSt) (data : List Nat) (e : String) (st2 : PSt),
      parseEventBlock { st with eventBlocks := st.eventBlocks + 1 } data =
          (Except.error e, st2) →
      (processBlock st EVENT_BLOCK_TYPE data).errors =
        st.errors ++
          ["Error processing " ++ codesToString EVENT_BLOCK_TYPE ++ ": " ++ e]) := by
  refine ⟨errors_parseMetadataBlock_st, errors_parseEventBlock_st,
    errors_parseMetadataPayload_st, errors_parseStackBlock_st,
    errors_parseAllocationEvent_st, errors_parseMethodLoadVerboseEvent_st,
    errors_parseMethodJittingStartedEvent_st, ?_, ?_, ?_⟩
  · intro st ty data
    unfold processBlock
    dsimp only
    by_cases h1 : ty = TRACE_TYPE
    · rw [if_pos h1]
      rcases ht : parseTraceBlob st data with ⟨r, st2⟩
      have hpe : st2.errors = st.errors := by
        have h0 := errors_parseTraceBlob_st st data
        rw [ht] at h0
        exact h0
      cases r with
      | ok info => exact Or.inl hpe
      | error e => exact Or.inr ⟨e, by dsimp only; rw [hpe]⟩
    · rw [if_neg h1]
      by_cases h2 : ty = METADATA_BLOCK_TYPE
      · rw [if_pos h2]
        subst h2
        rcases hm : parseMetadataBlock
            { st with metadataBlocks := st.metadataBlocks + 1 } data with ⟨r, st2⟩
        have hpe : st2.errors = st.errors := by
          have h0 := errors_parseMetadataBlock_st
            { st with metadataBlocks := st.metadataBlocks + 1 } data
          rw [hm] at h0
          exact h0
        cases r with
        | ok u => exact Or.inl hpe
        | error e => exact Or.inr ⟨e, by dsimp only; rw [hpe]⟩
      · rw [if_neg h2]
        by_cases h3 : ty = EVENT_BLOCK_TYPE
        · rw [if_pos h3]
          subst h3
          rcases hm : parseEventBlock
              { st with eventBlocks := st.eventBlocks + 1 } data with ⟨r, st2⟩
          have hpe : st2.errors = st.errors := by
            have h0 := errors_parseEventBlock_st
              { st with eventBlocks := st.eventBlocks + 1 } data
            rw [hm] at h0
            exact h0
          cases r with
          | ok u => exact Or.inl hpe
          | error e => exact Or.inr ⟨e, by dsimp only; rw [hpe]⟩
        · rw [if_neg h3]
          by_cases h4 : ty = STACK_BLOCK_TYPE
          · rw [if_pos h4]
            exact Or.inl (errors_parseStackBlock_st st data)
          · rw [if_neg h4]
            exact Or.inl rfl
  · intro st data e st2 h
    unfold processBlock
    dsimp only
    rw [if_neg (show METADATA_BLOCK_TYPE = TRACE_TYPE → False by decide)]
    rw [if_pos rfl]
    rw [h]
    have hpe : st2.errors = st.errors := by
      have h0 := errors_parseMetadataBlock_st
        { st with metadataBlocks := st.metadataBlocks + 1 } data
      rw [h] at h0
      exact h0
    dsimp only
    rw [hpe]
  · intro st data e st2 h
    unfold processBlock
    dsimp only
    rw [if_neg (show EVENT_BLOCK_TYPE = TRACE_TYPE → False by decide)]
    rw [if_neg (show EVENT_BLOCK_TYPE = METADATA_BLOCK_TYPE → False by decide)]
    rw [if_pos rfl]
    rw [h]
    have hpe : st2.errors = st.errors := by
      have h0 := errors_parseEventBlock_st
        { st with eventBlocks := st.eventBlocks + 1 } data
      rw [h] at h0
      exact h0
    dsimp only
    rw [hpe]

/-- C9 witness: on concrete inputs, a truncated metadata block and a
truncated stack block leave the error list unchanged, while a metadata
block whose header read fails appends exactly one error string. -/
theorem claim9_witness :
    (parseMetadataBlock initSt c9blk).2.errors = initSt.errors ∧
    (parseStackBlock initSt []).errors = initSt.errors ∧
    (processBlock initSt METADATA_BLOCK_TYPE []).errors =
      initSt.errors ++
        ["Error processing " ++ codesToString METADATA_BLOCK_TYPE ++ ": " ++
          ("End of buffer at offset " ++ toString 0)] := by
  refine ⟨claim9_theorem.1 initSt c9blk, claim9_theorem.2.2.2.1 initSt [], ?_⟩
  exact claim9_theorem.2.2.2.2.2.2.2.2.1 initSt []
    ("End of buffer at offset " ++ toString 0)
    { initSt with metadataBlocks := initSt.metadataBlocks + 1 } rfl

end NetTrace

namespace NetTrace

/-- C2: when the magic is wrong, or no successfully read header string
starts with `!FastSerialization.1`, `parse` returns a result whose
tables are all empty and whose error list has exactly one entry. -/
theorem claim2_theorem (buf : List Nat)
    (h : buf.take 8 ≠ NETTRACE_MAGIC ∨
      (∀ (s : List Nat) (o : Nat),
        readAsciiString (toSigned 32 (u32At buf 8)) buf 12 = (Except.ok s, o) →
        FASTSER_HEADER.isPrefixOf s = false)) :
    (parse buf).traceInfo = none ∧
    (parse buf).metadata = [] ∧
    (parse buf).allocations = [] ∧
    (parse buf).stackTable = [] ∧
    (parse buf).methods = [] ∧
    (parse buf).methodProfiles = [] ∧
    (parse buf).allocationSamples = [] ∧
    (parse buf).errors.length = 1 := by
  have hrun : ∃ (m : String) (o : Nat),
      parseM initSt buf 0 = (Except.error m, initSt, o) := by
    unfold parseM
    rw [pm_bind_eq]
    have h1 : liftRM (fun (b : List Nat) (off : Nat) => (Except.ok b.length, off))
        initSt buf 0 = (Except.ok buf.length, initSt, 0) := rfl
    rw [h1]
    dsimp only
    by_cases hlen : buf.length < 32
    · rw [if_pos hlen]
      exact ⟨_, 0, rfl⟩
    · rw [if_neg hlen]
      rw [pm_bind_eq]
      have h2 : liftRM (fun (b : List Nat) (off : Nat) => (Except.ok (b.take 8), off))
          initSt buf 0 = (Except.ok (buf.take 8), initSt, 0) := rfl
      rw [h2]
      dsimp only
      by_cases hmg : buf.take 8 ≠ NETTRACE_MAGIC
      · rw [if_pos hmg]
        exact ⟨_, 0, rfl⟩
      · rw [if_neg hmg]
        push_neg at hmg
        rcases h with hbad | hhdr
        · exact absurd hmg hbad
        · rw [pm_bind_eq]
          have h3 : liftRM (rmSetOffset 8) initSt buf 0 = (Except.ok (), initSt, 8) := rfl
          rw [h3]
          dsimp only
          rw [pm_bind_eq]
          have hlen12 : 8 + 4 ≤ buf.length := by omega
          have h4 : readInt32LE buf 8 = (Except.ok (toSigned 32 (u32At buf 8)), 12) := by
            simp [readInt32LE, hlen12]
          rw [liftRM_mk _ _ _ _ _ _ h4]
          dsimp only
          rw [pm_bind_eq]
          rcases h5 : readAsciiString (toSigned 32 (u32At buf 8)) buf 12 with ⟨e5, o5⟩
          rw [liftRM_mk _ _ _ _ _ _ h5]
          cases e5 with
          | error m =>
            dsimp only
            exact ⟨m, o5, rfl⟩
          | ok s =>
            dsimp only
            have hp := hhdr s o5 h5
            rw [if_pos (by simp [hp])]
            exact ⟨_, o5, rfl⟩
  have key : ∃ m, parse buf = { initSt with errors := ["Parse error: " ++ m] } := by
    rcases hrun with ⟨m, o, hr⟩
    unfold parse
    rw [hr]
    exact ⟨m, rfl⟩
  rcases key with ⟨m, hm⟩
  rw [hm]
  exact ⟨rfl, rfl, rfl, rfl, rfl, rfl, rfl, rfl⟩

/-- C2 witness: the empty input has the wrong magic, and parsing it
yields empty tables and a single error. -/
theorem claim2_witness :
    ([] : List Nat).take 8 ≠ NETTRACE_MAGIC ∧
    ((parse []).traceInfo = none ∧
     (parse []).metadata = [] ∧
     (parse []).allocations = [] ∧
     (parse []).stackTable = [] ∧
     (parse []).methods = [] ∧
     (parse []).methodProfiles = [] ∧
     (parse []).allocationSamples = [] ∧
     (parse []).errors.length = 1) :=
  ⟨by decide, claim2_theorem [] (Or.inl (by decide))⟩

end NetTrace

namespace NetTrace

/-- Keys present after `amSet` are the new key or old keys. -/
theorem amSet_keys {κ α : Type} [DecidableEq κ] (l : List (κ × α)) (k : κ) (v : α)
    (k' : κ) (h : k' ∈ (amSet l k v).map Prod.fst) :
    k' = k ∨ k' ∈ l.map Prod.fst := by
  induction l with
  | nil => simp [amSet] at h; simp [h]
  | cons p rest ih =>
    simp only [amSet] at h
    by_cases hp : p.1 = k
    · rw [if_pos hp] at h
      simp at h
      rcases h with h | h
      · exact Or.inl h
      · exact Or.inr (by simp [h])
    · rw [if_neg hp] at h
      simp at h
      rcases h with h | h
      · exact Or.inr (by simp [h])
      · rcases ih (by simpa using h) with h1 | h1
        · exact Or.inl h1
        · exact Or.inr (by simp [h1])

/-- The method info with namespace `NS`, name `Foo`, placed at
`[0x1000, 0x1100)`. -/
def c7method : MethodInfo :=
  { methodId := 1, moduleId := 1, methodStartAddress := 0x1000,
    methodSize := 0x100, methodToken := 0, methodFlags := 0,
    methodNamespace := [78, 83], methodName := [70, 111, 111],
    methodSignature := [] }

/-- One sampled stack `[0x1000, 0x2000]` whose second frame lies in no
method interval. -/
def c7st : PSt :=
  { initSt with
      methods := [(1, c7method)],
      stackTable := [(1, { stackId := 1, addresses := [0x1000, 0x2000] })],
      cpuSamples := [(1, 1)] }

/-- C7 counterexample: in `computeMethodProfiles` the unresolved second
frame `0x2000` is keyed `"<unknown> 0x2000"`, and no profile is keyed
by the bare literal `"0x2000"` the claim names; the bare hex form
belongs to the flame-graph builder, not to this post-pass. -/
theorem claim7_counterexample :
    findMethodByAddress (methodAddressList c7st.methods) 0x2000 = none ∧
    amGet (computeMethodProfiles c7st).methodProfiles (unknownFrameName 0x2000) =
      some { methodName := unknownFrameName 0x2000, inclusiveCount := 1,
             exclusiveCount := 0, inclusiveTimeMs := 1, exclusiveTimeMs := 0 } ∧
    amGet (computeMethodProfiles c7st).methodProfiles (hexCodes 0x2000) = none ∧
    getMethodNameFlame (methodAddressList c7st.methods) 0x2000 = hexCodes 0x2000 := by
  refine ⟨by decide, ?_, by decide, by decide⟩
  decide

end NetTrace

namespace NetTrace

/-- C7 (corrected): an address contained in no method interval is
resolved by the flame-graph builder to the literal hex string
`0x<hex>`, while the `computeMethodProfiles` post-pass files it under
`<unknown> 0x<hex>`: every key that the per-stack crediting loop adds
to either counter map is a resolved method's full name or an
unresolved address's `<unknown> 0x<hex>` name — never the bare hex
literal. -/
theorem claim7_theorem :
    (∀ (arr : List MethodAddrEntry) (addr : Nat),
      findMethodByAddress arr addr = none →
      getMethodNameFlame arr addr = [48, 120] ++ hexDigits addr) ∧
    (∀ (arr : List MethodAddrEntry) (sc : Nat) (addrs : List Nat) (i : Nat)
       (seen : List (List Nat)) (excl incl : List (List Nat × Nat)) (k : List Nat),
      (k ∈ (creditStack arr sc addrs i seen excl incl).1.map Prod.fst ∨
       k ∈ (creditStack arr sc addrs i seen excl incl).2.map Prod.fst) →
      k ∈ excl.map Prod.fst ∨ k ∈ incl.map Prod.fst ∨
        ∃ addr, addr ∈ addrs ∧
          ((∃ m, findMethodByAddress arr addr = some m ∧ k = getMethodFullName m) ∨
           (findMethodByAddress arr addr = none ∧ k = unknownFrameName addr))) := by
  constructor
  · intro arr addr h
    unfold getMethodNameFlame
    rw [h]
    rfl
  · intro arr sc addrs
    induction addrs with
    | nil =>
      intro i seen excl incl k h
      unfold creditStack at h
      rcases h with h | h
      · exact Or.inl h
      · exact Or.inr (Or.inl h)
    | cons addr rest ih =>
      intro i seen excl incl k h
      unfold creditStack at h
      dsimp only at h
      have hname : ∀ (k' : List Nat),
          k' = (match findMethodByAddress arr addr with
                | some m => getMethodFullName m
                | none => unknownFrameName addr) →
          (∃ m, findMethodByAddress arr addr = some m ∧ k' = getMethodFullName m) ∨
          (findMethodByAddress arr addr = none ∧ k' = unknownFrameName addr) := by
        intro k' hk
        cases hf : findMethodByAddress arr addr with
        | some m => rw [hf] at hk; exact Or.inl ⟨m, rfl, hk⟩
        | none => rw [hf] at hk; exact Or.inr ⟨rfl, hk⟩
      rcases ih (i + 1) _ _ _ k h with h1 | h1 | h1
      · -- key came from the (possibly updated) exclusive map
        by_cases hi : i = 0
        · rw [if_pos hi] at h1
          rcases amSet_keys _ _ _ _ h1 with he | he
          · exact Or.inr (Or.inr ⟨addr, by simp, hname k he⟩)
          · exact Or.inl he
        · rw [if_neg hi] at h1
          exact Or.inl h1
      · -- key came from the (possibly updated) inclusive map
        by_cases hs : (match findMethodByAddress arr addr with
            | some m => getMethodFullName m
            | none => unknownFrameName addr) ∈ seen
        · rw [if_pos hs] at h1
          exact Or.inr (Or.inl h1)
        · rw [if_neg hs] at h1
          dsimp only at h1
          rcases amSet_keys _ _ _ _ h1 with he | he
          · exact Or.inr (Or.inr ⟨addr, by simp, hname k he⟩)
          · exact Or.inr (Or.inl he)
      · rcases h1 with ⟨a, ha, hp⟩
        exact Or.inr (Or.inr ⟨a, by simp [ha], hp⟩)

/-- C7 witness: with no known methods, the flame builder names frame
`0x2000` by its hex literal, and crediting the one-address stack
`[0x2000]` from empty maps files it under a resolved or
`<unknown>`-prefixed name. -/
theorem claim7_witness :
    getMethodNameFlame [] 0x2000 = [48, 120] ++ hexDigits 0x2000 ∧
    (unknownFrameName 0x2000 ∈
        (creditStack [] 1 [0x2000] 0 [] [] []).1.map Prod.fst ∨
      unknownFrameName 0x2000 ∈
        (creditStack [] 1 [0x2000] 0 [] [] []).2.map Prod.fst) ∧
    (unknownFrameName 0x2000 ∈ ([] : List (List Nat × Nat)).map Prod.fst ∨
     unknownFrameName 0x2000 ∈ ([] : List (List Nat × Nat)).map Prod.fst ∨
     ∃ addr, addr ∈ [0x2000] ∧
       ((∃ m, findMethodByAddress [] addr = some m ∧
           unknownFrameName 0x2000 = getMethodFullName m) ∨
        (findMethodByAddress [] addr = none ∧
           unknownFrameName 0x2000 = unknownFrameName addr))) := by
  refine ⟨claim7_theorem.1 [] 0x2000 (by decide), ?_, ?_⟩
  · exact Or.inl (by decide)
  · exact claim7_theorem.2 [] 1 [0x2000] 0 [] [] [] (unknownFrameName 0x2000)
      (Or.inl (by decide))

end NetTrace

namespace NetTrace

/-- One-step unfolding of the crediting loop. -/
theorem creditStack_cons (arr : List MethodAddrEntry) (sc addr : Nat)
    (rest : List Nat) (i : Nat) (seen : List (List Nat))
    (excl incl : List (List Nat × Nat)) :
    creditStack arr sc (addr :: rest) i seen excl incl =
      (fun (name : List Nat) =>
        creditStack arr sc rest (i + 1)
          (if name ∈ seen then (seen, incl)
           else (setAdd seen name,
                 amSet incl name ((amGet incl name).getD 0 + sc))).1
          (if i = 0 then amSet excl name ((amGet excl name).getD 0 + sc) else excl)
          (if name ∈ seen then (seen, incl)
           else (setAdd seen name,
                 amSet incl name ((amGet incl name).getD 0 + sc))).2)
        (match findMethodByAddress arr addr with
         | some m => getMethodFullName m
         | none => unknownFrameName addr) := rfl

/-- One crediting step keeps every exclusive counter below the
matching inclusive counter: the only exclusive bump (index 0) is
paired with an inclusive bump because nothing is `seen` yet. -/
theorem exin_step (sc i : Nat) (name : List Nat) (seen : List (List Nat))
    (excl incl : List (List Nat × Nat))
    (h : ∀ k, (amGet excl k).getD 0 ≤ (amGet incl k).getD 0)
    (hseen : i = 0 → seen = []) :
    ∀ k, (amGet (if i = 0 then amSet excl name ((amGet excl name).getD 0 + sc) else excl) k).getD 0 ≤
      (amGet (if name ∈ seen then (seen, incl)
          else (setAdd seen name,
                amSet incl name ((amGet incl name).getD 0 + sc))).2 k).getD 0 := by
  intro k
  by_cases hi : i = 0
  · have hs := hseen hi
    subst hs
    rw [if_pos hi, if_neg (List.not_mem_nil name)]
    dsimp only
    by_cases hk : k = name
    · subst hk
      rw [amGet_amSet_eq, amGet_amSet_eq]
      simp only [Option.getD_some]
      exact Nat.add_le_add_right (h k) sc
    · rw [amGet_amSet_ne _ _ _ _ hk, amGet_amSet_ne _ _ _ _ hk]
      exact h k
  · rw [if_neg hi]
    by_cases hmem : name ∈ seen
    · rw [if_pos hmem]
      exact h k
    · rw [if_neg hmem]
      dsimp only
      by_cases hk : k = name
      · subst hk
        rw [amGet_amSet_eq]
        simp only [Option.getD_some]
        exact le_trans (h k) (Nat.le_add_right _ _)
      · rw [amGet_amSet_ne _ _ _ _ hk]
        exact h k

/-- Through a whole stack, exclusive counters stay below inclusive
ones. -/
theorem creditStack_exin (arr : List MethodAddrEntry) (sc : Nat) :
    ∀ (addrs : List Nat) (i : Nat) (seen : List (List Nat))
      (excl incl : List (List Nat × Nat)),
      (∀ k, (amGet excl k).getD 0 ≤ (amGet incl k).getD 0) →
      (i = 0 → seen = []) →
      ∀ k, (amGet (creditStack arr sc addrs i seen excl incl).1 k).getD 0 ≤
           (amGet (creditStack arr sc addrs i seen excl incl).2 k).getD 0 := by
  intro addrs
  induction addrs with
  | nil =>
    intro i seen excl incl h _ k
    exact h k
  | cons addr rest ih =>
    intro i seen excl incl h hseen
    rw [creditStack_cons]
    exact ih (i + 1) _ _ _
      (exin_step sc i _ seen excl incl h hseen)
      (fun hc => absurd hc (Nat.succ_ne_zero i))

/-- Through the whole sample table, exclusive counters stay below
inclusive ones. -/
theorem accumSamples_exin (arr : List MethodAddrEntry)
    (stackTable : List (Nat × StackInfo)) :
    ∀ (samples : List (Nat × Nat)) (excl incl : List (List Nat × Nat)),
      (∀ k, (amGet excl k).getD 0 ≤ (amGet incl k).getD 0) →
      ∀ k, (amGet (accumSamples arr stackTable samples (excl, incl)).1 k).getD 0 ≤
           (amGet (accumSamples arr stackTable samples (excl, incl)).2 k).getD 0 := by
  intro samples
  induction samples with
  | nil =>
    intro excl incl h k
    exact h k
  | cons p rest ih =>
    intro excl incl h
    rcases p with ⟨sid, sc⟩
    unfold accumSamples
    cases hg : amGet stackTable sid with
    | none =>
      exact ih excl incl h
    | some stack =>
      dsimp only
      by_cases hempty : stack.addresses = []
      · rw [if_pos hempty]
        exact ih excl incl h
      · rw [if_neg hempty]
        exact ih _ _ (creditStack_exin arr sc stack.addresses 0 [] excl incl h (fun _ => rfl))

/-- Every profile inserted by the final fold obeys the bound. -/
theorem foldProfiles_exin (excl incl : List (List Nat × Nat))
    (hpt : ∀ k, (amGet excl k).getD 0 ≤ (amGet incl k).getD 0) :
    ∀ (names : List (List Nat)) (acc : List (List Nat × MethodProfile)),
      (∀ k p, amGet acc k = some p → p.exclusiveCount ≤ p.inclusiveCount) →
      ∀ (k : List Nat) (p : MethodProfile),
        amGet (names.foldl
          (fun ps name =>
            amSet ps name
              { methodName := name,
                inclusiveCount := (amGet incl name).getD 0,
                exclusiveCount := (amGet excl name).getD 0,
                inclusiveTimeMs := (amGet incl name).getD 0 * samplingIntervalMs,
                exclusiveTimeMs := (amGet excl name).getD 0 * samplingIntervalMs }) acc)
          k = some p →
        p.exclusiveCount ≤ p.inclusiveCount := by
  intro names
  induction names with
  | nil =>
    intro acc hacc k p hp
    exact hacc k p hp
  | cons name rest ih =>
    intro acc hacc k p hp
    rw [List.foldl_cons] at hp
    refine ih _ ?_ k p hp
    intro k' p' hp'
    rcases amGet_amSet_cases _ _ _ _ _ hp' with he | hold
    · rw [he]
      exact hpt name
    · exact hacc k' p' hold

end NetTrace

namespace NetTrace

/-- C10: every method profile emitted by the `computeMethodProfiles`
post-pass (which builds the table from scratch: `parse` runs it on an
empty profile table) has `exclusiveCount ≤ inclusiveCount` — exclusive
credit goes only to the top-of-stack frame, and that bump is always
paired with an inclusive bump since no name has been seen yet in that
stack. -/
theorem claim10_theorem (st : PSt) (hmp : st.methodProfiles = [])
    (k : List Nat) (p : MethodProfile)
    (h : amGet (computeMethodProfiles st).methodProfiles k = some p) :
    p.exclusiveCount ≤ p.inclusiveCount := by
  unfold computeMethodProfiles at h
  dsimp only at h
  rcases hacc : accumSamples (methodAddressList st.methods) st.stackTable
      st.cpuSamples ([], []) with ⟨excl, incl⟩
  rw [hacc] at h
  dsimp only at h
  have hpt : ∀ k', (amGet excl k').getD 0 ≤ (amGet incl k').getD 0 := by
    intro k'
    have := accumSamples_exin (methodAddressList st.methods) st.stackTable
      st.cpuSamples [] [] (fun _ => le_refl _) k'
    rw [hacc] at this
    exact this
  rw [hmp] at h
  exact foldProfiles_exin excl incl hpt _ []
    (fun k' p' hp' => by simp [amGet] at hp') k p h

/-- C10 witness: the sampled stack of `c7st` yields the profile
`<unknown> 0x2000` with exclusive count 0 ≤ inclusive count 1. -/
theorem claim10_witness :
    c7st.methodProfiles = [] ∧
    ∃ p, amGet (computeMethodProfiles c7st).methodProfiles (unknownFrameName 0x2000) =
        some p ∧ p.exclusiveCount ≤ p.inclusiveCount := by
  refine ⟨rfl, ?_⟩
  refine ⟨{ methodName := unknownFrameName 0x2000, inclusiveCount := 1, exclusiveCount := 0, inclusiveTimeMs := 1, exclusiveTimeMs := 0 }, by decide, ?_⟩
  exact claim10_theorem c7st rfl (unknownFrameName 0x2000) _ (by decide)

end NetTrace

namespace NetTrace

mutual

/-- The children-sum invariant, recursively: at every node the
children's weights sum to at most the node's weight. -/
def treeOK : FlameNode → Prop
  | .mk _ s _ _ cs => childSumF cs ≤ s ∧ treeOKL cs

/-- `treeOK` for every tree of a forest. -/
def treeOKL : List FlameNode → Prop
  | [] => True
  | c :: cs => treeOK c ∧ treeOKL cs

end

theorem treeOKL_iff (cs : List FlameNode) :
    treeOKL cs ↔ ∀ x ∈ cs, treeOK x := by
  induction cs with
  | nil => simp [treeOKL]
  | cons c rest ih =>
    rw [treeOKL, ih]
    constructor
    · rintro ⟨h1, h2⟩ x hx
      rcases List.mem_cons.mp hx with h | h
      · exact h ▸ h1
      · exact h2 x h
    · intro h
      exact ⟨h c (by simp), fun x hx => h x (by simp [hx])⟩

mutual

/-- `treeOK` bounds the children sum at every node of the tree. -/
theorem treeOK_allNodes : ∀ (t : FlameNode), treeOK t →
    ∀ n ∈ allNodes t, childSumF n.children ≤ n.samples
  | .mk a s z ty cs, h, n, hn => by
    rw [allNodes] at hn
    rcases List.mem_cons.mp hn with h1 | h1
    · subst h1
      exact h.1
    · exact treeOKL_allNodesL cs h.2 n h1

/-- `treeOKL` bounds the children sum at every node of the forest. -/
theorem treeOKL_allNodesL : ∀ (cs : List FlameNode), treeOKL cs →
    ∀ n ∈ allNodesL cs, childSumF n.children ≤ n.samples
  | [], _, n, hn => by simp [allNodesL] at hn
  | c :: cs, h, n, hn => by
    rw [allNodesL] at hn
    rcases List.mem_append.mp hn with h1 | h1
    · exact treeOK_allNodes c h.1 n h1
    · exact treeOKL_allNodesL cs h.2 n h1

end

/-- Inserting a path adds exactly the inserted weight to the node. -/
theorem insertPath_samples (c sz : Nat) (tys : List (List Nat × CountSize)) :
    ∀ (path : List (List Nat)) (n : FlameNode),
      (insertPath c sz tys path n).samples = n.samples + c := by
  intro path n
  cases path with
  | nil => rfl
  | cons nm rest =>
    rw [insertPath]
    cases hf : findNamedChild (bumpNode n c sz tys).children nm with
    | some ch => rfl
    | none => rfl

theorem childSumF_append (a b : List FlameNode) :
    childSumF (a ++ b) = childSumF a + childSumF b := by
  simp [childSumF]

/-- A found child is a member of the child list. -/
theorem findNamedChild_mem :
    ∀ (cs : List FlameNode) (nm : List Nat) (ch : FlameNode),
      findNamedChild cs nm = some ch → ch ∈ cs := by
  intro cs
  induction cs with
  | nil => intro nm ch h; simp [findNamedChild] at h
  | cons c rest ih =>
    intro nm ch h
    rw [findNamedChild] at h
    by_cases hc : c.name = nm
    · rw [if_pos hc] at h
      injection h with h
      simp [h]
    · rw [if_neg hc] at h
      exact List.mem_cons_of_mem _ (ih nm ch h)

/-- Replacing the found child shifts the children sum by the
difference of the two nodes' weights. -/
theorem replaceNamedChild_sum :
    ∀ (cs : List FlameNode) (nm : List Nat) (nc ch : FlameNode),
      findNamedChild cs nm = some ch →
      childSumF (replaceNamedChild cs nm nc) + ch.samples =
        childSumF cs + nc.samples := by
  intro cs
  induction cs with
  | nil => intro nm nc ch h; simp [findNamedChild] at h
  | cons c rest ih =>
    intro nm nc ch h
    rw [findNamedChild] at h
    rw [replaceNamedChild]
    by_cases hc : c.name = nm
    · rw [if_pos hc] at h
      rw [if_pos hc]
      injection h with h
      subst h
      simp [childSumF]
      omega
    · rw [if_neg hc] at h
      rw [if_neg hc]
      have := ih nm nc ch h
      simp [childSumF] at this ⊢
      omega

/-- Members of the replaced list are the new child or old members. -/
theorem replaceNamedChild_mem :
    ∀ (cs : List FlameNode) (nm : List Nat) (nc x : FlameNode),
      x ∈ replaceNamedChild cs nm nc → x = nc ∨ x ∈ cs := by
  intro cs
  induction cs with
  | nil => intro nm nc x h; simp [replaceNamedChild] at h
  | cons c rest ih =>
    intro nm nc x h
    rw [replaceNamedChild] at h
    by_cases hc : c.name = nm
    · rw [if_pos hc] at h
      rcases List.mem_cons.mp h with h1 | h1
      · exact Or.inl h1
      · exact Or.inr (List.mem_cons_of_mem _ h1)
    · rw [if_neg hc] at h
      rcases List.mem_cons.mp h with h1 | h1
      · exact Or.inr (by simp [h1])
      · rcases ih nm nc x h1 with h2 | h2
        · exact Or.inl h2
        · exact Or.inr (List.mem_cons_of_mem _ h2)

end NetTrace

namespace NetTrace

theorem samples_mk (a : List Nat) (s z : Nat) (ty : List (List Nat × CountSize))
    (cs : List FlameNode) : (FlameNode.mk a s z ty cs).samples = s := rfl

theorem name_mk (a : List Nat) (s z : Nat) (ty : List (List Nat × CountSize))
    (cs : List FlameNode) : (FlameNode.mk a s z ty cs).name = a := rfl

theorem size_mk (a : List Nat) (s z : Nat) (ty : List (List Nat × CountSize))
    (cs : List FlameNode) : (FlameNode.mk a s z ty cs).size = z := rfl

theorem types_mk (a : List Nat) (s z : Nat) (ty : List (List Nat × CountSize))
    (cs : List FlameNode) : (FlameNode.mk a s z ty cs).types = ty := rfl

theorem children_mk (a : List Nat) (s z : Nat) (ty : List (List Nat × CountSize))
    (cs : List FlameNode) : (FlameNode.mk a s z ty cs).children = cs := rfl

/-- Inserting a path preserves the children-sum invariant. -/
theorem treeOK_insertPath (c sz : Nat) (tys : List (List Nat × CountSize)) :
    ∀ (path : List (List Nat)) (n : FlameNode),
      treeOK n → treeOK (insertPath c sz tys path n) := by
  intro path
  induction path with
  | nil =>
    intro n h
    cases n with
    | mk a s z ty cs =>
      rw [insertPath]
      simp only [bumpNode, samples_mk, name_mk, size_mk, types_mk, children_mk]
      exact ⟨le_trans h.1 (Nat.le_add_right s c), h.2⟩
  | cons nm rest ih =>
    intro n h
    cases n with
    | mk a s z ty cs =>
      rw [insertPath]
      cases hf : findNamedChild (bumpNode (FlameNode.mk a s z ty cs) c sz tys).children nm with
      | some ch =>
        have hmem : ch ∈ cs := findNamedChild_mem _ _ _ hf
        have hchok : treeOK ch := (treeOKL_iff cs).mp h.2 ch hmem
        have hsum := replaceNamedChild_sum cs nm (insertPath c sz tys rest ch) ch hf
        constructor
        · have hins := insertPath_samples c sz tys rest ch
          have h1 := h.1
          simp only [bumpNode, samples_mk, name_mk, size_mk, types_mk,
            children_mk] at hsum ⊢
          omega
        · rw [treeOKL_iff]
          intro x hx
          rcases replaceNamedChild_mem _ _ _ _ hx with h1 | h1
          · rw [h1]
            exact ih ch hchok
          · exact (treeOKL_iff cs).mp h.2 x h1
      | none =>
        constructor
        · have hins := insertPath_samples c sz tys rest (FlameNode.mk nm 0 0 [] [])
          have h1 := h.1
          simp only [bumpNode, samples_mk, name_mk, size_mk, types_mk,
            children_mk] at hins ⊢
          rw [childSumF_append]
          simp only [childSumF, List.map_cons, List.map_nil, List.sum_cons,
            List.sum_nil] at hins h1 ⊢
          omega
        · rw [treeOKL_iff]
          intro x hx
          rcases List.mem_append.mp hx with h1 | h1
          · exact (treeOKL_iff cs).mp h.2 x h1
          · have hx1 : x = insertPath c sz tys rest (FlameNode.mk nm 0 0 [] []) := by
              simpa using h1
            rw [hx1]
            exact ih _ ⟨le_refl 0, trivial⟩

/-- The tree-building loop adds exactly the processed weight to the
root. -/
theorem flameInsertAll_samples (arr : List MethodAddrEntry)
    (stackTable : List (Nat × StackInfo)) :
    ∀ (samples : List (Nat × AllocSample)) (root : FlameNode),
      (flameInsertAll arr stackTable samples root).samples =
        root.samples + processedWeight stackTable samples := by
  intro samples
  induction samples with
  | nil =>
    intro root
    rw [flameInsertAll, processedWeight]
    omega
  | cons p rest ih =>
    intro root
    rcases p with ⟨stackId, data⟩
    rw [flameInsertAll, processedWeight]
    cases hg : amGet stackTable stackId with
    | none =>
      dsimp only
      rw [ih root]
      omega
    | some stack =>
      dsimp only
      by_cases he : stack.addresses = []
      · rw [if_pos he, if_pos he, ih root]
        omega
      · rw [if_neg he, if_neg he, ih, insertPath_samples]
        omega

/-- The tree-building loop preserves the children-sum invariant. -/
theorem flameInsertAll_treeOK (arr : List MethodAddrEntry)
    (stackTable : List (Nat × StackInfo)) :
    ∀ (samples : List (Nat × AllocSample)) (root : FlameNode),
      treeOK root → treeOK (flameInsertAll arr stackTable samples root) := by
  intro samples
  induction samples with
  | nil =>
    intro root h
    rw [flameInsertAll]
    exact h
  | cons p rest ih =>
    intro root h
    rcases p with ⟨stackId, data⟩
    rw [flameInsertAll]
    cases hg : amGet stackTable stackId with
    | none => exact ih root h
    | some stack =>
      dsimp only
      by_cases he : stack.addresses = []
      · rw [if_pos he]
        exact ih root h
      · rw [if_neg he]
        exact ih _ (treeOK_insertPath _ _ _ _ root h)

end NetTrace

namespace NetTrace

/-- C4: in both flame-graph variants, every node of the built tree has
children whose weights sum to at most the node's weight, and the
root's weight equals the sum of the weights of the inserted sample
entries (those whose stack id resolves to a non-empty stack record). -/
theorem claim4_theorem (mode : FlameMode) (stackTable : List (Nat × StackInfo))
    (methods : List (Nat × MethodInfo))
    (methodProfiles : List (List Nat × MethodProfile))
    (allocationSamples : List (Nat × AllocSample)) (t : FlameNode)
    (h : buildFlameTree mode stackTable methods methodProfiles allocationSamples =
      some t) :
    (∀ n ∈ allNodes t, childSumF n.children ≤ n.samples) ∧
    t.samples =
      processedWeight stackTable
        (flameSampleData mode stackTable allocationSamples) := by
  unfold buildFlameTree at h
  by_cases h1 : stackTable = []
  · rw [if_pos h1] at h
    exact absurd h (by simp)
  · rw [if_neg h1] at h
    by_cases h2 : mode = FlameMode.cpu ∧ methodProfiles = []
    · rw [if_pos h2] at h
      exact absurd h (by simp)
    · rw [if_neg h2] at h
      by_cases h3 : mode = FlameMode.allocation ∧ allocationSamples = []
      · rw [if_pos h3] at h
        exact absurd h (by simp)
      · rw [if_neg h3] at h
        dsimp only at h
        injection h with h
        subst h
        constructor
        · exact treeOK_allNodes _
            (flameInsertAll_treeOK _ _ _ _ ⟨le_refl 0, trivial⟩)
        · rw [flameInsertAll_samples]
          rw [samples_mk]
          omega

/-- Stack table of the concrete C4 scenario. -/
def c4stacks : List (Nat × StackInfo) :=
  [(1, { stackId := 1, addresses := [0x1000, 0x2000] })]

/-- Method-profile table of the concrete C4 scenario (non-empty so the
CPU-mode guard passes). -/
def c4profiles : List (List Nat × MethodProfile) :=
  [(ROOT_NAME, { methodName := ROOT_NAME, inclusiveCount := 0,
                 exclusiveCount := 0, inclusiveTimeMs := 0,
                 exclusiveTimeMs := 0 })]

/-- C4 witness: a concrete CPU-mode tree over one two-frame stack. -/
theorem claim4_witness :
    ∃ t, buildFlameTree FlameMode.cpu c4stacks [(1, c7method)] c4profiles [] =
        some t ∧
      ((∀ n ∈ allNodes t, childSumF n.children ≤ n.samples) ∧
       t.samples =
         processedWeight c4stacks (flameSampleData FlameMode.cpu c4stacks [])) := by
  refine ⟨_, rfl, ?_⟩
  exact claim4_theorem FlameMode.cpu c4stacks [(1, c7method)] c4profiles [] _ rfl

end NetTrace
